import Mathlib

/-!
# Verification of the HayoTrans core against its specification

This file gives a shallow embedding, in Lean 4, of the two cores of the
HayoTrans repository:

* the RGSS archive codec (`src-tauri/src/archiver/rgss/`): the LCG keystream
  (`key.rs`), the sequential V1 and indexed V3 archive layouts
  (`reader.rs`, `writer.rs`), and
* the event-command translation engine
  (`src-tauri/src/parser/`): JSON values, event commands (`command.rs`),
  translation paths and path patterns (`translation_path.rs`), extraction and
  injection options (`options.rs`), the extraction context (`context.rs`),
  the per-opcode handlers (`handlers/*.rs`), and the page walker
  (`event_page.rs`).

Machine integers (`u32`) are modelled as `Nat` with explicit `% 2 ^ 32`
wrap-around at the points where the Rust code relies on wrapping semantics
or on the width of the type.  Byte strings are `List Nat`; Rust `String`s
are `List Char` (`Str` below).  Fallible operations return `Option`.
-/

set_option maxHeartbeats 1000000

/-! ## Part 1: the RGSS keystream (`archiver/rgss/key.rs`) -/

/-- `archiver/rgss/version.rs`: the two supported archive versions. -/
inductive RgssVersion : Type
  | V1
  | V3
deriving DecidableEq, Repr

/-- `archiver/rgss/mod.rs`: `pub const V1_INITIAL_KEY: u32 = 0xDEADCAFE`. -/
def V1_INITIAL_KEY : Nat := 0xDEADCAFE

/-- The `u32` wrap-around modulus. -/
def U32 : Nat := 2 ^ 32

/-- `archiver/rgss/key.rs`: `RgssKey { state, multiplier, accumulator }`.
All three fields are `u32`, modelled as `Nat` kept below `2 ^ 32`. -/
structure RgssKey where
  state : Nat
  multiplier : Nat
  accumulator : Nat
deriving DecidableEq, Repr

namespace RgssKey

/-- `RgssKey::new`: constants per version; the initial state is `0` for both
versions (the fixed V1 seed is supplied separately via `with_state`). -/
def new (version : RgssVersion) : RgssKey :=
  match version with
  | .V1 => { state := 0, multiplier := 7, accumulator := 3 }
  | .V3 => { state := 0, multiplier := 9, accumulator := 3 }

/-- `RgssKey::with_state`: `new` then overwrite the state.  The `% U32`
models the `u32` type of the `state` parameter. -/
def with_state (version : RgssVersion) (state : Nat) : RgssKey :=
  { new version with state := state % U32 }

/-- `RgssKey::step`: `state = state.wrapping_mul(multiplier).wrapping_add(accumulator)`. -/
def step (k : RgssKey) : RgssKey :=
  { k with state := (k.state * k.multiplier + k.accumulator) % U32 }

/-- `RgssKey::current`. -/
def current (k : RgssKey) : Nat := k.state

/-- `RgssKey::decrypt_int`: XOR with the state, then step.
Returns the decrypted value together with the stepped key. -/
def decrypt_int (k : RgssKey) (value : Nat) : Nat × RgssKey :=
  (value ^^^ k.state, k.step)

/-- `RgssKey::encrypt_int` — XOR encryption is symmetric, delegates to
`decrypt_int`. -/
def encrypt_int (k : RgssKey) (value : Nat) : Nat × RgssKey :=
  k.decrypt_int value

/-- `RgssKey::decrypt_string_v1`: each byte is XORed with the lowest byte of
the key, then the key is stepped (one LCG step per byte).  Returns the
decrypted bytes and the final key. -/
def decrypt_string_v1 (k : RgssKey) : List Nat → List Nat × RgssKey
  | [] => ([], k)
  | b :: rest =>
      let r := decrypt_string_v1 k.step rest
      ((b ^^^ k.state % 256) :: r.1, r.2)

/-- `RgssKey::encrypt_string_v1` — symmetric, delegates to `decrypt_string_v1`. -/
def encrypt_string_v1 (k : RgssKey) (data : List Nat) : List Nat × RgssKey :=
  k.decrypt_string_v1 data

/-- Helper for `decrypt_string_v3`: byte at absolute index `i` is XORed with
key byte `(state >> ((i % 4) * 8)) & 0xFF`. -/
def decrypt_string_v3_from (k : RgssKey) (i : Nat) : List Nat → List Nat
  | [] => []
  | b :: rest => (b ^^^ (k.state >>> ((i % 4) * 8)) % 256) :: decrypt_string_v3_from k (i + 1) rest

/-- `RgssKey::decrypt_string_v3`: each byte is XORed with a byte of the key
chosen cyclically by its index; the key is **not** stepped (the Rust method
takes `&self`, so the keystream state cannot change). -/
def decrypt_string_v3 (k : RgssKey) (data : List Nat) : List Nat :=
  decrypt_string_v3_from k 0 data

/-- `RgssKey::encrypt_string_v3` — symmetric, delegates to `decrypt_string_v3`. -/
def encrypt_string_v3 (k : RgssKey) (data : List Nat) : List Nat :=
  k.decrypt_string_v3 data

/-- `RgssKey::decrypt_content`: each group of 4 bytes is XORed with the four
key bytes (little-endian), and the key is stepped after every full group of
4 bytes.  A trailing partial group does not step the key (the final state is
unused by all callers, so only the bytes are returned). -/
def decrypt_content (k : RgssKey) : List Nat → List Nat
  | [] => []
  | [b0] => [b0 ^^^ k.state % 256]
  | [b0, b1] => [b0 ^^^ k.state % 256, b1 ^^^ (k.state >>> 8) % 256]
  | [b0, b1, b2] =>
      [b0 ^^^ k.state % 256, b1 ^^^ (k.state >>> 8) % 256, b2 ^^^ (k.state >>> 16) % 256]
  | b0 :: b1 :: b2 :: b3 :: rest =>
      (b0 ^^^ k.state % 256) :: (b1 ^^^ (k.state >>> 8) % 256) ::
      (b2 ^^^ (k.state >>> 16) % 256) :: (b3 ^^^ (k.state >>> 24) % 256) ::
      decrypt_content k.step rest

/-- `RgssKey::encrypt_content` — symmetric, delegates to `decrypt_content`. -/
def encrypt_content (k : RgssKey) (data : List Nat) : List Nat :=
  k.decrypt_content data

end RgssKey

/-- `k.stepN n`: the key after `n` LCG steps. -/
def RgssKey.stepN (k : RgssKey) (n : Nat) : RgssKey :=
  match n with
  | 0 => k
  | n + 1 => (k.step).stepN n

theorem RgssKey.stepN_succ (k : RgssKey) (n : Nat) :
    k.stepN (n + 1) = (k.step).stepN n := rfl

theorem RgssKey.stepN_zero (k : RgssKey) : k.stepN 0 = k := rfl

/-! ### Basic facts about the string ciphers (towards C6) -/

theorem RgssKey.decrypt_string_v1_length (k : RgssKey) (data : List Nat) :
    (k.decrypt_string_v1 data).1.length = data.length := by
  induction data generalizing k with
  | nil => rfl
  | cons b rest ih => simpa [RgssKey.decrypt_string_v1] using ih k.step

theorem RgssKey.decrypt_string_v1_getElem (k : RgssKey) (data : List Nat)
    (i : Nat) (h : i < data.length) :
    GetElem.getElem (k.decrypt_string_v1 data).1 i (by rw [RgssKey.decrypt_string_v1_length]; exact h) =
      data[i] ^^^ (k.stepN i).state % 256 := by
  induction data generalizing k i with
  | nil => simp at h
  | cons b rest ih =>
      cases i with
      | zero => simp [RgssKey.decrypt_string_v1, RgssKey.stepN]
      | succ j =>
          have hj : j < rest.length := by simpa using h
          simpa [RgssKey.decrypt_string_v1, RgssKey.stepN_succ] using ih k.step j hj

theorem RgssKey.decrypt_string_v1_key (k : RgssKey) (data : List Nat) :
    (k.decrypt_string_v1 data).2 = k.stepN data.length := by
  induction data generalizing k with
  | nil => rfl
  | cons b rest ih =>
      simpa [RgssKey.decrypt_string_v1, RgssKey.stepN_succ] using ih k.step

theorem RgssKey.decrypt_string_v3_from_getElem (k : RgssKey) (j : Nat) (data : List Nat)
    (i : Nat) (h : i < (RgssKey.decrypt_string_v3_from k j data).length) (h2 : i < data.length) :
    (RgssKey.decrypt_string_v3_from k j data)[i] =
      data[i] ^^^ (k.state >>> (((j + i) % 4) * 8)) % 256 := by
  induction data generalizing j i with
  | nil => simp at h2
  | cons b rest ih =>
      cases i with
      | zero => simp [RgssKey.decrypt_string_v3_from]
      | succ m =>
          have hm2 : m < rest.length := by simpa using h2
          have hm : m < (RgssKey.decrypt_string_v3_from k (j + 1) rest).length := by
            simp [RgssKey.decrypt_string_v3_from] at h
            omega
          have heq : j + (m + 1) = (j + 1) + m := by omega
          simp only [RgssKey.decrypt_string_v3_from, List.getElem_cons_succ, heq]
          exact ih (j + 1) m hm hm2

theorem RgssKey.decrypt_string_v3_length (k : RgssKey) (data : List Nat) :
    (k.decrypt_string_v3 data).length = data.length := by
  show (RgssKey.decrypt_string_v3_from k 0 data).length = data.length
  induction data generalizing k with
  | nil => rfl
  | cons b rest ih =>
      simp only [RgssKey.decrypt_string_v3_from, List.length_cons]
      have : ∀ j, (RgssKey.decrypt_string_v3_from k j rest).length = rest.length := by
        clear ih
        induction rest with
        | nil => intro j; rfl
        | cons c cs ihr =>
            intro j
            simpa [RgssKey.decrypt_string_v3_from] using ihr (j + 1)
      simp [this]

/-! ### Claim C6: the V1 and V3 string ciphers -/

/-- C6 (confirmed).  For every byte sequence and keystream state: the V1
string cipher XORs byte `i` with the low 8 bits of the state after `i` LCG
steps and its final key has advanced by exactly one step per byte processed,
while the V3 string cipher XORs byte `i` with byte
`(state >> (8 * (i % 4))) & 0xFF`.  The V3 cipher leaves the keystream state
completely unchanged: in the Rust source `decrypt_string_v3` takes `&self`,
which the embedding reflects by `decrypt_string_v3` being a pure function of
the key that returns only the output bytes. -/
theorem C6_string_ciphers (k : RgssKey) (data : List Nat) (i : Nat) (h : i < data.length) :
    GetElem.getElem (k.decrypt_string_v1 data).1 i (by rw [RgssKey.decrypt_string_v1_length]; exact h) =
        data[i] ^^^ (k.stepN i).state % 256 ∧
    (k.decrypt_string_v1 data).2 = k.stepN data.length ∧
    GetElem.getElem (k.decrypt_string_v3 data) i (by rw [RgssKey.decrypt_string_v3_length]; exact h) =
        data[i] ^^^ (k.state >>> ((i % 4) * 8)) % 256 := by
  refine ⟨RgssKey.decrypt_string_v1_getElem k data i h, RgssKey.decrypt_string_v1_key k data, ?_⟩
  have := RgssKey.decrypt_string_v3_from_getElem k 0 data i
    (by rw [show (RgssKey.decrypt_string_v3_from k 0 data) = k.decrypt_string_v3 data from rfl,
            RgssKey.decrypt_string_v3_length]; exact h) h
  simpa [RgssKey.decrypt_string_v3] using this

/-- Witness for C6 at a concrete key, byte string and index. -/
theorem C6_string_ciphers_witness :
    2 < ([65, 66, 67] : List Nat).length ∧
    (GetElem.getElem ((RgssKey.with_state .V1 V1_INITIAL_KEY).decrypt_string_v1 [65, 66, 67]).1 2 (by
        rw [RgssKey.decrypt_string_v1_length]; decide) =
      67 ^^^ ((RgssKey.with_state .V1 V1_INITIAL_KEY).stepN 2).state % 256 ∧
    ((RgssKey.with_state .V1 V1_INITIAL_KEY).decrypt_string_v1 [65, 66, 67]).2 =
      (RgssKey.with_state .V1 V1_INITIAL_KEY).stepN 3 ∧
    GetElem.getElem ((RgssKey.with_state .V1 V1_INITIAL_KEY).decrypt_string_v3 [65, 66, 67]) 2 (by
        rw [RgssKey.decrypt_string_v3_length]; decide) =
      67 ^^^ ((RgssKey.with_state .V1 V1_INITIAL_KEY).state >>> ((2 % 4) * 8)) % 256) :=
  ⟨by decide, C6_string_ciphers (RgssKey.with_state .V1 V1_INITIAL_KEY) [65, 66, 67] 2 (by decide)⟩

/-! ### Claim C7: the keystream constructor -/

/-- C7 counterexample.  The claim states that `new(V1)` returns an initial
state equal to the fixed seed `0xDEADCAFE`; in the code `new` returns state
`0` for both versions (the seed is supplied separately through
`with_state`). -/
theorem C7_new_counterexample :
    (RgssKey.new .V1).state = 0 ∧ (RgssKey.new .V1).state ≠ 0xDEADCAFE := by
  constructor
  · rfl
  · decide

/-- C7 (amended).  `new(version)` returns the version's LCG constants
(V1: multiplier 7, accumulator 3; V3: multiplier 9, accumulator 3) with
initial state `0` for both versions; the fixed V1 seed `0xDEADCAFE` is not
set by `new` but supplied via `with_state` (as `V1_INITIAL_KEY`) by the V1
reader and writer, and `with_state` keeps the version's constants while
overwriting only the state, which then steps by the version's LCG rule. -/
theorem C7_new_amended (v : RgssVersion) (s : Nat) (hs : s < U32) :
    (RgssKey.new .V1).multiplier = 7 ∧ (RgssKey.new .V1).accumulator = 3 ∧
    (RgssKey.new .V1).state = 0 ∧
    (RgssKey.new .V3).multiplier = 9 ∧ (RgssKey.new .V3).accumulator = 3 ∧
    (RgssKey.new .V3).state = 0 ∧
    RgssKey.with_state v s = { RgssKey.new v with state := s } ∧
    (RgssKey.with_state .V1 V1_INITIAL_KEY).state = V1_INITIAL_KEY ∧
    ((RgssKey.with_state .V1 s).step).state = (s * 7 + 3) % U32 ∧
    ((RgssKey.with_state .V3 s).step).state = (s * 9 + 3) % U32 := by
  have hmod : s % U32 = s := Nat.mod_eq_of_lt hs
  refine ⟨rfl, rfl, rfl, rfl, rfl, rfl, ?_, ?_, ?_, ?_⟩
  · cases v <;> simp [RgssKey.with_state, RgssKey.new, hmod]
  · decide
  · simp [RgssKey.with_state, RgssKey.new, RgssKey.step, hmod]
  · simp [RgssKey.with_state, RgssKey.new, RgssKey.step, hmod]

/-- Witness for C7 (amended) at a concrete seed. -/
theorem C7_new_amended_witness :
    (0x12345678 : Nat) < U32 ∧
    (((RgssKey.with_state .V1 0x12345678).step).state = (0x12345678 * 7 + 3) % U32 ∧
      ((RgssKey.with_state .V3 0x12345678).step).state = (0x12345678 * 9 + 3) % U32) :=
  ⟨by decide,
   ⟨(C7_new_amended .V1 0x12345678 (by decide)).2.2.2.2.2.2.2.2.1,
    (C7_new_amended .V1 0x12345678 (by decide)).2.2.2.2.2.2.2.2.2⟩⟩

/-! ## Part 2: the RGSS archive reader and writer
(`archiver/rgss/mod.rs`, `reader.rs`, `writer.rs`)

An archive file is a `List Nat` of bytes.  Reading is modelled positionally:
`readBytes ar pos n` models `read_exact` of `n` bytes at stream position
`pos` (failing when the file is too short). -/

/-- `archiver/rgss/mod.rs`: `pub const MAGIC: &[u8; 7] = b"RGSSAD\0"`. -/
def RGSS_MAGIC : List Nat := [82, 71, 83, 83, 65, 68, 0]

/-- `RgssVersion::header_byte`. -/
def RgssVersion.header_byte (v : RgssVersion) : Nat :=
  match v with
  | .V1 => 1
  | .V3 => 3

/-- `archiver/rgss/mod.rs`: `RgssEntry { name, size, offset, key }`.  The
name is kept as its byte string (Rust decodes it with `from_utf8_lossy`,
which is the identity on valid UTF-8). -/
structure RgssEntry where
  name : List Nat
  size : Nat
  offset : Nat
  key : Nat
deriving DecidableEq, Repr

/-- Little-endian byte encoding of a `u32` (`u32::to_le_bytes`). -/
def toLE4 (x : Nat) : List Nat :=
  [x % 256, x / 256 % 256, x / 65536 % 256, x / 16777216 % 256]

/-- Little-endian decoding of four bytes (`u32::from_le_bytes`). -/
def fromLE4 (b0 b1 b2 b3 : Nat) : Nat :=
  b0 + 256 * b1 + 65536 * b2 + 16777216 * b3

/-- `read_exact` of `n` bytes at position `pos`: `some` of the bytes when the
file is long enough, `none` otherwise. -/
def readBytes (ar : List Nat) (pos n : Nat) : Option (List Nat) :=
  if pos + n ≤ ar.length then some ((ar.drop pos).take n) else none

/-- Read a little-endian `u32` at position `pos`. -/
def readU32 (ar : List Nat) (pos : Nat) : Option Nat :=
  match readBytes ar pos 4 with
  | some [b0, b1, b2, b3] => some (fromLE4 b0 b1 b2 b3)
  | _ => none

namespace RgssWriter

/-- One loop turn of `RgssWriter::write_v1`, for the whole entry list:
encrypted name length, encrypted name (byte-stepping cipher), encrypted
size, then the payload encrypted with a fresh content key seeded at the
main keystream's current state.  `% U32` models the `as u32` casts on the
lengths. -/
def write_v1_records (k : RgssKey) : List (List Nat × List Nat) → List Nat
  | [] => []
  | (name, data) :: rest =>
      let el := k.encrypt_int (name.length % U32)
      let en := el.2.encrypt_string_v1 name
      let es := en.2.encrypt_int (data.length % U32)
      let contentKey := RgssKey.with_state .V1 es.2.current
      toLE4 el.1 ++ en.1 ++ toLE4 es.1 ++ contentKey.encrypt_content data ++
        write_v1_records es.2 rest

/-- `RgssWriter::write_v1`: magic, version byte, then the records, with the
main keystream seeded at `0xDEADCAFE`. -/
def write_v1 (entries : List (List Nat × List Nat)) : List Nat :=
  RGSS_MAGIC ++ [RgssVersion.header_byte .V1] ++
    write_v1_records (RgssKey.with_state .V1 V1_INITIAL_KEY) entries

/-- `write_v3` first pass: the (truncated-to-`u32`) data offsets, starting
at `current_offset = header(12) + entry_headers + end_marker(4)`. -/
def v3_offsets (off : Nat) : List (List Nat × List Nat) → List Nat
  | [] => []
  | (_, data) :: rest => (off % U32) :: v3_offsets (off + data.length) rest

/-- `write_v3` first pass: the per-entry content keys
`initial_key.wrapping_mul(current_offset as u32 + 1)`. -/
def v3_keys (initialKey : Nat) (off : Nat) : List (List Nat × List Nat) → List Nat
  | [] => []
  | (_, data) :: rest =>
      (initialKey * ((off % U32 + 1) % U32)) % U32 :: v3_keys initialKey (off + data.length) rest

/-- `write_v3` second pass: one table row per entry — encrypted offset,
size, content key and name length (each stepping the shared keystream), then
the name under the non-stepping V3 string cipher.  Returns the row bytes and
the final shared keystream. -/
def write_v3_table (k : RgssKey) :
    List ((List Nat × List Nat) × Nat × Nat) → List Nat × RgssKey
  | [] => ([], k)
  | ((name, data), off, fkey) :: rest =>
      let eo := k.encrypt_int off
      let es := eo.2.encrypt_int (data.length % U32)
      let ek := es.2.encrypt_int fkey
      let el := ek.2.encrypt_int (name.length % U32)
      let en := el.2.encrypt_string_v3 name
      let r := write_v3_table el.2 rest
      (toLE4 eo.1 ++ toLE4 es.1 ++ toLE4 ek.1 ++ toLE4 el.1 ++ en ++ r.1, r.2)

/-- `write_v3` third pass: each payload encrypted with a fresh V3 keystream
seeded at that entry's content key. -/
def v3_payloads : List ((List Nat × List Nat) × Nat) → List Nat
  | [] => []
  | ((_, data), fkey) :: rest =>
      (RgssKey.with_state .V3 fkey).encrypt_content data ++ v3_payloads rest

/-- `RgssWriter::write_v3` with a caller-supplied initial key
(`with_v3_key`; the `% U32` models the `u32` parameter): header, plain
initial key, encrypted table, encrypted zero end marker, then the payload
blob. -/
def write_v3 (initialKey0 : Nat) (entries : List (List Nat × List Nat)) : List Nat :=
  let initialKey := initialKey0 % U32
  let entryHeadersSize := (entries.map (fun e => 16 + e.1.length)).sum
  let base := 8 + 4 + entryHeadersSize + 4
  let offs := v3_offsets base entries
  let keys := v3_keys initialKey base entries
  let k0 := (RgssKey.with_state .V3 initialKey).step
  let table := write_v3_table k0 (entries.zip (offs.zip keys))
  RGSS_MAGIC ++ [RgssVersion.header_byte .V3] ++ toLE4 initialKey ++
    table.1 ++ toLE4 (table.2.encrypt_int 0).1 ++ v3_payloads (entries.zip keys)

end RgssWriter

namespace RgssReader

/-- The loop of `RgssReader::read_v1`.  Stops at end of file, on a failed
read of the length field, or on a name length of `0` or above `1024`; each
entry records the payload offset and the keystream state captured right
after the size field.  The loop advances at least 9 bytes per turn, so fuel
`ar.length + 1` is always sufficient. -/
def read_v1_loop (ar : List Nat) (pos : Nat) (k : RgssKey) : Nat → List RgssEntry
  | 0 => []
  | fuel + 1 =>
      if ar.length ≤ pos then []
      else
        match readU32 ar pos with
        | none => []
        | some w =>
            let dl := k.decrypt_int w
            let nameLen := dl.1
            if nameLen = 0 ∨ 1024 < nameLen then []
            else
              match readBytes ar (pos + 4) nameLen with
              | none => []
              | some nameEnc =>
                  let dn := dl.2.decrypt_string_v1 nameEnc
                  match readU32 ar (pos + 4 + nameLen) with
                  | none => []
                  | some ws =>
                      let ds := dn.2.decrypt_int ws
                      let offset := pos + 4 + nameLen + 4
                      { name := dn.1, size := ds.1, offset := offset, key := ds.2.current } ::
                        read_v1_loop ar (offset + ds.1) ds.2 fuel

/-- `RgssReader::read_v1`: skip the 8-byte header, seed the keystream at
`0xDEADCAFE`, and run the entry loop. -/
def read_v1 (ar : List Nat) : List RgssEntry :=
  read_v1_loop ar 8 (RgssKey.with_state .V1 V1_INITIAL_KEY) (ar.length + 1)

/-- The loop of `RgssReader::read_v3`.  A failed read of the offset field
breaks cleanly; a decrypted offset of `0` ends the table; any later failed
read is an error (`none`, mirroring the `?` operator). -/
def read_v3_loop (ar : List Nat) (pos : Nat) (k : RgssKey) : Nat → Option (List RgssEntry)
  | 0 => none
  | fuel + 1 =>
      match readU32 ar pos with
      | none => some []
      | some w =>
          let dof := k.decrypt_int w
          if dof.1 = 0 then some []
          else
            match readU32 ar (pos + 4) with
            | none => none
            | some ws =>
                let ds := dof.2.decrypt_int ws
                match readU32 ar (pos + 8) with
                | none => none
                | some wk =>
                    let dk := ds.2.decrypt_int wk
                    match readU32 ar (pos + 12) with
                    | none => none
                    | some wl =>
                        let dl := dk.2.decrypt_int wl
                        let nameLen := dl.1
                        match readBytes ar (pos + 16) nameLen with
                        | none => none
                        | some nameEnc =>
                            let name := dl.2.decrypt_string_v3 nameEnc
                            (read_v3_loop ar (pos + 16 + nameLen) dl.2 fuel).map
                              (fun rest =>
                                { name := name, size := ds.1, offset := dof.1,
                                  key := dk.1 } :: rest)

/-- `RgssReader::read_v3`: skip the header, read the plain initial key, seed
a V3 keystream with it, step once, and run the table loop. -/
def read_v3 (ar : List Nat) : Option (List RgssEntry) :=
  match readU32 ar 8 with
  | none => none
  | some ik => read_v3_loop ar 12 ((RgssKey.with_state .V3 ik).step) (ar.length + 1)

/-- `RgssVersion::detect_from_file`: read the 8-byte header, require the
magic, and map the version byte. -/
def detect (ar : List Nat) : Option RgssVersion :=
  match readBytes ar 0 8 with
  | none => none
  | some header =>
      if header.take 7 = RGSS_MAGIC then
        match header.drop 7 with
        | [1] => some .V1
        | [3] => some .V3
        | _ => none
      else none

/-- `RgssReader::open`: detect the version, then parse the entry table with
the matching reader. -/
def openArchive (ar : List Nat) : Option (RgssVersion × List RgssEntry) :=
  match detect ar with
  | none => none
  | some .V1 => some (.V1, read_v1 ar)
  | some .V3 => (read_v3 ar).map (fun es => (.V3, es))

/-- `RgssReader::extract_to_memory`: seek to the entry's offset, read `size`
bytes, and decrypt them with a fresh keystream of the archive's version
seeded at the entry's key. -/
def extract_to_memory (ar : List Nat) (version : RgssVersion) (e : RgssEntry) :
    Option (List Nat) :=
  match readBytes ar e.offset e.size with
  | none => none
  | some enc => some ((RgssKey.with_state version e.key).decrypt_content enc)

end RgssReader

/-! ### Claim C2, counterexample -/

/-- C2 counterexample.  The V1 reader treats a name length of `0` (or above
`1024`) as end-of-archive, so writing a single entry whose archive name is
empty and reopening the archive yields **no** entries, not the same
(name, size) list: the reader returns `[]` while the writer was given one
entry (expected `[(\"\", 0)]`). -/
theorem C2_roundtrip_counterexample :
    RgssReader.openArchive (RgssWriter.write_v1 [([], [])]) = some (.V1, []) ∧
    ([] : List RgssEntry).map (fun e => (e.name, e.size)) ≠
      [(([] : List Nat), ([] : List Nat))].map (fun e => (e.1, e.2.length)) := by
  constructor
  · decide
  · decide

/-! ### Helper lemmas for the archive round-trip -/

theorem xor_xor_self_right (b m : Nat) : b ^^^ m ^^^ m = b := by
  rw [Nat.xor_assoc, Nat.xor_self, Nat.xor_zero]

theorem xor_lt_U32 {a b : Nat} (ha : a < U32) (hb : b < U32) : a ^^^ b < U32 :=
  Nat.xor_lt_two_pow ha hb

theorem RgssKey.state_with_state_lt (v : RgssVersion) (s : Nat) :
    (RgssKey.with_state v s).state < U32 := by
  have : 0 < U32 := by decide
  cases v <;> simpa [RgssKey.with_state, RgssKey.new] using Nat.mod_lt _ this

theorem RgssKey.state_step_lt (k : RgssKey) : k.step.state < U32 := by
  have : 0 < U32 := by decide
  simpa [RgssKey.step] using Nat.mod_lt _ this

theorem RgssKey.state_stepN_lt (k : RgssKey) (n : Nat) (hk : k.state < U32) :
    (k.stepN n).state < U32 := by
  induction n generalizing k with
  | zero => exact hk
  | succ m ih => exact ih k.step k.state_step_lt

theorem fromLE4_toLE4 (x : Nat) :
    fromLE4 (x % 256) (x / 256 % 256) (x / 65536 % 256) (x / 16777216 % 256) = x % U32 := by
  simp only [fromLE4, U32]
  omega

theorem toLE4_length (x : Nat) : (toLE4 x).length = 4 := rfl

theorem readBytes_append (pre rest : List Nat) (n : Nat) (h : n ≤ rest.length) :
    readBytes (pre ++ rest) pre.length n = some (rest.take n) := by
  simp only [readBytes, List.length_append]
  rw [if_pos (by omega), List.drop_left]

theorem readU32_toLE4 (pre suffix : List Nat) (x : Nat) :
    readU32 (pre ++ (toLE4 x ++ suffix)) pre.length = some (x % U32) := by
  have h4 : (4 : Nat) ≤ (toLE4 x ++ suffix).length := by
    simp [toLE4_length]
  have hrb : readBytes (pre ++ (toLE4 x ++ suffix)) pre.length 4 = some ((toLE4 x ++ suffix).take 4) :=
    readBytes_append pre (toLE4 x ++ suffix) 4 h4
  have htake : (toLE4 x ++ suffix).take 4 = toLE4 x := by
    rw [show (4 : Nat) = (toLE4 x).length from rfl, List.take_left]
  rw [readU32, hrb, htake]
  simp only [toLE4]
  rw [fromLE4_toLE4]

theorem RgssKey.decrypt_string_v1_involution (k : RgssKey) (d : List Nat) :
    (k.decrypt_string_v1 (k.decrypt_string_v1 d).1).1 = d := by
  induction d generalizing k with
  | nil => rfl
  | cons b rest ih =>
      simp [RgssKey.decrypt_string_v1, xor_xor_self_right, ih k.step]

theorem RgssKey.decrypt_content_length (k : RgssKey) (d : List Nat) :
    (k.decrypt_content d).length = d.length := by
  match d with
  | [] => rfl
  | [b0] => rfl
  | [b0, b1] => rfl
  | [b0, b1, b2] => rfl
  | b0 :: b1 :: b2 :: b3 :: rest =>
      simp only [RgssKey.decrypt_content, List.length_cons]
      rw [RgssKey.decrypt_content_length k.step rest]

theorem RgssKey.decrypt_content_involution (k : RgssKey) (d : List Nat) :
    k.decrypt_content (k.decrypt_content d) = d := by
  match d with
  | [] => rfl
  | [b0] => simp [RgssKey.decrypt_content, xor_xor_self_right]
  | [b0, b1] => simp [RgssKey.decrypt_content, xor_xor_self_right]
  | [b0, b1, b2] => simp [RgssKey.decrypt_content, xor_xor_self_right]
  | b0 :: b1 :: b2 :: b3 :: rest =>
      simp only [RgssKey.decrypt_content]
      rw [RgssKey.decrypt_content_involution k.step rest]
      simp [xor_xor_self_right]

theorem RgssKey.decrypt_string_v3_from_involution (k : RgssKey) (j : Nat) (d : List Nat) :
    RgssKey.decrypt_string_v3_from k j (RgssKey.decrypt_string_v3_from k j d) = d := by
  induction d generalizing j with
  | nil => rfl
  | cons b rest ih =>
      simp [RgssKey.decrypt_string_v3_from, xor_xor_self_right, ih (j + 1)]

theorem RgssKey.decrypt_string_v3_involution (k : RgssKey) (d : List Nat) :
    k.decrypt_string_v3 (k.decrypt_string_v3 d) = d :=
  RgssKey.decrypt_string_v3_from_involution k 0 d

/-- The entries the V1 reader is expected to produce for a written archive
whose records start at position `pos` with keystream `k` (mirroring the key
schedule of `write_v1_records`). -/
def v1Expected (pos : Nat) (k : RgssKey) : List (List Nat × List Nat) → List RgssEntry
  | [] => []
  | (name, data) :: rest =>
      let k3 := (k.step.stepN name.length).step
      { name := name, size := data.length, offset := pos + 4 + name.length + 4,
        key := k3.state } ::
        v1Expected (pos + 4 + name.length + 4 + data.length) k3 rest

theorem v1Expected_length (pos : Nat) (k : RgssKey) (entries : List (List Nat × List Nat)) :
    (v1Expected pos k entries).length = entries.length := by
  induction entries generalizing pos k with
  | nil => rfl
  | cons e rest ih =>
      obtain ⟨name, data⟩ := e
      simp [v1Expected, ih]

theorem v1Expected_names_sizes (pos : Nat) (k : RgssKey)
    (entries : List (List Nat × List Nat)) :
    (v1Expected pos k entries).map (fun e => (e.name, e.size)) =
      entries.map (fun e => (e.1, e.2.length)) := by
  induction entries generalizing pos k with
  | nil => rfl
  | cons e rest ih =>
      obtain ⟨name, data⟩ := e
      simp [v1Expected, ih]

theorem read_v1_loop_spec (entries : List (List Nat × List Nat)) (k : RgssKey)
    (pre : List Nat) (fuel : Nat) (hk : k.state < U32)
    (hname : ∀ e ∈ entries, 1 ≤ e.1.length ∧ e.1.length ≤ 1024)
    (hdata : ∀ e ∈ entries, e.2.length < U32)
    (hfuel : entries.length < fuel) :
    RgssReader.read_v1_loop (pre ++ RgssWriter.write_v1_records k entries) pre.length k fuel =
      v1Expected pre.length k entries := by
  induction entries generalizing k pre fuel with
  | nil =>
      cases fuel with
      | zero => omega
      | succ f =>
          simp [RgssWriter.write_v1_records, RgssReader.read_v1_loop, v1Expected]
  | cons e rest ih =>
      obtain ⟨name, data⟩ := e
      cases fuel with
      | zero => omega
      | succ f =>
      have hn1 : 1 ≤ name.length := (hname (name, data) (by simp)).1
      have hn2 : name.length ≤ 1024 := (hname (name, data) (by simp)).2
      have hnU : name.length < U32 := by
        have : (1024 : Nat) < U32 := by decide
        omega
      have hdU : data.length < U32 := hdata (name, data) (by simp)
      -- abbreviations for the pieces of the first record
      set A : Nat := (k.encrypt_int (name.length % U32)).1 with hA
      set k1 : RgssKey := k.step with hk1
      set N : List Nat := (k1.encrypt_string_v1 name).1 with hN
      set k2 : RgssKey := k1.stepN name.length with hk2
      set S : Nat := (k2.encrypt_int (data.length % U32)).1 with hS
      set k3 : RgssKey := k2.step with hk3
      set P : List Nat := (RgssKey.with_state .V1 k3.state).encrypt_content data with hP
      set R : List Nat := RgssWriter.write_v1_records k3 rest with hR
      have hrec : RgssWriter.write_v1_records k ((name, data) :: rest) =
          toLE4 A ++ N ++ toLE4 S ++ P ++ R := by
        rw [RgssWriter.write_v1_records]
        have h2 : (k1.encrypt_string_v1 name).2 = k2 := by
          rw [hk2]
          exact RgssKey.decrypt_string_v1_key k1 name
        simp only [RgssKey.encrypt_int, RgssKey.decrypt_int, RgssKey.encrypt_string_v1] at *
        rw [h2]
        rfl
      have hNlen : N.length = name.length := by
        rw [hN]
        exact RgssKey.decrypt_string_v1_length k1 name
      have hPlen : P.length = data.length := by
        rw [hP]
        exact RgssKey.decrypt_content_length _ data
      have hAval : A = name.length ^^^ k.state := by
        rw [hA]
        simp [RgssKey.encrypt_int, RgssKey.decrypt_int, Nat.mod_eq_of_lt hnU]
      have hAlt : A < U32 := by
        rw [hAval]
        exact xor_lt_U32 hnU hk
      have hk2lt : k2.state < U32 := by
        rw [hk2]
        exact RgssKey.state_stepN_lt k1 name.length (RgssKey.state_step_lt k)
      have hSval : S = data.length ^^^ k2.state := by
        rw [hS]
        simp [RgssKey.encrypt_int, RgssKey.decrypt_int, Nat.mod_eq_of_lt hdU]
      have hSlt : S < U32 := by
        rw [hSval]
        exact xor_lt_U32 hdU hk2lt
      -- the archive as seen from position pre.length
      have har : pre ++ RgssWriter.write_v1_records k ((name, data) :: rest) =
          pre ++ (toLE4 A ++ (N ++ (toLE4 S ++ (P ++ R)))) := by
        rw [hrec]
        simp [List.append_assoc]
      rw [har]
      rw [RgssReader.read_v1_loop]
      have hlen_ge : ¬ ((pre ++ (toLE4 A ++ (N ++ (toLE4 S ++ (P ++ R))))).length ≤ pre.length) := by
        simp [toLE4_length]
      rw [if_neg hlen_ge]
      rw [readU32_toLE4 pre _ A]
      simp only [Nat.mod_eq_of_lt hAlt]
      have hdecA : (k.decrypt_int A).1 = name.length := by
        simp [RgssKey.decrypt_int, hAval, xor_xor_self_right]
      have hdecA2 : (k.decrypt_int A).2 = k1 := rfl
      rw [hdecA, hdecA2]
      rw [if_neg (by omega)]
      -- read the name at position pre.length + 4
      have hname_read : readBytes (pre ++ (toLE4 A ++ (N ++ (toLE4 S ++ (P ++ R)))))
          (pre.length + 4) name.length = some N := by
        have h1 : pre ++ (toLE4 A ++ (N ++ (toLE4 S ++ (P ++ R)))) =
            (pre ++ toLE4 A) ++ (N ++ (toLE4 S ++ (P ++ R))) := by
          simp [List.append_assoc]
        have h2 : (pre ++ toLE4 A).length = pre.length + 4 := by
          simp [toLE4_length]
        rw [h1, ← h2,
          readBytes_append _ _ _ (by simp [hNlen]),
          ← hNlen, List.take_left]
      rw [hname_read]
      have hdecN1 : (k1.decrypt_string_v1 N).1 = name := by
        rw [hN]
        exact RgssKey.decrypt_string_v1_involution k1 name
      have hdecN2 : (k1.decrypt_string_v1 N).2 = k2 := by
        rw [hN, hk2]
        rw [RgssKey.encrypt_string_v1, RgssKey.decrypt_string_v1_key]
        rw [RgssKey.decrypt_string_v1_length]
      -- read the size at position pre.length + 4 + name.length
      have hsize_read : readU32 (pre ++ (toLE4 A ++ (N ++ (toLE4 S ++ (P ++ R)))))
          (pre.length + 4 + name.length) = some (S % U32) := by
        have h1 : pre ++ (toLE4 A ++ (N ++ (toLE4 S ++ (P ++ R)))) =
            (pre ++ toLE4 A ++ N) ++ (toLE4 S ++ (P ++ R)) := by
          simp [List.append_assoc]
        have h2 : (pre ++ toLE4 A ++ N).length = pre.length + 4 + name.length := by
          simp only [List.length_append, toLE4_length, hNlen]
          try omega
        rw [h1, ← h2, readU32_toLE4]
      rw [hsize_read]
      simp only [Nat.mod_eq_of_lt hSlt]
      have hdecS1 : ((k1.decrypt_string_v1 N).2.decrypt_int S).1 = data.length := by
        rw [hdecN2]
        simp [RgssKey.decrypt_int, hSval, xor_xor_self_right]
      have hdecS2 : ((k1.decrypt_string_v1 N).2.decrypt_int S).2 = k3 := by
        rw [hdecN2, hk3]
        rfl
      rw [hdecS1, hdecS2]
      -- the recursive call
      have hpre2 : pre ++ (toLE4 A ++ (N ++ (toLE4 S ++ (P ++ R)))) =
          (pre ++ toLE4 A ++ N ++ toLE4 S ++ P) ++ R := by
        simp [List.append_assoc]
      have hpre2len : (pre ++ toLE4 A ++ N ++ toLE4 S ++ P).length =
          pre.length + 4 + name.length + 4 + data.length := by
        simp only [List.length_append, toLE4_length, hNlen, hPlen]
        try omega
      have hrest : RgssReader.read_v1_loop (pre ++ (toLE4 A ++ (N ++ (toLE4 S ++ (P ++ R)))))
          (pre.length + 4 + name.length + 4 + data.length) k3 f =
          v1Expected (pre.length + 4 + name.length + 4 + data.length) k3 rest := by
        rw [hpre2, ← hpre2len, hR]
        exact ih k3 (pre ++ toLE4 A ++ N ++ toLE4 S ++ P) f (RgssKey.state_step_lt k2)
          (fun e he => hname e (by simp [he]))
          (fun e he => hdata e (by simp [he]))
          (by simpa using Nat.lt_of_succ_lt_succ hfuel)
      rw [hdecN1, hrest, v1Expected]
      simp only [← hk1, ← hk2, ← hk3, RgssKey.current]

theorem v1_extract_spec (entries : List (List Nat × List Nat)) (k : RgssKey)
    (pre : List Nat) (i : Nat) (hi : i < entries.length) :
    RgssReader.extract_to_memory (pre ++ RgssWriter.write_v1_records k entries) .V1
      (GetElem.getElem (v1Expected pre.length k entries) i (by rw [v1Expected_length]; exact hi)) =
      some (entries[i].2) := by
  induction entries generalizing k pre i with
  | nil => simp at hi
  | cons e rest ih =>
      obtain ⟨name, data⟩ := e
      set A : Nat := (k.encrypt_int (name.length % U32)).1 with hA
      set k1 : RgssKey := k.step with hk1
      set N : List Nat := (k1.encrypt_string_v1 name).1 with hN
      set k2 : RgssKey := k1.stepN name.length with hk2
      set S : Nat := (k2.encrypt_int (data.length % U32)).1 with hS
      set k3 : RgssKey := k2.step with hk3
      set P : List Nat := (RgssKey.with_state .V1 k3.state).encrypt_content data with hP
      set R : List Nat := RgssWriter.write_v1_records k3 rest with hR
      have hrec : RgssWriter.write_v1_records k ((name, data) :: rest) =
          toLE4 A ++ N ++ toLE4 S ++ P ++ R := by
        rw [RgssWriter.write_v1_records]
        have h2 : (k1.encrypt_string_v1 name).2 = k2 := by
          rw [hk2]
          exact RgssKey.decrypt_string_v1_key k1 name
        simp only [RgssKey.encrypt_int, RgssKey.decrypt_int, RgssKey.encrypt_string_v1] at *
        rw [h2]
        rfl
      have hNlen : N.length = name.length := by
        rw [hN]
        exact RgssKey.decrypt_string_v1_length k1 name
      have hPlen : P.length = data.length := by
        rw [hP]
        exact RgssKey.decrypt_content_length _ data
      cases i with
      | zero =>
          have hexp : GetElem.getElem (v1Expected pre.length k ((name, data) :: rest)) 0 (by
              rw [v1Expected_length]; simp) =
              { name := name, size := data.length, offset := pre.length + 4 + name.length + 4,
                key := k3.state } := by
            simp [v1Expected, ← hk1, ← hk2, ← hk3]
          rw [hexp]
          rw [RgssReader.extract_to_memory]
          have h1 : pre ++ RgssWriter.write_v1_records k ((name, data) :: rest) =
              (pre ++ toLE4 A ++ N ++ toLE4 S) ++ (P ++ R) := by
            rw [hrec]
            simp [List.append_assoc]
          have h2 : (pre ++ toLE4 A ++ N ++ toLE4 S).length = pre.length + 4 + name.length + 4 := by
            simp only [List.length_append, toLE4_length, hNlen]
            try omega
          have hread : readBytes (pre ++ RgssWriter.write_v1_records k ((name, data) :: rest))
              (pre.length + 4 + name.length + 4) data.length = some P := by
            rw [h1, ← h2, readBytes_append _ _ _ (by simp [hPlen]), ← hPlen, List.take_left]
          simp only [hread]
          rw [hP]
          rw [show (RgssKey.with_state .V1 k3.state).encrypt_content data =
            (RgssKey.with_state .V1 k3.state).decrypt_content data from rfl]
          rw [RgssKey.decrypt_content_involution]
          rfl
      | succ j =>
          have hj : j < rest.length := by simpa using hi
          have hexp : GetElem.getElem (v1Expected pre.length k ((name, data) :: rest)) (j + 1) (by
              rw [v1Expected_length]; simpa using hi) =
              GetElem.getElem (v1Expected (pre.length + 4 + name.length + 4 + data.length) k3 rest) j (by
                rw [v1Expected_length]; exact hj) := by
            simp [v1Expected, ← hk1, ← hk2, ← hk3]
          rw [hexp]
          have h1 : pre ++ RgssWriter.write_v1_records k ((name, data) :: rest) =
              (pre ++ toLE4 A ++ N ++ toLE4 S ++ P) ++ R := by
            rw [hrec]
            simp [List.append_assoc]
          have h2 : (pre ++ toLE4 A ++ N ++ toLE4 S ++ P).length =
              pre.length + 4 + name.length + 4 + data.length := by
            simp only [List.length_append, toLE4_length, hNlen, hPlen]
            try omega
          rw [h1, ← h2, hR]
          have := ih k3 (pre ++ toLE4 A ++ N ++ toLE4 S ++ P) j hj
          simpa using this

theorem RgssWriter.v3_offsets_length (off : Nat) (entries : List (List Nat × List Nat)) :
    (RgssWriter.v3_offsets off entries).length = entries.length := by
  induction entries generalizing off with
  | nil => rfl
  | cons e rest ih =>
      obtain ⟨name, data⟩ := e
      simp [RgssWriter.v3_offsets, ih]

theorem RgssWriter.v3_keys_length (ik off : Nat) (entries : List (List Nat × List Nat)) :
    (RgssWriter.v3_keys ik off entries).length = entries.length := by
  induction entries generalizing off with
  | nil => rfl
  | cons e rest ih =>
      obtain ⟨name, data⟩ := e
      simp [RgssWriter.v3_keys, ih]

theorem RgssWriter.v3_offsets_getElem (off : Nat) (entries : List (List Nat × List Nat))
    (i : Nat) (hi : i < entries.length) :
    GetElem.getElem (RgssWriter.v3_offsets off entries) i (by rw [RgssWriter.v3_offsets_length]; exact hi) =
      (off + ((entries.take i).map (fun e => e.2.length)).sum) % U32 := by
  induction entries generalizing off i with
  | nil => simp at hi
  | cons e rest ih =>
      obtain ⟨name, data⟩ := e
      cases i with
      | zero => simp [RgssWriter.v3_offsets]
      | succ j =>
          have hj : j < rest.length := by simpa using hi
          have := ih (off + data.length) j hj
          simp only [RgssWriter.v3_offsets, List.getElem_cons_succ, List.take_succ_cons,
            List.map_cons, List.sum_cons] at this ⊢
          rw [this]
          congr 1
          omega

theorem RgssWriter.v3_keys_getElem (ik off : Nat) (entries : List (List Nat × List Nat))
    (i : Nat) (hi : i < entries.length) :
    GetElem.getElem (RgssWriter.v3_keys ik off entries) i (by rw [RgssWriter.v3_keys_length]; exact hi) =
      (ik * (((off + ((entries.take i).map (fun e => e.2.length)).sum) % U32 + 1) % U32)) % U32 := by
  induction entries generalizing off i with
  | nil => simp at hi
  | cons e rest ih =>
      obtain ⟨name, data⟩ := e
      cases i with
      | zero => simp [RgssWriter.v3_keys]
      | succ j =>
          have hj : j < rest.length := by simpa using hi
          have := ih (off + data.length) j hj
          simp only [RgssWriter.v3_keys, List.getElem_cons_succ, List.take_succ_cons,
            List.map_cons, List.sum_cons, Nat.add_assoc] at this ⊢
          rw [this]

theorem RgssWriter.v3_keys_lt (ik off : Nat) (entries : List (List Nat × List Nat)) :
    ∀ x ∈ RgssWriter.v3_keys ik off entries, x < U32 := by
  induction entries generalizing off with
  | nil => intro x hx; simp [RgssWriter.v3_keys] at hx
  | cons e rest ih =>
      obtain ⟨name, data⟩ := e
      intro x hx
      simp only [RgssWriter.v3_keys, List.mem_cons] at hx
      rcases hx with h | h
      · subst h
        exact Nat.mod_lt _ (by decide)
      · exact ih (off + data.length) x h

theorem RgssKey.encrypt_string_v3_length (k : RgssKey) (d : List Nat) :
    (k.encrypt_string_v3 d).length = d.length :=
  RgssKey.decrypt_string_v3_length k d

theorem RgssWriter.write_v3_table_length (k : RgssKey)
    (rows : List ((List Nat × List Nat) × Nat × Nat)) :
    (RgssWriter.write_v3_table k rows).1.length =
      (rows.map (fun r => 16 + r.1.1.length)).sum := by
  induction rows generalizing k with
  | nil => rfl
  | cons r rest ih =>
      obtain ⟨⟨name, data⟩, off, fkey⟩ := r
      simp only [RgssWriter.write_v3_table, List.length_append, toLE4_length, List.map_cons,
        List.sum_cons, RgssKey.encrypt_string_v3_length]
      rw [ih]
      try omega

theorem read_v3_loop_spec (rows : List ((List Nat × List Nat) × Nat × Nat)) (k : RgssKey)
    (pre payloads : List Nat) (fuel : Nat) (hk : k.state < U32)
    (hrow : ∀ r ∈ rows, r.2.1 ≠ 0 ∧ r.2.1 < U32 ∧ r.2.2 < U32 ∧
      r.1.1.length < U32 ∧ r.1.2.length < U32)
    (hfuel : rows.length < fuel) :
    RgssReader.read_v3_loop
      (pre ++ ((RgssWriter.write_v3_table k rows).1 ++
        (toLE4 ((RgssWriter.write_v3_table k rows).2.encrypt_int 0).1 ++ payloads)))
      pre.length k fuel =
      some (rows.map (fun r =>
        { name := r.1.1, size := r.1.2.length, offset := r.2.1, key := r.2.2 })) := by
  induction rows generalizing k pre fuel with
  | nil =>
      cases fuel with
      | zero => omega
      | succ f =>
          rw [RgssReader.read_v3_loop]
          have h0 : (RgssWriter.write_v3_table k []).1 = [] := rfl
          have h0k : (RgssWriter.write_v3_table k []).2 = k := rfl
          rw [h0, h0k]
          have hterm : (k.encrypt_int 0).1 = k.state := by
            simp [RgssKey.encrypt_int, RgssKey.decrypt_int]
          rw [hterm]
          have := readU32_toLE4 pre payloads k.state
          rw [show pre ++ ([] ++ (toLE4 k.state ++ payloads)) = pre ++ (toLE4 k.state ++ payloads)
            by simp] at *
          rw [this]
          simp [RgssKey.decrypt_int, Nat.mod_eq_of_lt hk]
  | cons r rest ih =>
      obtain ⟨⟨name, data⟩, off, fkey⟩ := r
      cases fuel with
      | zero => omega
      | succ f =>
      obtain ⟨hoff0, hoffU, hkeyU, hnmU, hszU⟩ := hrow ((name, data), off, fkey) (by simp)
      set EO : Nat := (k.encrypt_int off).1 with hEO
      set ka : RgssKey := k.step with hka
      set ES : Nat := (ka.encrypt_int (data.length % U32)).1 with hES
      set kb : RgssKey := ka.step with hkb
      set EK : Nat := (kb.encrypt_int fkey).1 with hEK
      set kc : RgssKey := kb.step with hkc
      set EL : Nat := (kc.encrypt_int (name.length % U32)).1 with hEL
      set kd : RgssKey := kc.step with hkd
      set EN : List Nat := kd.encrypt_string_v3 name with hEN
      set T : List Nat := (RgssWriter.write_v3_table kd rest).1 with hT
      set KT : RgssKey := (RgssWriter.write_v3_table kd rest).2 with hKT
      have hrec : (RgssWriter.write_v3_table k (((name, data), off, fkey) :: rest)).1 =
          toLE4 EO ++ toLE4 ES ++ toLE4 EK ++ toLE4 EL ++ EN ++ T := rfl
      have hreck : (RgssWriter.write_v3_table k (((name, data), off, fkey) :: rest)).2 = KT := rfl
      have hENlen : EN.length = name.length := RgssKey.encrypt_string_v3_length kd name
      have hkalt : ka.state < U32 := RgssKey.state_step_lt k
      have hkblt : kb.state < U32 := RgssKey.state_step_lt ka
      have hkclt : kc.state < U32 := RgssKey.state_step_lt kb
      have hkdlt : kd.state < U32 := RgssKey.state_step_lt kc
      have hEOval : EO = off ^^^ k.state := by
        rw [hEO]
        simp [RgssKey.encrypt_int, RgssKey.decrypt_int]
      have hEOlt : EO < U32 := by rw [hEOval]; exact xor_lt_U32 hoffU hk
      have hESval : ES = data.length ^^^ ka.state := by
        rw [hES]
        simp [RgssKey.encrypt_int, RgssKey.decrypt_int, Nat.mod_eq_of_lt hszU]
      have hESlt : ES < U32 := by rw [hESval]; exact xor_lt_U32 hszU hkalt
      have hEKval : EK = fkey ^^^ kb.state := by
        rw [hEK]
        simp [RgssKey.encrypt_int, RgssKey.decrypt_int]
      have hEKlt : EK < U32 := by rw [hEKval]; exact xor_lt_U32 hkeyU hkblt
      have hELval : EL = name.length ^^^ kc.state := by
        rw [hEL]
        simp [RgssKey.encrypt_int, RgssKey.decrypt_int, Nat.mod_eq_of_lt hnmU]
      have hELlt : EL < U32 := by rw [hELval]; exact xor_lt_U32 hnmU hkclt
      -- the archive, re-associated around each read position
      set ar : List Nat := pre ++
        ((RgssWriter.write_v3_table k (((name, data), off, fkey) :: rest)).1 ++
          (toLE4 ((RgssWriter.write_v3_table k (((name, data), off, fkey) :: rest)).2.encrypt_int 0).1
            ++ payloads)) with har
      have har1 : ar = pre ++ (toLE4 EO ++ (toLE4 ES ++ (toLE4 EK ++ (toLE4 EL ++ (EN ++
          (T ++ (toLE4 (KT.encrypt_int 0).1 ++ payloads))))))) := by
        rw [har, hrec, hreck]
        simp [List.append_assoc]
      have hread0 : readU32 ar pre.length = some EO := by
        rw [har1, readU32_toLE4, Nat.mod_eq_of_lt hEOlt]
      have hread4 : readU32 ar (pre.length + 4) = some ES := by
        rw [har1, show pre ++ (toLE4 EO ++ (toLE4 ES ++ (toLE4 EK ++ (toLE4 EL ++ (EN ++
            (T ++ (toLE4 (KT.encrypt_int 0).1 ++ payloads))))))) =
          (pre ++ toLE4 EO) ++ (toLE4 ES ++ (toLE4 EK ++ (toLE4 EL ++ (EN ++
            (T ++ (toLE4 (KT.encrypt_int 0).1 ++ payloads)))))) from by simp [List.append_assoc]]
        rw [show pre.length + 4 = (pre ++ toLE4 EO).length from by simp [toLE4_length]]
        rw [readU32_toLE4, Nat.mod_eq_of_lt hESlt]
      have hread8 : readU32 ar (pre.length + 8) = some EK := by
        rw [har1, show pre ++ (toLE4 EO ++ (toLE4 ES ++ (toLE4 EK ++ (toLE4 EL ++ (EN ++
            (T ++ (toLE4 (KT.encrypt_int 0).1 ++ payloads))))))) =
          (pre ++ toLE4 EO ++ toLE4 ES) ++ (toLE4 EK ++ (toLE4 EL ++ (EN ++
            (T ++ (toLE4 (KT.encrypt_int 0).1 ++ payloads))))) from by simp [List.append_assoc]]
        rw [show pre.length + 8 = (pre ++ toLE4 EO ++ toLE4 ES).length from by
          simp [toLE4_length]]
        rw [readU32_toLE4, Nat.mod_eq_of_lt hEKlt]
      have hread12 : readU32 ar (pre.length + 12) = some EL := by
        rw [har1, show pre ++ (toLE4 EO ++ (toLE4 ES ++ (toLE4 EK ++ (toLE4 EL ++ (EN ++
            (T ++ (toLE4 (KT.encrypt_int 0).1 ++ payloads))))))) =
          (pre ++ toLE4 EO ++ toLE4 ES ++ toLE4 EK) ++ (toLE4 EL ++ (EN ++
            (T ++ (toLE4 (KT.encrypt_int 0).1 ++ payloads)))) from by simp [List.append_assoc]]
        rw [show pre.length + 12 = (pre ++ toLE4 EO ++ toLE4 ES ++ toLE4 EK).length from by
          simp [toLE4_length]]
        rw [readU32_toLE4, Nat.mod_eq_of_lt hELlt]
      have hreadname : readBytes ar (pre.length + 16) name.length = some EN := by
        rw [har1, show pre ++ (toLE4 EO ++ (toLE4 ES ++ (toLE4 EK ++ (toLE4 EL ++ (EN ++
            (T ++ (toLE4 (KT.encrypt_int 0).1 ++ payloads))))))) =
          (pre ++ toLE4 EO ++ toLE4 ES ++ toLE4 EK ++ toLE4 EL) ++ (EN ++
            (T ++ (toLE4 (KT.encrypt_int 0).1 ++ payloads))) from by simp [List.append_assoc]]
        rw [show pre.length + 16 = (pre ++ toLE4 EO ++ toLE4 ES ++ toLE4 EK ++ toLE4 EL).length
          from by simp [toLE4_length]]
        rw [readBytes_append _ _ _ (by simp [hENlen]), ← hENlen, List.take_left]
      rw [RgssReader.read_v3_loop]
      rw [hread0]
      have hdecEO : (k.decrypt_int EO).1 = off := by
        simp [RgssKey.decrypt_int, hEOval, xor_xor_self_right]
      have hdecEO2 : (k.decrypt_int EO).2 = ka := rfl
      simp only [hdecEO, hdecEO2]
      rw [if_neg hoff0]
      rw [hread4]
      have hdecES : (ka.decrypt_int ES).1 = data.length := by
        simp [RgssKey.decrypt_int, hESval, xor_xor_self_right]
      have hdecES2 : (ka.decrypt_int ES).2 = kb := rfl
      simp only [hdecES, hdecES2]
      rw [hread8]
      have hdecEK : (kb.decrypt_int EK).1 = fkey := by
        simp [RgssKey.decrypt_int, hEKval, xor_xor_self_right]
      have hdecEK2 : (kb.decrypt_int EK).2 = kc := rfl
      simp only [hdecEK, hdecEK2]
      rw [hread12]
      have hdecEL : (kc.decrypt_int EL).1 = name.length := by
        simp [RgssKey.decrypt_int, hELval, xor_xor_self_right]
      have hdecEL2 : (kc.decrypt_int EL).2 = kd := rfl
      simp only [hdecEL, hdecEL2]
      rw [hreadname]
      have hdecEN : kd.decrypt_string_v3 EN = name := by
        rw [hEN]
        exact RgssKey.decrypt_string_v3_involution kd name
      simp only [hdecEN]
      -- recursive call at position pre.length + 16 + name.length
      have hpre2 : ar = (pre ++ toLE4 EO ++ toLE4 ES ++ toLE4 EK ++ toLE4 EL ++ EN) ++
          (T ++ (toLE4 (KT.encrypt_int 0).1 ++ payloads)) := by
        rw [har1]
        simp [List.append_assoc]
      have hpre2len : (pre ++ toLE4 EO ++ toLE4 ES ++ toLE4 EK ++ toLE4 EL ++ EN).length =
          pre.length + 16 + name.length := by
        simp only [List.length_append, toLE4_length, hENlen]
        try omega
      have hrest := ih kd (pre ++ toLE4 EO ++ toLE4 ES ++ toLE4 EK ++ toLE4 EL ++ EN)
        f hkdlt (fun rr hrr => hrow rr (by simp [hrr]))
        (by simpa using Nat.lt_of_succ_lt_succ hfuel)
      rw [hpre2len] at hrest
      rw [← hpre2] at hrest
      rw [hrest]
      simp

theorem v3_extract_spec (entries : List (List Nat × List Nat)) (keys : List Nat)
    (pre nm : List Nat) (i : Nat) (hi : i < entries.length)
    (hlen : keys.length = entries.length) :
    RgssReader.extract_to_memory (pre ++ RgssWriter.v3_payloads (entries.zip keys)) .V3
      { name := nm, size := entries[i].2.length,
        offset := pre.length + ((entries.take i).map (fun e => e.2.length)).sum,
        key := GetElem.getElem keys i (by omega) } = some (entries[i].2) := by
  induction entries generalizing keys pre i with
  | nil => simp at hi
  | cons e rest ih =>
      obtain ⟨name, data⟩ := e
      cases keys with
      | nil => simp at hlen
      | cons k0 krest =>
      set P : List Nat := (RgssKey.with_state .V3 k0).encrypt_content data with hP
      have hPlen : P.length = data.length := RgssKey.decrypt_content_length _ data
      have hpay : RgssWriter.v3_payloads (((name, data) :: rest).zip (k0 :: krest)) =
          P ++ RgssWriter.v3_payloads (rest.zip krest) := rfl
      cases i with
      | zero =>
          rw [RgssReader.extract_to_memory]
          simp only [List.take_zero, List.map_nil, List.sum_nil, Nat.add_zero,
            List.getElem_cons_zero]
          have hread : readBytes (pre ++ RgssWriter.v3_payloads (((name, data) :: rest).zip
              (k0 :: krest))) pre.length data.length = some P := by
            rw [hpay, show pre ++ (P ++ RgssWriter.v3_payloads (rest.zip krest)) =
              pre ++ (P ++ RgssWriter.v3_payloads (rest.zip krest)) from rfl]
            rw [readBytes_append _ _ _ (by simp [hPlen]), ← hPlen, List.take_left]
          rw [show pre ++ RgssWriter.v3_payloads (((name, data) :: rest).zip (k0 :: krest)) =
            pre ++ (P ++ RgssWriter.v3_payloads (rest.zip krest)) from by rw [hpay]] at hread ⊢
          rw [hread]
          show some ((RgssKey.with_state .V3 k0).decrypt_content
            ((RgssKey.with_state .V3 k0).decrypt_content data)) = some data
          rw [RgssKey.decrypt_content_involution]
      | succ j =>
          have hj : j < rest.length := by simpa using hi
          have hlen2 : krest.length = rest.length := by simpa using hlen
          have h1 : pre ++ RgssWriter.v3_payloads (((name, data) :: rest).zip (k0 :: krest)) =
              (pre ++ P) ++ RgssWriter.v3_payloads (rest.zip krest) := by
            rw [hpay]
            simp [List.append_assoc]
          have h2 : (pre ++ P).length = pre.length + data.length := by simp [hPlen]
          have := ih krest (pre ++ P) j hj hlen2
          rw [h1]
          rw [h2] at this
          simp only [List.getElem_cons_succ, List.take_succ_cons, List.map_cons, List.sum_cons]
          rw [show pre.length + (data.length + ((rest.take j).map (fun e => e.2.length)).sum) =
            pre.length + data.length + ((rest.take j).map (fun e => e.2.length)).sum from by omega]
          exact this

/-- `RgssWriter::write`: dispatch on the target version (the V3 initial key
is the caller-supplied `with_v3_key` value). -/
def RgssWriter.write (version : RgssVersion) (v3Key : Nat)
    (entries : List (List Nat × List Nat)) : List Nat :=
  match version with
  | .V1 => RgssWriter.write_v1 entries
  | .V3 => RgssWriter.write_v3 v3Key entries

theorem detect_header (version : RgssVersion) (rest : List Nat) :
    RgssReader.detect ((RGSS_MAGIC ++ [version.header_byte]) ++ rest) = some version := by
  have h8 : (RGSS_MAGIC ++ [version.header_byte]).length = 8 := by
    cases version <;> rfl
  have hrb : readBytes ((RGSS_MAGIC ++ [version.header_byte]) ++ rest) 0 8 =
      some (RGSS_MAGIC ++ [version.header_byte]) := by
    have := readBytes_append ([] : List Nat) ((RGSS_MAGIC ++ [version.header_byte]) ++ rest) 8
      (by rw [List.length_append, h8]; omega)
    simp only [List.nil_append, List.length_nil] at this
    rw [this]
    rw [show (8 : Nat) = (RGSS_MAGIC ++ [version.header_byte]).length from h8.symm,
      List.take_left]
  rw [RgssReader.detect, hrb]
  cases version <;> rfl

theorem write_v1_records_length_ge (k : RgssKey) (entries : List (List Nat × List Nat)) :
    entries.length ≤ (RgssWriter.write_v1_records k entries).length := by
  induction entries generalizing k with
  | nil => simp
  | cons e rest ih =>
      obtain ⟨name, data⟩ := e
      simp only [RgssWriter.write_v1_records, List.length_append, List.length_cons,
        toLE4_length]
      have := ih ((k.step.stepN name.length).step)
      have hkey : ((k.step.decrypt_string_v1 name).2) = k.step.stepN name.length :=
        RgssKey.decrypt_string_v1_key k.step name
      simp only [RgssKey.encrypt_int, RgssKey.decrypt_int, RgssKey.encrypt_string_v1, hkey]
      omega

theorem v1_full (entries : List (List Nat × List Nat))
    (hname : ∀ e ∈ entries, 1 ≤ e.1.length ∧ e.1.length ≤ 1024)
    (hdata : ∀ e ∈ entries, e.2.length < U32) :
    ∃ es : List RgssEntry,
      RgssReader.openArchive (RgssWriter.write_v1 entries) = some (.V1, es) ∧
      es.map (fun e => (e.name, e.size)) = entries.map (fun e => (e.1, e.2.length)) ∧
      ∀ i, (h1 : i < es.length) → (h2 : i < entries.length) →
        RgssReader.extract_to_memory (RgssWriter.write_v1 entries) .V1 (es[i]) =
          some (entries[i].2) := by
  set k0 : RgssKey := RgssKey.with_state .V1 V1_INITIAL_KEY with hk0
  set R : List Nat := RgssWriter.write_v1_records k0 entries with hR
  have hw : RgssWriter.write_v1 entries = (RGSS_MAGIC ++ [RgssVersion.header_byte .V1]) ++ R := by
    rw [RgssWriter.write_v1]
  have hdet : RgssReader.detect (RgssWriter.write_v1 entries) = some .V1 := by
    rw [hw]
    exact detect_header .V1 R
  have hk0lt : k0.state < U32 := RgssKey.state_with_state_lt .V1 V1_INITIAL_KEY
  have hfuel : entries.length < (RgssWriter.write_v1 entries).length + 1 := by
    have h1 : entries.length ≤ R.length := by
      rw [hR]
      exact write_v1_records_length_ge k0 entries
    have h2 : R.length ≤ (RgssWriter.write_v1 entries).length := by
      rw [hw]
      simp only [List.length_append]
      omega
    omega
  have hloop : RgssReader.read_v1 (RgssWriter.write_v1 entries) =
      v1Expected 8 k0 entries := by
    rw [RgssReader.read_v1, hw]
    have hf2 : entries.length <
        ((RGSS_MAGIC ++ [RgssVersion.header_byte .V1]) ++ R).length + 1 := by
      rw [← hw]
      exact hfuel
    have := read_v1_loop_spec entries k0 (RGSS_MAGIC ++ [RgssVersion.header_byte .V1])
      (((RGSS_MAGIC ++ [RgssVersion.header_byte .V1]) ++ R).length + 1) hk0lt hname hdata hf2
    rw [← hR] at this
    rw [show ((RGSS_MAGIC ++ [RgssVersion.header_byte .V1])).length = 8 from rfl] at this
    exact this
  refine ⟨v1Expected 8 k0 entries, ?_, v1Expected_names_sizes 8 k0 entries, ?_⟩
  · rw [RgssReader.openArchive, hdet, hloop]
  · intro i h1 h2
    have := v1_extract_spec entries k0 (RGSS_MAGIC ++ [RgssVersion.header_byte .V1]) i h2
    rw [← hR] at this
    rw [show (RGSS_MAGIC ++ [RgssVersion.header_byte .V1]).length = 8 from rfl] at this
    rw [hw]
    exact this

theorem take_map_sum_le {α : Type} (l : List α) (f : α → Nat) (i : Nat) :
    ((l.take i).map f).sum ≤ (l.map f).sum := by
  conv_rhs => rw [← List.take_append_drop i l]
  rw [List.map_append, List.sum_append]
  exact Nat.le_add_right _ _

theorem length_le_map_sum_16 {α : Type} (l : List α) (f : α → Nat) :
    l.length ≤ (l.map (fun e => 16 + f e)).sum := by
  induction l with
  | nil => simp
  | cons a rest ih =>
      simp only [List.length_cons, List.map_cons, List.sum_cons]
      omega

theorem read_v3_unfold (ar : List Nat) (ik : Nat) (h : readU32 ar 8 = some ik) :
    RgssReader.read_v3 ar =
      RgssReader.read_v3_loop ar 12 ((RgssKey.with_state .V3 ik).step) (ar.length + 1) := by
  rw [RgssReader.read_v3, h]

theorem v3_full (seed : Nat) (entries : List (List Nat × List Nat))
    (hdata : ∀ e ∈ entries, e.2.length < U32)
    (htot : 16 + ((entries.map (fun e => 16 + e.1.length)).sum +
      (entries.map (fun e => e.2.length)).sum) < U32) :
    ∃ es : List RgssEntry,
      RgssReader.openArchive (RgssWriter.write_v3 seed entries) = some (.V3, es) ∧
      es.map (fun e => (e.name, e.size)) = entries.map (fun e => (e.1, e.2.length)) ∧
      ∀ i, (h1 : i < es.length) → (h2 : i < entries.length) →
        RgssReader.extract_to_memory (RgssWriter.write_v3 seed entries) .V3 (es[i]) =
          some (entries[i].2) := by
  set ik : Nat := seed % U32 with hik
  set ehs : Nat := (entries.map (fun e => 16 + e.1.length)).sum with hehs
  set Sd : Nat := (entries.map (fun e => e.2.length)).sum with hSd
  set offs : List Nat := RgssWriter.v3_offsets (8 + 4 + ehs + 4) entries with hoffs
  set keys : List Nat := RgssWriter.v3_keys ik (8 + 4 + ehs + 4) entries with hkeys
  set k0 : RgssKey := (RgssKey.with_state .V3 ik).step with hk0
  set rows : List ((List Nat × List Nat) × Nat × Nat) := entries.zip (offs.zip keys) with hrows
  set T : List Nat := (RgssWriter.write_v3_table k0 rows).1 with hT
  set KT : RgssKey := (RgssWriter.write_v3_table k0 rows).2 with hKT
  set payl : List Nat := RgssWriter.v3_payloads (entries.zip keys) with hpayl
  have hikU : ik < U32 := by
    rw [hik]
    exact Nat.mod_lt _ (by decide)
  have hw : RgssWriter.write_v3 seed entries =
      RGSS_MAGIC ++ [RgssVersion.header_byte .V3] ++ toLE4 ik ++ T ++
        toLE4 (KT.encrypt_int 0).1 ++ payl := by
    simp only [RgssWriter.write_v3, ← hik, ← hehs, ← hoffs, ← hkeys, ← hk0, ← hrows,
      ← hT, ← hKT, ← hpayl]
  have hoffs_len : offs.length = entries.length := by
    rw [hoffs]
    exact RgssWriter.v3_offsets_length _ _
  have hkeys_len : keys.length = entries.length := by
    rw [hkeys]
    exact RgssWriter.v3_keys_length _ _ _
  have hzip_len : (offs.zip keys).length = entries.length := by
    rw [List.length_zip, hoffs_len, hkeys_len]
    omega
  have hrows_len : rows.length = entries.length := by
    rw [hrows, List.length_zip, hzip_len]
    omega
  have hrows_fst : rows.map Prod.fst = entries := by
    rw [hrows]
    exact List.map_fst_zip _ _ (by rw [hzip_len])
  have hTlen : T.length = ehs := by
    rw [hT, RgssWriter.write_v3_table_length]
    have hfac : rows.map (fun r => 16 + r.1.1.length) =
        entries.map (fun e => 16 + e.1.length) := by
      rw [show (fun (r : (List Nat × List Nat) × Nat × Nat) => 16 + r.1.1.length) =
        ((fun (e : List Nat × List Nat) => 16 + e.1.length) ∘ Prod.fst) from rfl]
      rw [← List.map_map, hrows_fst]
    rw [hfac, ← hehs]
  -- per-row facts
  have hrowfact : ∀ i, (hi : i < entries.length) →
      GetElem.getElem rows i (by omega) = (entries[i], (8 + 4 + ehs + 4 +
          ((entries.take i).map (fun e => e.2.length)).sum,
        GetElem.getElem keys i (by omega))) ∧
      8 + 4 + ehs + 4 + ((entries.take i).map (fun e => e.2.length)).sum < U32 := by
    intro i hi
    have hPle : ((entries.take i).map (fun e => e.2.length)).sum ≤ Sd := by
      rw [hSd]
      exact take_map_sum_le entries _ i
    have hlt : 8 + 4 + ehs + 4 + ((entries.take i).map (fun e => e.2.length)).sum < U32 := by
      omega
    constructor
    · have h1 : GetElem.getElem rows i (by omega) = (entries[i], GetElem.getElem (offs.zip keys) i (by omega)) :=
        List.getElem_zip
      have h2 : GetElem.getElem (offs.zip keys) i (by omega) =
          (GetElem.getElem offs i (by omega), GetElem.getElem keys i (by omega)) := List.getElem_zip
      have h3 : GetElem.getElem offs i (by omega) = (8 + 4 + ehs + 4 +
          ((entries.take i).map (fun e => e.2.length)).sum) % U32 :=
        RgssWriter.v3_offsets_getElem _ entries i hi
      rw [h1, h2, h3, Nat.mod_eq_of_lt hlt]
    · exact hlt
  have hrow : ∀ r ∈ rows, r.2.1 ≠ 0 ∧ r.2.1 < U32 ∧ r.2.2 < U32 ∧
      r.1.1.length < U32 ∧ r.1.2.length < U32 := by
    intro r hr
    obtain ⟨i, hi, hri⟩ := List.mem_iff_getElem.mp hr
    have hi2 : i < entries.length := by omega
    obtain ⟨hval, hlt⟩ := hrowfact i hi2
    have hkeymem : r.2.2 < U32 := by
      rw [← hri, hval]
      exact RgssWriter.v3_keys_lt ik _ entries _ (List.getElem_mem _)
    refine ⟨?_, ?_, hkeymem, ?_, ?_⟩
    · rw [← hri, hval]
      simp only []
      omega
    · rw [← hri, hval]
      simp only []
      omega
    · rw [← hri, hval]
      have hmem : 16 + entries[i].1.length ∈ entries.map (fun e => 16 + e.1.length) :=
        List.mem_map_of_mem _ (List.getElem_mem _)
      have := List.single_le_sum (l := entries.map (fun e => 16 + e.1.length))
        (fun x _ => Nat.zero_le x) _ hmem
      rw [← hehs] at this
      simp only []
      omega
    · rw [← hri, hval]
      exact hdata entries[i] (List.getElem_mem _)
  have hreadik : readU32 (RgssWriter.write_v3 seed entries) 8 = some ik := by
    rw [hw]
    have hassoc : RGSS_MAGIC ++ [RgssVersion.header_byte .V3] ++ toLE4 ik ++ T ++
        toLE4 (KT.encrypt_int 0).1 ++ payl =
        (RGSS_MAGIC ++ [RgssVersion.header_byte .V3]) ++ (toLE4 ik ++
          (T ++ (toLE4 (KT.encrypt_int 0).1 ++ payl))) := by
      simp [List.append_assoc]
    rw [hassoc]
    rw [show (8 : Nat) = (RGSS_MAGIC ++ [RgssVersion.header_byte .V3]).length from rfl]
    rw [readU32_toLE4, Nat.mod_eq_of_lt hikU]
  have hfuel : rows.length < (RgssWriter.write_v3 seed entries).length + 1 := by
    have h1 : entries.length ≤ ehs := by
      rw [hehs]
      exact length_le_map_sum_16 entries _
    have h2 : (RgssWriter.write_v3 seed entries).length =
        8 + 4 + T.length + 4 + payl.length := by
      rw [hw]
      simp only [List.length_append, List.length_cons, List.length_nil, toLE4_length]
      rw [show RGSS_MAGIC.length = 7 from rfl]
      try omega
    omega
  have hloop : RgssReader.read_v3 (RgssWriter.write_v3 seed entries) =
      some (rows.map (fun r =>
        { name := r.1.1, size := r.1.2.length, offset := r.2.1, key := r.2.2 })) := by
    rw [read_v3_unfold _ ik hreadik]
    have hspec := read_v3_loop_spec rows k0
      (RGSS_MAGIC ++ [RgssVersion.header_byte .V3] ++ toLE4 ik) payl
      ((RgssWriter.write_v3 seed entries).length + 1)
      (RgssKey.state_step_lt _) hrow hfuel
    rw [← hT, ← hKT] at hspec
    have hassoc : RgssWriter.write_v3 seed entries =
        (RGSS_MAGIC ++ [RgssVersion.header_byte .V3] ++ toLE4 ik) ++
          (T ++ (toLE4 (KT.encrypt_int 0).1 ++ payl)) := by
      rw [hw]
      simp [List.append_assoc]
    rw [show (12 : Nat) =
      (RGSS_MAGIC ++ [RgssVersion.header_byte .V3] ++ toLE4 ik).length from rfl]
    rw [hassoc] at hspec ⊢
    exact hspec
  have hdet : RgssReader.detect (RgssWriter.write_v3 seed entries) = some .V3 := by
    have hassoc : RgssWriter.write_v3 seed entries =
        (RGSS_MAGIC ++ [RgssVersion.header_byte .V3]) ++ (toLE4 ik ++
          (T ++ (toLE4 (KT.encrypt_int 0).1 ++ payl))) := by
      rw [hw]
      simp [List.append_assoc]
    rw [hassoc]
    exact detect_header .V3 _
  refine ⟨rows.map (fun r =>
    { name := r.1.1, size := r.1.2.length, offset := r.2.1, key := r.2.2 }), ?_, ?_, ?_⟩
  · rw [RgssReader.openArchive, hdet, hloop]
    rfl
  · have hfold : ∀ (l : List ((List Nat × List Nat) × Nat × Nat)),
        (l.map (fun r => ({ name := r.1.1, size := r.1.2.length, offset := r.2.1, key := r.2.2 } : RgssEntry))).map (fun e => (e.name, e.size)) =
          (l.map Prod.fst).map (fun e => (e.1, e.2.length)) := by
      intro l
      induction l with
      | nil => rfl
      | cons a t ih => simp only [List.map_cons, ih]
    rw [hfold, hrows_fst]
  · intro i h1 h2
    obtain ⟨hval, hlt⟩ := hrowfact i h2
    have him : i < keys.length := by
      rw [hkeys_len]
      exact h2
    have hes : GetElem.getElem (rows.map (fun r =>
        ({ name := r.1.1, size := r.1.2.length, offset := r.2.1, key := r.2.2 } : RgssEntry))) i h1 =
        { name := entries[i].1, size := entries[i].2.length,
          offset := 8 + 4 + ehs + 4 + ((entries.take i).map (fun e => e.2.length)).sum,
          key := GetElem.getElem keys i him } := by
      rw [List.getElem_map, hval]
    rw [hes]
    have hprelen : (RGSS_MAGIC ++ [RgssVersion.header_byte .V3] ++ toLE4 ik ++ T ++
        toLE4 (KT.encrypt_int 0).1).length =
        8 + 4 + ehs + 4 := by
      simp only [List.length_append, List.length_cons, List.length_nil, toLE4_length, hTlen]
      rw [show RGSS_MAGIC.length = 7 from rfl]
      try omega
    have hassoc : RgssWriter.write_v3 seed entries =
        (RGSS_MAGIC ++ [RgssVersion.header_byte .V3] ++ toLE4 ik ++ T ++
          toLE4 (KT.encrypt_int 0).1) ++ payl := by
      rw [hw]
    have := v3_extract_spec entries keys
      (RGSS_MAGIC ++ [RgssVersion.header_byte .V3] ++ toLE4 ik ++ T ++
        toLE4 (KT.encrypt_int 0).1) (entries[i].1) i h2 hkeys_len
    rw [hprelen] at this
    rw [hassoc]
    rw [← hpayl] at this
    exact this

/-- C2 (amended).  For every sequence of (archive-name, bytes) entries
(archive names given in their normalized, backslash form, as produced by
`add_file`) and either target version, writing an archive with the writer
and reopening it with the reader yields exactly the same names and sizes in
insertion order, and extracting each entry to memory returns exactly the
original bytes — **provided** that, for V1, every archive name is between 1
and 1024 bytes long (the V1 reader treats a name length of 0 or above 1024
as end-of-archive), that every payload is smaller than `2^32` bytes (sizes
are stored as `u32`), and that, for V3, the total archive size is below
`2^32` (offsets are stored as `u32`). -/
theorem C2_roundtrip_amended (version : RgssVersion) (seed : Nat)
    (entries : List (List Nat × List Nat))
    (hname : version = .V1 → ∀ e ∈ entries, 1 ≤ e.1.length ∧ e.1.length ≤ 1024)
    (hdata : ∀ e ∈ entries, e.2.length < U32)
    (htot : version = .V3 → 16 + ((entries.map (fun e => 16 + e.1.length)).sum +
      (entries.map (fun e => e.2.length)).sum) < U32) :
    ∃ es : List RgssEntry,
      RgssReader.openArchive (RgssWriter.write version seed entries) = some (version, es) ∧
      es.map (fun e => (e.name, e.size)) = entries.map (fun e => (e.1, e.2.length)) ∧
      ∀ i, (h1 : i < es.length) → (h2 : i < entries.length) →
        RgssReader.extract_to_memory (RgssWriter.write version seed entries) version (es[i]) =
          some (entries[i].2) := by
  cases version with
  | V1 => exact v1_full entries (hname rfl) hdata
  | V3 => exact v3_full seed entries hdata (htot rfl)

/-- Witness for C2 (amended): the spec's scenario 1 — a V1 archive with one
entry named `Data\test.txt` holding `"Hello, RGSS!"`. -/
theorem C2_roundtrip_amended_witness :
    ∃ es : List RgssEntry,
      RgssReader.openArchive (RgssWriter.write .V1 0
        [([68, 97, 116, 97, 92, 116, 101, 115, 116, 46, 116, 120, 116],
          [72, 101, 108, 108, 111, 44, 32, 82, 71, 83, 83, 33])]) = some (.V1, es) ∧
      es.map (fun e => (e.name, e.size)) =
        [([68, 97, 116, 97, 92, 116, 101, 115, 116, 46, 116, 120, 116],
          [72, 101, 108, 108, 111, 44, 32, 82, 71, 83, 83, 33])].map
          (fun e => (e.1, e.2.length)) ∧
      ∀ i, (h1 : i < es.length) →
        (h2 : i < ([([68, 97, 116, 97, 92, 116, 101, 115, 116, 46, 116, 120, 116],
          [72, 101, 108, 108, 111, 44, 32, 82, 71, 83, 83, 33])] :
            List (List Nat × List Nat)).length) →
        RgssReader.extract_to_memory (RgssWriter.write .V1 0
          [([68, 97, 116, 97, 92, 116, 101, 115, 116, 46, 116, 120, 116],
            [72, 101, 108, 108, 111, 44, 32, 82, 71, 83, 83, 33])]) .V1 (es[i]) =
          some (([([68, 97, 116, 97, 92, 116, 101, 115, 116, 46, 116, 120, 116],
            [72, 101, 108, 108, 111, 44, 32, 82, 71, 83, 83, 33])] :
              List (List Nat × List Nat))[i].2) :=
  C2_roundtrip_amended .V1 0
    [([68, 97, 116, 97, 92, 116, 101, 115, 116, 46, 116, 120, 116],
      [72, 101, 108, 108, 111, 44, 32, 82, 71, 83, 83, 33])]
    (by decide) (by decide) (by decide)

/-! ## Part 3: the translation engine (`parser/`)

Rust `String`s are modelled as `List Char` (`Str`); `HashMap<String, String>`
translation maps as functions `Str → Option Str`. -/

/-- A Rust string, as its character sequence. -/
abbrev Str : Type := List Char

/-- Coerce a Lean string literal to `Str`. -/
def Str.mk (s : String) : Str := s.data

/-- `char::is_whitespace` — the Unicode `White_Space` code points. -/
def isRustWhitespace (c : Char) : Bool :=
  c.toNat = 0x20 ∨ c.toNat = 0x9 ∨ c.toNat = 0xA ∨ c.toNat = 0xB ∨ c.toNat = 0xC ∨
  c.toNat = 0xD ∨ c.toNat = 0x85 ∨ c.toNat = 0xA0 ∨ c.toNat = 0x1680 ∨
  (0x2000 ≤ c.toNat ∧ c.toNat ≤ 0x200A) ∨ c.toNat = 0x2028 ∨ c.toNat = 0x2029 ∨
  c.toNat = 0x202F ∨ c.toNat = 0x205F ∨ c.toNat = 0x3000

/-- `str::trim`: strip leading and trailing whitespace. -/
def Str.trim (s : Str) : Str :=
  ((List.dropWhile isRustWhitespace s).reverse.dropWhile isRustWhitespace).reverse

/-- `str::is_empty` composed after `trim`, i.e. `s.trim().is_empty()`. -/
def Str.trimEmpty (s : Str) : Bool := s.trim.isEmpty

/-- `str::starts_with` for a string pattern. -/
def Str.startsWith (s pre : Str) : Bool := List.isPrefixOf pre s

/-- Split on a newline character; always returns at least one piece
(`"a\nb"` gives `["a", "b"]`, `""` gives `[""]`). -/
def splitNl : Str → List Str
  | [] => [[]]
  | a :: rest =>
      match splitNl rest with
      | [] => []
      | p :: ps => if a = '\n' then [] :: p :: ps else (a :: p) :: ps

/-- Strip one trailing carriage return (`str::lines` does this per line). -/
def stripCr (p : Str) : Str :=
  if p.getLast? = some '\r' then p.dropLast else p

/-- `str::lines`: split on `'\n'`, drop a final empty piece, and strip one
trailing `'\r'` from each line. -/
def rustLines (s : Str) : List Str :=
  let ps := splitNl s
  let ps := if ps.getLast? = some ([] : Str) then ps.dropLast else ps
  ps.map stripCr

/-- `[String]::join(sep)`. -/
def joinSep (sep : Str) : List Str → Str
  | [] => []
  | [x] => x
  | x :: xs => x ++ sep ++ joinSep sep xs

/-- The decimal digits of `n`, least significant first (fuelled; `n` itself
is always enough fuel since `n / 10 < n` for `n > 0`). -/
def natDigitsRev : Nat → Nat → List Char
  | 0, _ => []
  | fuel + 1, n => if n = 0 then [] else Char.ofNat (48 + n % 10) :: natDigitsRev fuel (n / 10)

/-- Decimal representation of a `Nat` (`usize`/`i32` `Display`). -/
def natRepr (n : Nat) : Str :=
  if n = 0 then ['0'] else (natDigitsRev n n).reverse

/-- `str::parse::<usize>`: an optional leading `'+'` followed by one or more
decimal digits (overflow is not modelled). -/
def parseUsize (s : Str) : Option Nat :=
  let digits := match s with
    | '+' :: rest => rest
    | _ => s
  if digits ≠ [] ∧ digits.all (fun c => '0' ≤ c ∧ c ≤ '9') then
    some (digits.foldl (fun acc c => acc * 10 + (c.toNat - 48)) 0)
  else none

/-- `char::is_ascii`. -/
def charIsAscii (c : Char) : Bool := c.toNat ≤ 0x7F

/-- `str::len` (UTF-8 byte length). -/
def byteLen (s : Str) : Nat := (s.map Char.utf8Size).sum

/-- `str::split_whitespace`: the maximal non-whitespace runs. -/
def splitWhitespaceR : Str → List Str
  | [] => []
  | c :: rest =>
      if isRustWhitespace c then splitWhitespaceR rest
      else
        match splitWhitespaceR rest with
        | [] => [[c]]
        | w :: ws =>
            match rest with
            | [] => [[c]]
            | r0 :: _ => if isRustWhitespace r0 then [c] :: w :: ws else (c :: w) :: ws

/-! ### JSON values (`serde_json::Value`) -/

/-- `serde_json::Value`.  Objects are association lists in iteration order;
`serde_json`'s default `Map` is a key-sorted `BTreeMap`, so every object the
program parses or builds iterates its keys in ascending order, and every
concrete object below is written in that canonical order.  Numbers are
modelled as integers (the event files the engine consumes hold only
integral numbers). -/
inductive Json : Type
  | null : Json
  | bool (b : Bool) : Json
  | num (n : Int) : Json
  | str (s : Str) : Json
  | arr (xs : List Json) : Json
  | obj (kvs : List (Str × Json)) : Json

mutual

/-- Structural equality test for `Json` (`PartialEq` on `Value`). -/
def Json.beq : Json → Json → Bool
  | .null, .null => true
  | .bool a, .bool b => a == b
  | .num a, .num b => a == b
  | .str a, .str b => a == b
  | .arr xs, .arr ys => Json.beqList xs ys
  | .obj xs, .obj ys => Json.beqKvs xs ys
  | _, _ => false

def Json.beqList : List Json → List Json → Bool
  | [], [] => true
  | x :: xs, y :: ys => Json.beq x y && Json.beqList xs ys
  | _, _ => false

def Json.beqKvs : List (Str × Json) → List (Str × Json) → Bool
  | [], [] => true
  | (k1, v1) :: xs, (k2, v2) :: ys => k1 == k2 && Json.beq v1 v2 && Json.beqKvs xs ys
  | _, _ => false

end

mutual

theorem Json.beq_iff : (a b : Json) → ((Json.beq a b = true) ↔ a = b)
  | .null, .null => by simp [Json.beq]
  | .null, .bool b => by simp [Json.beq]
  | .null, .num b => by simp [Json.beq]
  | .null, .str b => by simp [Json.beq]
  | .null, .arr ys => by simp [Json.beq]
  | .null, .obj ys => by simp [Json.beq]
  | .bool a, .null => by simp [Json.beq]
  | .bool a, .bool b => by simp [Json.beq]
  | .bool a, .num b => by simp [Json.beq]
  | .bool a, .str b => by simp [Json.beq]
  | .bool a, .arr ys => by simp [Json.beq]
  | .bool a, .obj ys => by simp [Json.beq]
  | .num a, .null => by simp [Json.beq]
  | .num a, .bool b => by simp [Json.beq]
  | .num a, .num b => by simp [Json.beq]
  | .num a, .str b => by simp [Json.beq]
  | .num a, .arr ys => by simp [Json.beq]
  | .num a, .obj ys => by simp [Json.beq]
  | .str a, .null => by simp [Json.beq]
  | .str a, .bool b => by simp [Json.beq]
  | .str a, .num b => by simp [Json.beq]
  | .str a, .str b => by simp [Json.beq]
  | .str a, .arr ys => by simp [Json.beq]
  | .str a, .obj ys => by simp [Json.beq]
  | .arr xs, .null => by simp [Json.beq]
  | .arr xs, .bool b => by simp [Json.beq]
  | .arr xs, .num b => by simp [Json.beq]
  | .arr xs, .str b => by simp [Json.beq]
  | .arr xs, .arr ys => by
      simp only [Json.beq, Json.arr.injEq]
      rw [Json.beqList_iff]
  | .arr xs, .obj ys => by simp [Json.beq]
  | .obj xs, .null => by simp [Json.beq]
  | .obj xs, .bool b => by simp [Json.beq]
  | .obj xs, .num b => by simp [Json.beq]
  | .obj xs, .str b => by simp [Json.beq]
  | .obj xs, .arr ys => by simp [Json.beq]
  | .obj xs, .obj ys => by
      simp only [Json.beq, Json.obj.injEq]
      rw [Json.beqKvs_iff]

theorem Json.beqList_iff : (xs ys : List Json) → ((Json.beqList xs ys = true) ↔ xs = ys)
  | [], [] => by simp [Json.beqList]
  | [], _ :: _ => by simp [Json.beqList]
  | _ :: _, [] => by simp [Json.beqList]
  | x :: xs, y :: ys => by
      simp only [Json.beqList, Bool.and_eq_true, List.cons.injEq]
      rw [Json.beq_iff, Json.beqList_iff]

theorem Json.beqKvs_iff : (xs ys : List (Str × Json)) → ((Json.beqKvs xs ys = true) ↔ xs = ys)
  | [], [] => by simp [Json.beqKvs]
  | [], _ :: _ => by simp [Json.beqKvs]
  | _ :: _, [] => by simp [Json.beqKvs]
  | (k1, v1) :: xs, (k2, v2) :: ys => by
      simp only [Json.beqKvs, Bool.and_eq_true, List.cons.injEq, Prod.mk.injEq,
        beq_iff_eq]
      rw [Json.beq_iff, Json.beqKvs_iff]
      try tauto

end

instance : DecidableEq Json := fun a b => decidable_of_iff _ (Json.beq_iff a b)

namespace Json

/-- `Value::get` for an object key (first binding wins). -/
def getKey (k : Str) : List (Str × Json) → Option Json
  | [] => none
  | (k2, v) :: rest => if k2 = k then some v else getKey k rest

/-- `Value::get` with a string index. -/
def get (v : Json) (k : Str) : Option Json :=
  match v with
  | .obj kvs => getKey k kvs
  | _ => none

/-- `Value::get` with a numeric index. -/
def getIdx (v : Json) (i : Nat) : Option Json :=
  match v with
  | .arr xs => xs[i]?
  | _ => none

/-- `Value::as_str`. -/
def as_str (v : Json) : Option Str :=
  match v with
  | .str s => some s
  | _ => none

/-- `Value::as_array`. -/
def as_array (v : Json) : Option (List Json) :=
  match v with
  | .arr xs => some xs
  | _ => none

/-- `Value::is_string`. -/
def isString (v : Json) : Bool :=
  match v with
  | .str _ => true
  | _ => false

/-- `Value::is_null`. -/
def isNull (v : Json) : Bool :=
  match v with
  | .null => true
  | _ => false

/-- `BTreeMap::insert` on an object's bindings: replace the value in place
when the key exists (Rust replaces the mapped value and keeps the key's
position), otherwise add a new binding. -/
def insertKey (kvs : List (Str × Json)) (k : Str) (v : Json) : List (Str × Json) :=
  match kvs with
  | [] => [(k, v)]
  | (k2, v2) :: rest => if k2 = k then (k2, v) :: rest else (k2, v2) :: insertKey rest k v

end Json

/-! ### Event codes (`parser/types/event_code.rs`) -/

/-- `EventCode`. -/
inductive EventCode : Type
  | ShowText
  | ShowTextBody
  | ShowScrollingText
  | ScrollingTextBody
  | Comment
  | CommentBody
  | ShowChoices
  | WhenChoice
  | WhenCancel
  | ChoicesEnd
  | InputNumber
  | SelectItem
  | PluginCommand
  | Script
  | ScriptBody
  | ScriptBodyAlt
  | ChangeNickname
  | ChangeProfile
  | Unknown (code : Int)
deriving DecidableEq

/-- `impl From<i32> for EventCode`. -/
def EventCode.fromInt (code : Int) : EventCode :=
  if code = 101 then .ShowText
  else if code = 401 then .ShowTextBody
  else if code = 105 then .ShowScrollingText
  else if code = 405 then .ScrollingTextBody
  else if code = 108 then .Comment
  else if code = 408 then .CommentBody
  else if code = 102 then .ShowChoices
  else if code = 402 then .WhenChoice
  else if code = 403 then .WhenCancel
  else if code = 404 then .ChoicesEnd
  else if code = 103 then .InputNumber
  else if code = 104 then .SelectItem
  else if code = 357 then .PluginCommand
  else if code = 355 then .Script
  else if code = 655 then .ScriptBody
  else if code = 657 then .ScriptBodyAlt
  else if code = 324 then .ChangeNickname
  else if code = 325 then .ChangeProfile
  else .Unknown code

/-! ### Event commands (`parser/rpg_maker_mv_mz/command.rs`) -/

/-- `EventCommand { code, indent, parameters }`. -/
structure EventCommand : Type where
  code : Int
  indent : Int
  parameters : List Json
deriving DecidableEq

namespace EventCommand

/-- `EventCommand::empty` (code 0). -/
def empty : EventCommand := { code := 0, indent := 0, parameters := [] }

/-- `EventCommand::dialogue`: a 401 command holding one text parameter. -/
def dialogue (indent : Int) (text : Str) : EventCommand :=
  { code := 401, indent := indent, parameters := [Json.str text] }

/-- `EventCommand::get_string_param`. -/
def get_string_param (c : EventCommand) (index : Nat) : Option Str :=
  (c.parameters[index]?).bind Json.as_str

/-- `EventCommand::get_array_param`. -/
def get_array_param (c : EventCommand) (index : Nat) : Option (List Json) :=
  (c.parameters[index]?).bind Json.as_array

/-- `EventCommand::get_speaker_name`: for a 101 command with at least five
parameters whose fifth is a non-empty string, that string. -/
def get_speaker_name (c : EventCommand) : Option Str :=
  if c.code ≠ 101 then none
  else if 5 ≤ c.parameters.length then
    match c.get_string_param 4 with
    | some speaker => if ¬ speaker.isEmpty then some speaker else none
    | none => none
  else none

/-- `EventCommand::get_dialogue_text`. -/
def get_dialogue_text (c : EventCommand) : Option Str :=
  if c.code ≠ 401 then none else c.get_string_param 0

/-- `EventCommand::get_choices`: the string elements of the first parameter
array (non-strings are silently dropped by `filter_map`). -/
def get_choices (c : EventCommand) : Option (List Str) :=
  if c.code ≠ 102 then none
  else (c.get_array_param 0).map (fun xs => xs.filterMap Json.as_str)

/-- `EventCommand::get_choice_text`. -/
def get_choice_text (c : EventCommand) : Option Str :=
  if c.code ≠ 402 then none else c.get_string_param 1

/-- `EventCommand::get_comment_text`. -/
def get_comment_text (c : EventCommand) : Option Str :=
  if c.code ≠ 408 then none else c.get_string_param 0

end EventCommand

/-- `PluginCommandData`. -/
structure PluginCommandData : Type where
  plugin_name : Str
  command : Str
  display_name : Str
  arguments : Json

/-- `EventCommand::get_plugin_data`: a 357 command with at least four
parameters whose first three are strings. -/
def EventCommand.get_plugin_data (c : EventCommand) : Option PluginCommandData :=
  if c.code ≠ 357 then none
  else if c.parameters.length < 4 then none
  else
    match c.get_string_param 0, c.get_string_param 1, c.get_string_param 2,
        c.parameters[3]? with
    | some n, some cm, some d, some args =>
        some { plugin_name := n, command := cm, display_name := d, arguments := args }
    | _, _, _, _ => none

/-- `serde_json::from_value::<EventCommand>`: requires an object with an
integral `code` in `i32` range, an optional integral `indent` (default 0),
an optional array `parameters` (default empty); unknown fields are ignored
(serde's default behaviour). -/
def parse_command (v : Json) : Option EventCommand :=
  match v with
  | .obj kvs =>
      match Json.getKey (Str.mk "code") kvs with
      | some (.num c) =>
          if -(2 ^ 31) ≤ c ∧ c < 2 ^ 31 then
            let indent? : Option Int :=
              match Json.getKey (Str.mk "indent") kvs with
              | none => some 0
              | some (.num i) => if -(2 ^ 31) ≤ i ∧ i < 2 ^ 31 then some i else none
              | some _ => none
            let params? : Option (List Json) :=
              match Json.getKey (Str.mk "parameters") kvs with
              | none => some []
              | some (.arr ps) => some ps
              | some _ => none
            match indent?, params? with
            | some i, some ps => some { code := c, indent := i, parameters := ps }
            | _, _ => none
          else none
      | _ => none
  | _ => none

/-- `serde_json::to_value` of an `EventCommand`: an object with the three
fields (which is also their sorted key order). -/
def command_to_json (c : EventCommand) : Json :=
  .obj [(Str.mk "code", .num c.code), (Str.mk "indent", .num c.indent),
    (Str.mk "parameters", .arr c.parameters)]

/-- `parse_commands`: the parseable elements of a JSON array (elements that
fail to deserialize are dropped by `filter_map`). -/
def parse_commands (list : Json) : List EventCommand :=
  match list with
  | .arr xs => xs.filterMap parse_command
  | _ => []

/-- `commands_to_json`. -/
def commands_to_json (cmds : List EventCommand) : Json :=
  .arr (cmds.map command_to_json)

/-! ### Translation paths and path patterns (`parser/types/translation_path.rs`) -/

/-- `PathSegment`. -/
inductive PathSegment : Type
  | Key (k : Str)
  | Index (i : Nat)
deriving DecidableEq

/-- `Display` for a segment: the key itself, or the decimal index. -/
def PathSegment.toStr : PathSegment → Str
  | .Key k => k
  | .Index i => natRepr i

/-- `TranslationPath { segments }`. -/
structure TranslationPath : Type where
  segments : List PathSegment
deriving DecidableEq

namespace TranslationPath

/-- `TranslationPath::new` (the root path). -/
def new : TranslationPath := { segments := [] }

/-- `TranslationPath::append_key`. -/
def append_key (p : TranslationPath) (k : Str) : TranslationPath :=
  { segments := p.segments ++ [PathSegment.Key k] }

/-- `TranslationPath::append_index`. -/
def append_index (p : TranslationPath) (i : Nat) : TranslationPath :=
  { segments := p.segments ++ [PathSegment.Index i] }

/-- `TranslationPath::to_path_string`: segments joined by `"."`. -/
def to_path_string (p : TranslationPath) : Str :=
  joinSep (Str.mk ".") (p.segments.map PathSegment.toStr)

/-- `TranslationPath::to_unit_id`: the dotted path, with `"_"` and the
suffix appended when the suffix is non-empty. -/
def to_unit_id (p : TranslationPath) (suffix : Str) : Str :=
  if suffix.isEmpty then p.to_path_string
  else p.to_path_string ++ Str.mk "_" ++ suffix

end TranslationPath

/-- `handlers::generate_unit_id`. -/
def generate_unit_id (path : TranslationPath) (index : Nat) (suffix : Str) : Str :=
  (path.append_index index).to_unit_id suffix

/-- One piece of a compiled path pattern: a literal character, `\d+`
(from `|ARY|`) or `\w+` (from `|OBJ|`). -/
inductive PatPiece : Type
  | lit (c : Char)
  | ary
  | obj
deriving DecidableEq

/-- The ASCII members of the regex class `\d`.  The crate's default `\d` is
Unicode-aware (`\p\x7bNd\x7d`); its ASCII members are exactly `'0'`-`'9'`, so on
ASCII input this is the class the compiled pattern tests, and the pattern
theorems below quantify over ASCII tails where it is exact. -/
def isDigitCh (c : Char) : Bool := '0' ≤ c ∧ c ≤ '9'

/-- The ASCII members of the regex class `\w`.  The crate's default `\w` is
Unicode-aware; its ASCII members are exactly `[0-9A-Za-z_]`, so on ASCII
input this is the class the compiled pattern tests.  Digits are word
characters, so `\w+` accepts purely numeric segments. -/
def isWordCh (c : Char) : Bool :=
  ('0' ≤ c ∧ c ≤ '9') ∨ ('a' ≤ c ∧ c ≤ 'z') ∨ ('A' ≤ c ∧ c ≤ 'Z') ∨ c = '_'

/-- `PathPattern::compile_pattern`: `regex::escape` makes every character a
literal, after which the escaped `|ARY|` / `|OBJ|` markers are replaced by
`\d+` / `\w+` and the whole is anchored.  The compiled form is the piece
sequence. -/
def compile_pattern : Str → List PatPiece
  | [] => []
  | '|' :: 'A' :: 'R' :: 'Y' :: '|' :: rest => .ary :: compile_pattern rest
  | '|' :: 'O' :: 'B' :: 'J' :: '|' :: rest => .obj :: compile_pattern rest
  | c :: rest => .lit c :: compile_pattern rest

mutual

/-- Anchored matching of a piece sequence against a character sequence:
the language of the compiled regex restricted to ASCII input (on non-ASCII
characters the crate's Unicode-aware `\d`/`\w` accept more than the ASCII
classes modelled here, so the pattern theorems quantify over ASCII tails). -/
def patMatch : List PatPiece → Str → Bool
  | [], [] => true
  | [], _ :: _ => false
  | .lit _ :: _, [] => false
  | .lit c :: ps, d :: cs => c == d && patMatch ps cs
  | .ary :: _, [] => false
  | .ary :: ps, d :: cs => isDigitCh d && patMatchStar true ps cs
  | .obj :: _, [] => false
  | .obj :: ps, d :: cs => isWordCh d && patMatchStar false ps cs
termination_by ps cs => (cs.length, ps.length, 0)

/-- After one mandatory wildcard character, match the rest of the pieces or
consume more wildcard characters (`isAry` selects `\d` vs `\w`). -/
def patMatchStar (isAry : Bool) : List PatPiece → Str → Bool
  | ps, [] => patMatch ps []
  | ps, d :: cs =>
      patMatch ps (d :: cs) ||
        ((if isAry then isDigitCh d else isWordCh d) && patMatchStar isAry ps cs)
termination_by ps cs => (cs.length, ps.length, 1)

end

/-- `PathPattern`: the pattern string with its compiled regex. -/
structure PathPattern : Type where
  pattern : Str

/-- `PathPattern::new`. -/
def PathPattern.new (pattern : Str) : PathPattern := { pattern := pattern }

/-- `PathPattern::matches` (compilation never fails for the escaped
patterns, so the regex path is always taken). -/
def PathPattern.matches (p : PathPattern) (path : Str) : Bool :=
  patMatch (compile_pattern p.pattern) path

/-! ### Options (`parser/types/options.rs`) -/

/-- `ExtractionOptions` (the field written `script_text_pre` here is the
source's script-text prefix option). -/
structure ExtractionOptions : Type where
  trim_whitespace : Bool
  merge_dialogue_lines : Bool
  dialogue_line_separator : Str
  extract_comments : Bool
  skip_comment_prefixes : List Str
  include_empty : Bool
  max_preceding_lines : Nat
  extract_plugins : Bool
  extract_script_text : Bool
  script_text_pre : Option Str

namespace ExtractionOptions

/-- `Default for ExtractionOptions`. -/
def default : ExtractionOptions where
  trim_whitespace := false
  merge_dialogue_lines := true
  dialogue_line_separator := Str.mk "\n"
  extract_comments := true
  skip_comment_prefixes := [Str.mk ";"]
  include_empty := false
  max_preceding_lines := 5
  extract_plugins := true
  extract_script_text := true
  script_text_pre := some (Str.mk "テキスト = ")

/-- `ExtractionOptions::should_skip_comment`: does any skip marker begin the
text? -/
def should_skip_comment (o : ExtractionOptions) (text : Str) : Bool :=
  o.skip_comment_prefixes.any (fun p => text.startsWith p)

end ExtractionOptions

/-- `InjectionOptions`. -/
structure InjectionOptions : Type where
  max_line_length : Option Nat
  word_aware_split : Bool
  preserve_line_breaks : Bool
  create_backup : Bool
  validate_before_inject : Bool
  skip_missing_translations : Bool

namespace InjectionOptions

/-- `Default for InjectionOptions`. -/
def default : InjectionOptions where
  max_line_length := none
  word_aware_split := true
  preserve_line_breaks := true
  create_backup := true
  validate_before_inject := true
  skip_missing_translations := true

/-- `InjectionOptions::split_at_chars`, loop form: flush the current chunk
when adding the next character (ASCII width 1, otherwise width 2) would
exceed `max_len`. -/
def split_chars_loop (max_len : Nat) : Str → Str → Nat → List Str → List Str
  | [], current, _, result => if current.isEmpty then result else result ++ [current]
  | c :: cs, current, clen, result =>
      let w : Nat := if charIsAscii c then 1 else 2
      if clen + w > max_len ∧ ¬ current.isEmpty then
        split_chars_loop max_len cs [c] w (result ++ [current])
      else
        split_chars_loop max_len cs (current ++ [c]) (clen + w) result

/-- `InjectionOptions::split_at_chars`. -/
def split_at_chars (text : Str) (max_len : Nat) : List Str :=
  split_chars_loop max_len text [] 0 []

/-- `InjectionOptions::split_at_words`, loop form over the whitespace-split
words. -/
def split_words_loop (max_len : Nat) : List Str → Str → List Str → List Str
  | [], current, result => if current.isEmpty then result else result ++ [current]
  | w :: ws, current, result =>
      if current.isEmpty then
        if byteLen w > max_len then
          split_words_loop max_len ws [] (result ++ split_at_chars w max_len)
        else split_words_loop max_len ws w result
      else if byteLen current + 1 + byteLen w ≤ max_len then
        split_words_loop max_len ws (current ++ [' '] ++ w) result
      else
        if byteLen w > max_len then
          split_words_loop max_len ws [] ((result ++ [current]) ++ split_at_chars w max_len)
        else split_words_loop max_len ws w (result ++ [current])

/-- `InjectionOptions::split_at_words`. -/
def split_at_words (text : Str) (max_len : Nat) : List Str :=
  split_words_loop max_len (splitWhitespaceR text) [] []

/-- `InjectionOptions::split_line`. -/
def split_line (o : InjectionOptions) (line : Str) (max_len : Nat) : List Str :=
  if byteLen line ≤ max_len then [line]
  else if o.word_aware_split then split_at_words line max_len
  else split_at_chars line max_len

/-- `str::replace('\n', " ")`. -/
def replaceNlSpace (s : Str) : Str := s.map (fun c => if c = '\n' then ' ' else c)

/-- `InjectionOptions::split_text`: with a positive max length, split lines
(after optionally flattening line breaks); otherwise just split on line
breaks. -/
def split_text (o : InjectionOptions) (text : Str) : List Str :=
  match o.max_line_length with
  | some max_len =>
      if max_len > 0 then
        if o.preserve_line_breaks then
          (rustLines text).flatMap (fun line => o.split_line line max_len)
        else o.split_line (replaceNlSpace text) max_len
      else rustLines text
  | none => rustLines text

end InjectionOptions

/-! ### Translation units and contexts
(`parser/types/translation_unit.rs`, `context.rs`) -/

/-- `TranslationStatus`. -/
inductive TranslationStatus : Type
  | Pending
  | Translated
  | Reviewed
  | NeedsRevision
  | Skipped
deriving DecidableEq

/-- `TranslationContext`. -/
structure TranslationContext : Type where
  file_name : Option Str
  map_name : Option Str
  event_name : Option Str
  page_index : Option Nat
  preceding_lines : List Str
  tags : List Str

/-- `TranslationContext::default`. -/
def TranslationContext.default : TranslationContext where
  file_name := none
  map_name := none
  event_name := none
  page_index := none
  preceding_lines := []
  tags := []

/-- `TranslationContext::add_tag`. -/
def TranslationContext.add_tag (c : TranslationContext) (tag : Str) : TranslationContext :=
  { c with tags := c.tags ++ [tag] }

/-- `TranslationUnit`. -/
structure TranslationUnit : Type where
  id : Str
  path : TranslationPath
  code : EventCode
  original : Str
  translated : Option Str
  speaker : Option Str
  context : TranslationContext
  status : TranslationStatus

namespace TranslationUnit

/-- `TranslationUnit::new`. -/
def new (id : Str) (path : TranslationPath) (code : EventCode) (original : Str) :
    TranslationUnit where
  id := id
  path := path
  code := code
  original := original
  translated := none
  speaker := none
  context := TranslationContext.default
  status := .Pending

/-- `TranslationUnit::with_speaker`. -/
def with_speaker (u : TranslationUnit) (speaker : Option Str) : TranslationUnit :=
  { u with speaker := speaker }

/-- `TranslationUnit::with_context`. -/
def with_context (u : TranslationUnit) (context : TranslationContext) : TranslationUnit :=
  { u with context := context }

end TranslationUnit

/-- `ExtractionContext` (`parser/types/context.rs`). -/
structure ExtractionContext : Type where
  file_name : Str
  map_name : Option Str
  event_name : Option Str
  event_id : Option Nat
  page_index : Nat
  current_speaker : Option Str
  preceding_lines : List Str
  max_preceding_lines : Nat
  unit_counter : Nat

namespace ExtractionContext

/-- `ExtractionContext::new`. -/
def new (file_name : Str) : ExtractionContext where
  file_name := file_name
  map_name := none
  event_name := none
  event_id := none
  page_index := 0
  current_speaker := none
  preceding_lines := []
  max_preceding_lines := 5
  unit_counter := 0

/-- `ExtractionContext::with_max_preceding_lines`. -/
def with_max_preceding_lines (c : ExtractionContext) (max : Nat) : ExtractionContext :=
  { c with max_preceding_lines := max }

/-- `ExtractionContext::with_event_id`. -/
def with_event_id (c : ExtractionContext) (event_id : Nat) : ExtractionContext :=
  { c with event_id := some event_id }

/-- `ExtractionContext::with_event_name`. -/
def with_event_name (c : ExtractionContext) (event_name : Str) : ExtractionContext :=
  { c with event_name := some event_name }

/-- `ExtractionContext::set_speaker`. -/
def set_speaker (c : ExtractionContext) (speaker : Option Str) : ExtractionContext :=
  { c with current_speaker := speaker }

/-- `ExtractionContext::add_preceding_line`: blank lines are ignored; when
the window is full the front (oldest) line is evicted before the new line is
pushed at the back. -/
def add_preceding_line (c : ExtractionContext) (line : Str) : ExtractionContext :=
  if ¬ line.trimEmpty then
    if c.preceding_lines.length ≥ c.max_preceding_lines then
      { c with preceding_lines := c.preceding_lines.drop 1 ++ [line] }
    else
      { c with preceding_lines := c.preceding_lines ++ [line] }
  else c

/-- `ExtractionContext::get_preceding_lines`. -/
def get_preceding_lines (c : ExtractionContext) : List Str := c.preceding_lines

/-- `ExtractionContext::to_translation_context`. -/
def to_translation_context (c : ExtractionContext) : TranslationContext where
  file_name := some c.file_name
  map_name := c.map_name
  event_name := c.event_name
  page_index := some c.page_index
  preceding_lines := c.get_preceding_lines
  tags := []

end ExtractionContext

/-- `ExtractionResult` (`parser/types/context.rs`). -/
structure ExtractionResult : Type where
  units : List TranslationUnit
  consumed : Nat
  speaker_update : Option (Option Str)
  add_to_preceding : Option Str

namespace ExtractionResult

/-- `ExtractionResult::empty`. -/
def empty : ExtractionResult :=
  { units := [], consumed := 1, speaker_update := none, add_to_preceding := none }

/-- `ExtractionResult::skip`. -/
def skip (consumed : Nat) : ExtractionResult :=
  { units := [], consumed := consumed, speaker_update := none, add_to_preceding := none }

/-- `ExtractionResult::single`. -/
def single (unit : TranslationUnit) (consumed : Nat) : ExtractionResult :=
  { units := [unit], consumed := consumed, speaker_update := none, add_to_preceding := none }

/-- `ExtractionResult::multiple`. -/
def multiple (units : List TranslationUnit) (consumed : Nat) : ExtractionResult :=
  { units := units, consumed := consumed, speaker_update := none, add_to_preceding := none }

/-- `ExtractionResult::with_speaker_update`. -/
def with_speaker_update (r : ExtractionResult) (speaker : Option Str) : ExtractionResult :=
  { r with speaker_update := some speaker }

/-- `ExtractionResult::with_preceding`. -/
def with_preceding (r : ExtractionResult) (text : Str) : ExtractionResult :=
  { r with add_to_preceding := some text }

end ExtractionResult

/-- `InjectionResult` (warning texts are abstracted to the unit id they
mention). -/
structure InjectionResult : Type where
  applied : Nat
  not_found : Nat
  commands_modified : Nat
  warnings : List Str
deriving DecidableEq

namespace InjectionResult

/-- `InjectionResult::new`. -/
def new : InjectionResult :=
  { applied := 0, not_found := 0, commands_modified := 0, warnings := [] }

/-- `InjectionResult::merge`. -/
def merge (a b : InjectionResult) : InjectionResult :=
  { applied := a.applied + b.applied, not_found := a.not_found + b.not_found,
    commands_modified := a.commands_modified + b.commands_modified,
    warnings := a.warnings ++ b.warnings }

end InjectionResult

/-- A translations map (`HashMap<String, String>` read through `get`). -/
abbrev Translations : Type := Str → Option Str

/-! ### Dialogue handlers (`handlers/dialogue.rs`)

Handler `extract` functions read `commands[index]` through `getD` with the
empty command as default; every caller (the page walker) passes an in-range
index, matching the Rust code's direct indexing. -/

namespace ShowTextHandler

/-- `ShowTextHandler::extract`: no units, a speaker update carrying
`get_speaker_name` of the command. -/
def extract (commands : List EventCommand) (index : Nat) : ExtractionResult :=
  let cmd := commands.getD index EventCommand.empty
  ExtractionResult.empty.with_speaker_update cmd.get_speaker_name

/-- `ShowTextHandler::inject`: a no-op. -/
def inject (commands : List EventCommand) : List EventCommand × InjectionResult :=
  (commands, InjectionResult.new)

end ShowTextHandler

namespace DialogueHandler

/-- The collection loop of `DialogueHandler::extract`: walk consecutive 401
commands with the given indent starting at `i`, collecting the (optionally
trimmed) dialogue texts and counting the commands walked. -/
def collect (commands : List EventCommand) (opts : ExtractionOptions) (indent : Int) :
    Nat → Nat → List Str × Nat
  | 0, _ => ([], 0)
  | fuel + 1, i =>
      if i < commands.length then
        let current := commands.getD i EventCommand.empty
        if current.code = 401 ∧ current.indent = indent then
          let rest := collect commands opts indent fuel (i + 1)
          match current.get_dialogue_text with
          | some t =>
              (((if opts.trim_whitespace then t.trim else t)) :: rest.1, rest.2 + 1)
          | none => (rest.1, rest.2 + 1)
        else ([], 0)
      else ([], 0)

/-- `DialogueHandler::extract`. -/
def extract (commands : List EventCommand) (index : Nat)
    (pathPre : TranslationPath) (context : ExtractionContext)
    (options : ExtractionOptions) : ExtractionResult :=
  let cmd := commands.getD index EventCommand.empty
  let indent := cmd.indent
  let collected := collect commands options indent (commands.length + 1) index
  let lines := collected.1
  let consumed := collected.2
  if lines.isEmpty ∨ (lines.all (fun l => l.trimEmpty) ∧ ¬ options.include_empty) then
    ExtractionResult.skip (max consumed 1)
  else
    let merged_text :=
      if options.merge_dialogue_lines then joinSep options.dialogue_line_separator lines
      else joinSep (Str.mk "\n") lines
    let unit_id := generate_unit_id pathPre index (Str.mk "dialogue")
    let unit := ((TranslationUnit.new unit_id (pathPre.append_index index)
      .ShowTextBody merged_text).with_speaker context.current_speaker).with_context
        context.to_translation_context
    (ExtractionResult.single unit consumed).with_preceding merged_text

/-- The counting loop of `DialogueHandler::inject`: the length of the
consecutive 401 run with the given indent starting at `i`. -/
def countRun (commands : List EventCommand) (indent : Int) : Nat → Nat → Nat
  | 0, _ => 0
  | fuel + 1, i =>
      if i < commands.length then
        if (commands.getD i EventCommand.empty).code = 401 ∧
            (commands.getD i EventCommand.empty).indent = indent then
          countRun commands indent fuel (i + 1) + 1
        else 0
      else 0

/-- `DialogueHandler::inject`: when the unit id resolves, splice the run of
401 commands with one 401 per line of the split translation; otherwise
record the miss (unless missing translations are skipped). -/
def inject (commands : List EventCommand) (index : Nat)
    (translations : Translations) (pathPre : TranslationPath)
    (options : InjectionOptions) : List EventCommand × InjectionResult :=
  let indent := (commands.getD index EventCommand.empty).indent
  let old_count := countRun commands indent (commands.length + 1) index
  let unit_id := generate_unit_id pathPre index (Str.mk "dialogue")
  match translations unit_id with
  | some translated =>
      let new_lines := options.split_text translated
      let new_commands := new_lines.map (fun line => EventCommand.dialogue indent line)
      (commands.take index ++ new_commands ++ commands.drop (index + old_count),
        { applied := 1, not_found := 0, commands_modified := old_count, warnings := [] })
  | none =>
      if ¬ options.skip_missing_translations then
        (commands, { applied := 0, not_found := 1, commands_modified := 0, warnings := [unit_id] })
      else (commands, InjectionResult.new)

end DialogueHandler

/-! ### Choice handlers (`handlers/choices.rs`) -/

namespace ChoicesHandler

/-- The per-choice unit loop of `ChoicesHandler::extract`. -/
def choiceUnits (choices : List Str) (i : Nat) (base_path : TranslationPath)
    (context : ExtractionContext) (options : ExtractionOptions) : List TranslationUnit :=
  match choices with
  | [] => []
  | choice_text :: rest =>
      let tail := choiceUnits rest (i + 1) base_path context options
      if choice_text.trimEmpty ∧ ¬ options.include_empty then tail
      else
        let text := if options.trim_whitespace then choice_text.trim else choice_text
        let unit_id := base_path.to_unit_id [] ++ Str.mk "_choice_" ++ natRepr i
        let unit_path := ((base_path.append_key (Str.mk "parameters")).append_index 0).append_index i
        ((TranslationUnit.new unit_id unit_path .ShowChoices text).with_speaker
          context.current_speaker).with_context context.to_translation_context :: tail

/-- `ChoicesHandler::extract`. -/
def extract (commands : List EventCommand) (index : Nat)
    (pathPre : TranslationPath) (context : ExtractionContext)
    (options : ExtractionOptions) : ExtractionResult :=
  let cmd := commands.getD index EventCommand.empty
  match cmd.get_choices with
  | none => ExtractionResult.empty
  | some choices =>
      ExtractionResult.multiple (choiceUnits choices 0 (pathPre.append_index index)
        context options) 1

/-- The per-choice rewrite loop of `ChoicesHandler::inject`. -/
def injectChoices (choices : List Json) (i : Nat) (base_path : TranslationPath)
    (translations : Translations) : List Json × Nat :=
  match choices with
  | [] => ([], 0)
  | choice :: rest =>
      let r := injectChoices rest (i + 1) base_path translations
      let unit_id := base_path.to_unit_id [] ++ Str.mk "_choice_" ++ natRepr i
      match translations unit_id with
      | some translated => (Json.str translated :: r.1, r.2 + 1)
      | none => (choice :: r.1, r.2)

/-- `ChoicesHandler::inject`: rewrites the choices array in place; counts
one modified command whenever the first parameter is an array (regardless of
how many choices were rewritten). -/
def inject (commands : List EventCommand) (index : Nat)
    (translations : Translations) (pathPre : TranslationPath) :
    List EventCommand × InjectionResult :=
  let cmd := commands.getD index EventCommand.empty
  if cmd.parameters.isEmpty then (commands, InjectionResult.new)
  else
    let base_path := pathPre.append_index index
    match cmd.parameters[0]? with
    | some (Json.arr choices) =>
        let r := injectChoices choices 0 base_path translations
        let cmd2 := { cmd with parameters := cmd.parameters.set 0 (Json.arr r.1) }
        (commands.set index cmd2,
          { applied := r.2, not_found := 0, commands_modified := 1, warnings := [] })
    | _ => (commands, InjectionResult.new)

end ChoicesHandler

namespace ChoiceBranchHandler

/-- `ChoiceBranchHandler::extract`. -/
def extract (commands : List EventCommand) (index : Nat)
    (pathPre : TranslationPath) (context : ExtractionContext)
    (options : ExtractionOptions) : ExtractionResult :=
  let cmd := commands.getD index EventCommand.empty
  match cmd.get_choice_text with
  | none => ExtractionResult.empty
  | some choice_text =>
      if choice_text.trimEmpty ∧ ¬ options.include_empty then ExtractionResult.empty
      else
        let text := if options.trim_whitespace then choice_text.trim else choice_text
        let unit_id := generate_unit_id pathPre index (Str.mk "choice_branch")
        ExtractionResult.single (((TranslationUnit.new unit_id
          (pathPre.append_index index) .WhenChoice text).with_speaker
            context.current_speaker).with_context context.to_translation_context) 1

/-- `ChoiceBranchHandler::inject`: overwrite parameter 1 when the unit id
resolves and the command has at least two parameters. -/
def inject (commands : List EventCommand) (index : Nat)
    (translations : Translations) (pathPre : TranslationPath) :
    List EventCommand × InjectionResult :=
  let unit_id := generate_unit_id pathPre index (Str.mk "choice_branch")
  match translations unit_id with
  | some translated =>
      let cmd := commands.getD index EventCommand.empty
      if 2 ≤ cmd.parameters.length then
        let cmd2 := { cmd with parameters := cmd.parameters.set 1 (Json.str translated) }
        (commands.set index cmd2,
          { applied := 1, not_found := 0, commands_modified := 1, warnings := [] })
      else (commands, InjectionResult.new)
  | none => (commands, InjectionResult.new)

end ChoiceBranchHandler

/-! ### Comment handler (`handlers/comment.rs`) -/

namespace CommentHandler

/-- `CommentHandler::extract`. -/
def extract (commands : List EventCommand) (index : Nat)
    (pathPre : TranslationPath) (context : ExtractionContext)
    (options : ExtractionOptions) : ExtractionResult :=
  if ¬ options.extract_comments then ExtractionResult.empty
  else
    let cmd := commands.getD index EventCommand.empty
    match cmd.get_comment_text with
    | none => ExtractionResult.empty
    | some comment_text =>
        if options.should_skip_comment comment_text then ExtractionResult.empty
        else if comment_text.trimEmpty ∧ ¬ options.include_empty then ExtractionResult.empty
        else
          let text := if options.trim_whitespace then comment_text.trim else comment_text
          let unit_id := generate_unit_id pathPre index (Str.mk "comment")
          let trans_context := context.to_translation_context.add_tag (Str.mk "comment")
          ExtractionResult.single ((TranslationUnit.new unit_id
            (pathPre.append_index index) .CommentBody text).with_context trans_context) 1

/-- `CommentHandler::inject`: overwrite parameter 0 when the unit id
resolves and the command has parameters. -/
def inject (commands : List EventCommand) (index : Nat)
    (translations : Translations) (pathPre : TranslationPath) :
    List EventCommand × InjectionResult :=
  let unit_id := generate_unit_id pathPre index (Str.mk "comment")
  match translations unit_id with
  | some translated =>
      let cmd := commands.getD index EventCommand.empty
      if ¬ cmd.parameters.isEmpty then
        let cmd2 := { cmd with parameters := cmd.parameters.set 0 (Json.str translated) }
        (commands.set index cmd2,
          { applied := 1, not_found := 0, commands_modified := 1, warnings := [] })
      else (commands, InjectionResult.new)
  | none => (commands, InjectionResult.new)

end CommentHandler

/-! ### Plugin command handler (`handlers/plugin.rs`) -/

/-- Split on a dot (`str::split('.')`); always at least one piece. -/
def splitDot : Str → List Str
  | [] => [[]]
  | a :: rest =>
      match splitDot rest with
      | [] => []
      | p :: ps => if a = '.' then [] :: p :: ps else (a :: p) :: ps

/-- `String::replace('.', "_")`. -/
def replaceDotUnderscore (s : Str) : Str := s.map (fun c => if c = '.' then '_' else c)

/-- `PluginFieldConfig`. -/
structure PluginFieldConfig : Type where
  pattern : Str
  description : Option Str
  translatable : Bool

/-- `PluginExtractionConfig`. -/
structure PluginExtractionConfig : Type where
  plugin_name : Str
  extraction_paths : List PluginFieldConfig
  enabled : Bool
  description : Option Str

/-- `PluginExtractionConfig::new` followed by `add_path` calls. -/
def PluginExtractionConfig.single (plugin_name : Str) (pattern : Str)
    (description : Option Str) : PluginExtractionConfig where
  plugin_name := plugin_name
  extraction_paths := [{ pattern := pattern, description := description, translatable := true }]
  enabled := true
  description := none

/-- `PluginCommandHandler { predefined_configs, user_configs }` (the hash
maps are modelled as association lists). -/
structure PluginCommandHandler : Type where
  predefined_configs : List (Str × PluginExtractionConfig)
  user_configs : List (Str × PluginExtractionConfig)

/-- Association-list lookup for the config maps. -/
def lookupCfg : List (Str × PluginExtractionConfig) → Str → Option PluginExtractionConfig
  | [], _ => none
  | (k, c) :: rest, name => if k = name then some c else lookupCfg rest name

namespace PluginCommandHandler

/-- `PluginCommandHandler::new` with `load_predefined_configs`. -/
def new : PluginCommandHandler where
  predefined_configs :=
    [(Str.mk "TorigoyaMZ_NotifyMessage",
        PluginExtractionConfig.single (Str.mk "TorigoyaMZ_NotifyMessage") (Str.mk "message")
          (some (Str.mk "Notification message"))),
     (Str.mk "NotifyMessage_Battle",
        PluginExtractionConfig.single (Str.mk "NotifyMessage_Battle") (Str.mk "message")
          (some (Str.mk "Battle notification message"))),
     (Str.mk "BattleLogOutput",
        PluginExtractionConfig.single (Str.mk "BattleLogOutput") (Str.mk "message")
          (some (Str.mk "Battle log message")))]
  user_configs := []

/-- `PluginCommandHandler::get_config`: user configs take precedence. -/
def get_config (h : PluginCommandHandler) (plugin_name : Str) :
    Option PluginExtractionConfig :=
  match lookupCfg h.user_configs plugin_name with
  | some c => some c
  | none => lookupCfg h.predefined_configs plugin_name

end PluginCommandHandler

mutual

/-- `PluginCommandHandler::find_matching_fields`: every value in the tree
whose dotted path matches the pattern, in walk order. -/
def find_matching_fields (pattern : PathPattern) (v : Json) (current_path : Str) :
    List (Str × Json) :=
  match v with
  | .obj kvs => findFieldsKvs pattern kvs current_path
  | .arr xs => findFieldsArr pattern xs current_path 0
  | _ => []

def findFieldsKvs (pattern : PathPattern) (kvs : List (Str × Json)) (current_path : Str) :
    List (Str × Json) :=
  match kvs with
  | [] => []
  | (key, val) :: rest =>
      let new_path := if current_path.isEmpty then key
        else current_path ++ Str.mk "." ++ key
      (if pattern.matches new_path then [(new_path, val)] else []) ++
        find_matching_fields pattern val new_path ++ findFieldsKvs pattern rest current_path

def findFieldsArr (pattern : PathPattern) (xs : List Json) (current_path : Str) (i : Nat) :
    List (Str × Json) :=
  match xs with
  | [] => []
  | val :: rest =>
      let new_path := if current_path.isEmpty then natRepr i
        else current_path ++ Str.mk "." ++ natRepr i
      (if pattern.matches new_path then [(new_path, val)] else []) ++
        find_matching_fields pattern val new_path ++ findFieldsArr pattern rest current_path (i + 1)

end

mutual

/-- `PluginCommandHandler::find_matching_field_paths`: the matching paths
that hold string values. -/
def find_matching_field_paths (pattern : PathPattern) (v : Json) (current_path : Str) :
    List Str :=
  match v with
  | .obj kvs => findPathsKvs pattern kvs current_path
  | .arr xs => findPathsArr pattern xs current_path 0
  | _ => []

def findPathsKvs (pattern : PathPattern) (kvs : List (Str × Json)) (current_path : Str) :
    List Str :=
  match kvs with
  | [] => []
  | (key, val) :: rest =>
      let new_path := if current_path.isEmpty then key
        else current_path ++ Str.mk "." ++ key
      (if pattern.matches new_path ∧ val.isString then [new_path] else []) ++
        find_matching_field_paths pattern val new_path ++ findPathsKvs pattern rest current_path

def findPathsArr (pattern : PathPattern) (xs : List Json) (current_path : Str) (i : Nat) :
    List Str :=
  match xs with
  | [] => []
  | val :: rest =>
      let new_path := if current_path.isEmpty then natRepr i
        else current_path ++ Str.mk "." ++ natRepr i
      (if pattern.matches new_path ∧ val.isString then [new_path] else []) ++
        find_matching_field_paths pattern val new_path ++ findPathsArr pattern rest current_path (i + 1)

end

/-- The loop body of `PluginCommandHandler::set_field_value`, on the parts
of the dotted path.  Numeric parts index arrays; other parts index objects;
only a string leaf write reports success. -/
def set_field_parts (v : Json) (parts : List Str) (nv : Str) : Json × Bool :=
  match parts with
  | [] => (v, false)
  | [part] =>
      match parseUsize part with
      | some idx =>
          match v with
          | .arr xs =>
              if idx < xs.length then (.arr (xs.set idx (Json.str nv)), true)
              else (v, false)
          | _ => (v, false)
      | none =>
          match v with
          | .obj kvs => (.obj (Json.insertKey kvs part (Json.str nv)), true)
          | _ => (v, false)
  | part :: rest =>
      match parseUsize part with
      | some idx =>
          match v with
          | .arr xs =>
              match xs[idx]? with
              | some child =>
                  let r := set_field_parts child rest nv
                  (.arr (xs.set idx r.1), r.2)
              | none => (v, false)
          | _ => (v, false)
      | none =>
          match v with
          | .obj kvs =>
              match Json.getKey part kvs with
              | some child =>
                  let r := set_field_parts child rest nv
                  (.obj (Json.insertKey kvs part r.1), r.2)
              | none => (v, false)
          | _ => (v, false)

/-- `PluginCommandHandler::set_field_value`. -/
def set_field_value (v : Json) (path : Str) (nv : Str) : Json × Bool :=
  set_field_parts v (splitDot path) nv

namespace PluginCommandHandler

/-- The per-match unit loop of `extract_from_args`. -/
def matchUnits (ms : List (Str × Json)) (plugin_name : Str)
    (base_path : TranslationPath) (context : ExtractionContext)
    (options : ExtractionOptions) : List TranslationUnit :=
  match ms with
  | [] => []
  | (field_path, value) :: rest =>
      let tail := matchUnits rest plugin_name base_path context options
      match value.as_str with
      | none => tail
      | some text0 =>
          let text := if options.trim_whitespace then text0.trim else text0
          if text.isEmpty ∧ ¬ options.include_empty then tail
          else
            let unit_id := base_path.to_unit_id [] ++ Str.mk "_plugin_" ++
              replaceDotUnderscore plugin_name ++ Str.mk "_" ++
              replaceDotUnderscore field_path
            let trans_context := (context.to_translation_context.add_tag
              (Str.mk "plugin:" ++ plugin_name)).add_tag (Str.mk "field:" ++ field_path)
            (TranslationUnit.new unit_id
              ((base_path.append_key (Str.mk "parameters")).append_index 3)
              .PluginCommand text).with_context trans_context :: tail

/-- `PluginCommandHandler::extract_from_args`. -/
def extract_from_args (h : PluginCommandHandler) (plugin_name : Str) (args : Json)
    (pathPre : TranslationPath) (index : Nat) (context : ExtractionContext)
    (options : ExtractionOptions) : List TranslationUnit :=
  match h.get_config plugin_name with
  | some c =>
      if c.enabled then
        let base_path := pathPre.append_index index
        (c.extraction_paths.map (fun fc =>
          if fc.translatable then
            matchUnits (find_matching_fields (PathPattern.new fc.pattern) args []) plugin_name
              base_path context options
          else [])).flatten
      else []
  | none => []

/-- The per-path rewrite loop of `inject_to_args` for one field config. -/
def injectPaths (args : Json) (paths : List Str) (plugin_name : Str)
    (base_path : TranslationPath) (translations : Translations) : Json × Nat :=
  match paths with
  | [] => (args, 0)
  | field_path :: rest =>
      let unit_id := base_path.to_unit_id [] ++ Str.mk "_plugin_" ++
        replaceDotUnderscore plugin_name ++ Str.mk "_" ++ replaceDotUnderscore field_path
      let step :=
        match translations unit_id with
        | some translated =>
            let r := set_field_value args field_path translated
            if r.2 then (r.1, 1) else (r.1, 0)
        | none => (args, 0)
      let r2 := injectPaths step.1 rest plugin_name base_path translations
      (r2.1, step.2 + r2.2)

/-- The per-config loop of `inject_to_args` (field paths are re-computed on
the current arguments for each config). -/
def injectConfigs (args : Json) (configs : List PluginFieldConfig) (plugin_name : Str)
    (base_path : TranslationPath) (translations : Translations) : Json × Nat :=
  match configs with
  | [] => (args, 0)
  | fc :: rest =>
      let step :=
        if fc.translatable then
          injectPaths args (find_matching_field_paths (PathPattern.new fc.pattern) args [])
            plugin_name base_path translations
        else (args, 0)
      let r2 := injectConfigs step.1 rest plugin_name base_path translations
      (r2.1, step.2 + r2.2)

/-- `PluginCommandHandler::inject_to_args`. -/
def inject_to_args (h : PluginCommandHandler) (plugin_name : Str) (args : Json)
    (translations : Translations) (pathPre : TranslationPath) (index : Nat) :
    Json × InjectionResult :=
  match h.get_config plugin_name with
  | some c =>
      if c.enabled then
        let base_path := pathPre.append_index index
        let r := injectConfigs args c.extraction_paths plugin_name base_path translations
        (r.1, { applied := r.2, not_found := 0, commands_modified := if r.2 > 0 then 1 else 0, warnings := [] })
      else (args, InjectionResult.new)
  | none => (args, InjectionResult.new)

/-- `PluginCommandHandler::extract` (as `CommandHandler`). -/
def extract (h : PluginCommandHandler) (commands : List EventCommand) (index : Nat)
    (pathPre : TranslationPath) (context : ExtractionContext)
    (options : ExtractionOptions) : ExtractionResult :=
  if ¬ options.extract_plugins then ExtractionResult.empty
  else
    let cmd := commands.getD index EventCommand.empty
    match cmd.get_plugin_data with
    | none => ExtractionResult.empty
    | some plugin_data =>
        let units := h.extract_from_args plugin_data.plugin_name plugin_data.arguments
          pathPre index context options
        if units.isEmpty then ExtractionResult.empty
        else ExtractionResult.multiple units 1

/-- `PluginCommandHandler::inject` (as `CommandHandler`). -/
def inject (h : PluginCommandHandler) (commands : List EventCommand) (index : Nat)
    (translations : Translations) (pathPre : TranslationPath) :
    List EventCommand × InjectionResult :=
  let cmd := commands.getD index EventCommand.empty
  match cmd.get_plugin_data with
  | none => (commands, InjectionResult.new)
  | some plugin_data =>
      let r := h.inject_to_args plugin_data.plugin_name plugin_data.arguments
        translations pathPre index
      if r.2.applied > 0 then
        (commands.set index { cmd with parameters := cmd.parameters.set 3 r.1 }, r.2)
      else (commands, r.2)

end PluginCommandHandler

/-! ### Script text handler (`handlers/comment.rs`, `ScriptTextHandler`) -/

/-- `EventCommand::get_script_special_text`. -/
def EventCommand.get_script_special_text (c : EventCommand) (pre : Str) : Option Str :=
  if c.code ≠ 657 then none
  else match c.get_string_param 0 with
    | none => none
    | some text => if text.startsWith pre then some (text.drop pre.length) else none

namespace ScriptTextHandler

/-- The default Japanese script-text marker. -/
def default_pre : Str := Str.mk "テキスト = "

/-- `ScriptTextHandler::extract` (the handler's own marker is `pre`;
`options.script_text_pre` overrides it). -/
def extract (pre : Str) (commands : List EventCommand) (index : Nat)
    (pathPre : TranslationPath) (context : ExtractionContext)
    (options : ExtractionOptions) : ExtractionResult :=
  if ¬ options.extract_script_text then ExtractionResult.empty
  else
    let cmd := commands.getD index EventCommand.empty
    let used := match options.script_text_pre with | some s => s | none => pre
    match cmd.get_script_special_text used with
    | none => ExtractionResult.empty
    | some text =>
        if text.trimEmpty ∧ ¬ options.include_empty then ExtractionResult.empty
        else
          let processed := if options.trim_whitespace then text.trim else text
          let unit_id := generate_unit_id pathPre index (Str.mk "script_text")
          let trans_context := context.to_translation_context.add_tag (Str.mk "script_text")
          ExtractionResult.single ((TranslationUnit.new unit_id
            (pathPre.append_index index) .ScriptBodyAlt processed).with_context trans_context) 1

/-- `ScriptTextHandler::inject`: re-attach the default marker. -/
def inject (commands : List EventCommand) (index : Nat)
    (translations : Translations) (pathPre : TranslationPath) :
    List EventCommand × InjectionResult :=
  let unit_id := generate_unit_id pathPre index (Str.mk "script_text")
  match translations unit_id with
  | some translated =>
      let cmd := commands.getD index EventCommand.empty
      if ¬ cmd.parameters.isEmpty then
        let cmd2 := { cmd with parameters := cmd.parameters.set 0 (Json.str (default_pre ++ translated)) }
        (commands.set index cmd2,
          { applied := 1, not_found := 0, commands_modified := 1, warnings := [] })
      else (commands, InjectionResult.new)
  | none => (commands, InjectionResult.new)

end ScriptTextHandler

/-! ### Handler registry and the page walker (`handlers/mod.rs`,
`event_page.rs`)

The registry's `Arc<dyn CommandHandler>` values are modelled by a closed
tag type; dispatch on a tag runs the corresponding handler functions. -/

/-- The handlers that exist in the codebase. -/
inductive HandlerTag : Type
  | showText
  | dialogue
  | choices
  | choiceBranch
  | comment
  | pluginCmd (h : PluginCommandHandler)
  | scriptText (pre : Str)

/-- `HandlerRegistry` as its lookup function `get`. -/
def HandlerRegistry : Type := EventCode → Option HandlerTag

/-- `HandlerRegistry::with_defaults`: each registered handler is stored
under every code in its `handles()` list (each default handler handles one
code; `ScriptTextHandler` is never registered). -/
def HandlerRegistry.withDefaults : HandlerRegistry := fun code =>
  match code with
  | .ShowText => some .showText
  | .ShowTextBody => some .dialogue
  | .ShowChoices => some .choices
  | .WhenChoice => some .choiceBranch
  | .CommentBody => some .comment
  | .PluginCommand => some (.pluginCmd PluginCommandHandler.new)
  | _ => none

/-- Dynamic dispatch of `CommandHandler::extract`. -/
def HandlerTag.runExtract (tag : HandlerTag) (commands : List EventCommand) (index : Nat)
    (pathPre : TranslationPath) (context : ExtractionContext)
    (options : ExtractionOptions) : ExtractionResult :=
  match tag with
  | .showText => ShowTextHandler.extract commands index
  | .dialogue => DialogueHandler.extract commands index pathPre context options
  | .choices => ChoicesHandler.extract commands index pathPre context options
  | .choiceBranch => ChoiceBranchHandler.extract commands index pathPre context options
  | .comment => CommentHandler.extract commands index pathPre context options
  | .pluginCmd h => h.extract commands index pathPre context options
  | .scriptText pre => ScriptTextHandler.extract pre commands index pathPre context options

/-- Dynamic dispatch of `CommandHandler::inject`. -/
def HandlerTag.runInject (tag : HandlerTag) (commands : List EventCommand) (index : Nat)
    (translations : Translations) (pathPre : TranslationPath)
    (options : InjectionOptions) : List EventCommand × InjectionResult :=
  match tag with
  | .showText => ShowTextHandler.inject commands
  | .dialogue => DialogueHandler.inject commands index translations pathPre options
  | .choices => ChoicesHandler.inject commands index translations pathPre
  | .choiceBranch => ChoiceBranchHandler.inject commands index translations pathPre
  | .comment => CommentHandler.inject commands index translations pathPre
  | .pluginCmd h => h.inject commands index translations pathPre
  | .scriptText _ => ScriptTextHandler.inject commands index translations pathPre

/-- The `while index < commands.len()` loop of
`EventPageParser::extract_from_commands`, fuelled (every handler consumes at
least one command, so fuel `commands.length` suffices from index 0). -/
def extract_loop (reg : HandlerRegistry) (commands : List EventCommand)
    (list_path : TranslationPath) (options : ExtractionOptions) :
    Nat → Nat → ExtractionContext → List TranslationUnit × ExtractionContext
  | 0, _, ctx => ([], ctx)
  | fuel + 1, index, ctx =>
      if index < commands.length then
        match reg (EventCode.fromInt (commands.getD index EventCommand.empty).code) with
        | some tag =>
            let result := tag.runExtract commands index list_path ctx options
            let ctx1 := match result.speaker_update with
              | some speaker => ctx.set_speaker speaker
              | none => ctx
            let ctx2 := match result.add_to_preceding with
              | some text => ctx1.add_preceding_line text
              | none => ctx1
            let r := extract_loop reg commands list_path options fuel
              (index + result.consumed) ctx2
            (result.units ++ r.1, r.2)
        | none => extract_loop reg commands list_path options fuel (index + 1) ctx
      else ([], ctx)

/-- `EventPageParser::extract_from_commands` (also returning the final
context, which the Rust code mutates in place). -/
def extract_from_commands (reg : HandlerRegistry) (commands : List EventCommand)
    (pathPre : TranslationPath) (context : ExtractionContext)
    (options : ExtractionOptions) : List TranslationUnit × ExtractionContext :=
  extract_loop reg commands (pathPre.append_key (Str.mk "list")) options
    (commands.length + 1) 0 context

/-- `EventPageParser::extract_from_list`. -/
def extract_from_list (reg : HandlerRegistry) (list : Json)
    (pathPre : TranslationPath) (context : ExtractionContext)
    (options : ExtractionOptions) : List TranslationUnit × ExtractionContext :=
  extract_from_commands reg (parse_commands list) pathPre context options

/-- The `while index < commands.len()` loop of
`EventPageParser::inject_to_commands`: the index always advances by one, but
a dialogue splice may change the list's length, so the loop is fuelled.  The
out-of-fuel value coincides with the loop's exit value, so the encoding is
exact whenever the loop performs at most `fuel` iterations and is then at
its exit condition. -/
def inject_loop (reg : HandlerRegistry) (translations : Translations)
    (list_path : TranslationPath) (options : InjectionOptions) :
    Nat → Nat → List EventCommand → InjectionResult → List EventCommand × InjectionResult
  | 0, _, commands, acc => (commands, acc)
  | fuel + 1, index, commands, acc =>
      if index < commands.length then
        let step := match reg (EventCode.fromInt (commands.getD index EventCommand.empty).code) with
          | some tag => tag.runInject commands index translations list_path options
          | none => (commands, InjectionResult.new)
        inject_loop reg translations list_path options fuel (index + 1) step.1
          (acc.merge step.2)
      else (commands, acc)

/-- `EventPageParser::inject_to_commands`. -/
def inject_to_commands (reg : HandlerRegistry) (commands : List EventCommand)
    (translations : Translations) (pathPre : TranslationPath)
    (options : InjectionOptions) : List EventCommand × InjectionResult :=
  inject_loop reg translations (pathPre.append_key (Str.mk "list")) options
    (commands.length + 1) 0 commands InjectionResult.new

/-- `EventPageParser::inject_to_list`: the JSON list is re-serialized only
when some command was counted as modified. -/
def inject_to_list (reg : HandlerRegistry) (list : Json) (translations : Translations)
    (pathPre : TranslationPath) (options : InjectionOptions) : Json × InjectionResult :=
  let commands := parse_commands list
  let r := inject_to_commands reg commands translations pathPre options
  (if r.2.commands_modified > 0 then commands_to_json r.1 else list, r.2)

/-! ## Units produced by the default handlers carry their handler's code -/

theorem TranslationUnit.code_with_speaker (u : TranslationUnit) (s : Option Str) :
    (u.with_speaker s).code = u.code := rfl

theorem TranslationUnit.code_with_context (u : TranslationUnit) (c : TranslationContext) :
    (u.with_context c).code = u.code := rfl

theorem ChoicesHandler.choiceUnits_code (choices : List Str) (i : Nat)
    (bp : TranslationPath) (ctx : ExtractionContext) (opts : ExtractionOptions) :
    ∀ u ∈ ChoicesHandler.choiceUnits choices i bp ctx opts, u.code = .ShowChoices := by
  induction choices generalizing i with
  | nil => intro u hu; simp [ChoicesHandler.choiceUnits] at hu
  | cons c rest ih =>
      intro u hu
      simp only [ChoicesHandler.choiceUnits] at hu
      split at hu
      · exact ih (i + 1) u hu
      · rcases List.mem_cons.mp hu with h | h
        · subst h; rfl
        · exact ih (i + 1) u h

theorem DialogueHandler.extract_units_code_dlg (commands : List EventCommand) (index : Nat)
    (p : TranslationPath) (ctx : ExtractionContext) (opts : ExtractionOptions) :
    ∀ u ∈ (DialogueHandler.extract commands index p ctx opts).units,
      u.code = .ShowTextBody := by
  intro u hu
  simp only [DialogueHandler.extract] at hu
  split at hu
  · simp [ExtractionResult.skip] at hu
  · simp only [ExtractionResult.with_preceding, ExtractionResult.single,
      List.mem_singleton] at hu
    subst hu; rfl

theorem ChoicesHandler.extract_units_code_ch (commands : List EventCommand) (index : Nat)
    (p : TranslationPath) (ctx : ExtractionContext) (opts : ExtractionOptions) :
    ∀ u ∈ (ChoicesHandler.extract commands index p ctx opts).units,
      u.code = .ShowChoices := by
  intro u hu
  simp only [ChoicesHandler.extract] at hu
  split at hu
  · simp [ExtractionResult.empty] at hu
  · exact ChoicesHandler.choiceUnits_code _ _ _ _ _ u hu

theorem ChoiceBranchHandler.extract_units_code_br (commands : List EventCommand) (index : Nat)
    (p : TranslationPath) (ctx : ExtractionContext) (opts : ExtractionOptions) :
    ∀ u ∈ (ChoiceBranchHandler.extract commands index p ctx opts).units,
      u.code = .WhenChoice := by
  intro u hu
  simp only [ChoiceBranchHandler.extract] at hu
  split at hu
  · simp [ExtractionResult.empty] at hu
  · split at hu
    · simp [ExtractionResult.empty] at hu
    · simp only [ExtractionResult.single, List.mem_singleton] at hu
      subst hu; rfl

theorem CommentHandler.extract_units_code_cm (commands : List EventCommand) (index : Nat)
    (p : TranslationPath) (ctx : ExtractionContext) (opts : ExtractionOptions) :
    ∀ u ∈ (CommentHandler.extract commands index p ctx opts).units,
      u.code = .CommentBody := by
  intro u hu
  simp only [CommentHandler.extract] at hu
  split at hu
  · simp [ExtractionResult.empty] at hu
  · split at hu
    · simp [ExtractionResult.empty] at hu
    · split at hu
      · simp [ExtractionResult.empty] at hu
      · split at hu
        · simp [ExtractionResult.empty] at hu
        · simp only [ExtractionResult.single, List.mem_singleton] at hu
          subst hu; rfl

theorem PluginCommandHandler.matchUnits_code (ms : List (Str × Json)) (pn : Str)
    (bp : TranslationPath) (ctx : ExtractionContext) (opts : ExtractionOptions) :
    ∀ u ∈ PluginCommandHandler.matchUnits ms pn bp ctx opts,
      u.code = .PluginCommand := by
  induction ms with
  | nil => intro u hu; simp [PluginCommandHandler.matchUnits] at hu
  | cons m rest ih =>
      intro u hu
      obtain ⟨fp, v⟩ := m
      simp only [PluginCommandHandler.matchUnits] at hu
      split at hu
      · exact ih u hu
      · split at hu <;>
          first
            | exact ih u hu
            | (split at hu
               exacts [ih u hu,
                 (List.mem_cons.mp hu).elim (fun h => h ▸ rfl) (fun h => ih u h)])

theorem PluginCommandHandler.extract_units_code_pc (h : PluginCommandHandler)
    (commands : List EventCommand) (index : Nat) (p : TranslationPath)
    (ctx : ExtractionContext) (opts : ExtractionOptions) :
    ∀ u ∈ (PluginCommandHandler.extract h commands index p ctx opts).units,
      u.code = .PluginCommand := by
  intro u hu
  simp only [PluginCommandHandler.extract] at hu
  split at hu
  · simp [ExtractionResult.empty] at hu
  · split at hu
    · simp [ExtractionResult.empty] at hu
    · split at hu
      · simp [ExtractionResult.empty] at hu
      · simp only [ExtractionResult.multiple] at hu
        simp only [PluginCommandHandler.extract_from_args] at hu
        split at hu
        · split at hu
          · rw [List.mem_flatten] at hu
            obtain ⟨l, hl, hul⟩ := hu
            rw [List.mem_map] at hl
            obtain ⟨fc, _, hfc⟩ := hl
            subst hfc
            split at hul
            · exact PluginCommandHandler.matchUnits_code _ _ _ _ _ u hul
            · simp at hul
          · simp at hu
        · simp at hu

theorem extract_loop_units_code (commands : List EventCommand) (lp : TranslationPath)
    (opts : ExtractionOptions) :
    ∀ fuel index ctx u,
      u ∈ (extract_loop HandlerRegistry.withDefaults commands lp opts fuel index ctx).1 →
      u.code ≠ .ScriptBodyAlt := by
  intro fuel
  induction fuel with
  | zero => intro index ctx u hu; simp [extract_loop] at hu
  | succ fuel ih =>
      intro index ctx u hu
      rw [extract_loop] at hu
      split at hu
      · revert hu
        rcases hcode : EventCode.fromInt (commands.getD index EventCommand.empty).code with
          _ | _ | _ | _ | _ | _ | _ | _ | _ | _ | _ | _ | _ | _ | _ | _ | _ | _ | c <;>
          simp only [HandlerRegistry.withDefaults, HandlerTag.runExtract] <;>
          intro hu
        case ShowText =>
          rcases List.mem_append.mp hu with h | h
          · simp [ShowTextHandler.extract, ExtractionResult.empty,
              ExtractionResult.with_speaker_update] at h
          · exact ih _ _ u h
        case ShowTextBody =>
          rcases List.mem_append.mp hu with h | h
          · rw [DialogueHandler.extract_units_code_dlg _ _ _ _ _ u h]; simp
          · exact ih _ _ u h
        case ShowChoices =>
          rcases List.mem_append.mp hu with h | h
          · rw [ChoicesHandler.extract_units_code_ch _ _ _ _ _ u h]; simp
          · exact ih _ _ u h
        case WhenChoice =>
          rcases List.mem_append.mp hu with h | h
          · rw [ChoiceBranchHandler.extract_units_code_br _ _ _ _ _ u h]; simp
          · exact ih _ _ u h
        case CommentBody =>
          rcases List.mem_append.mp hu with h | h
          · rw [CommentHandler.extract_units_code_cm _ _ _ _ _ u h]; simp
          · exact ih _ _ u h
        case PluginCommand =>
          rcases List.mem_append.mp hu with h | h
          · rw [PluginCommandHandler.extract_units_code_pc _ _ _ _ _ _ u h]; simp
          · exact ih _ _ u h
        all_goals exact ih _ _ u hu
      · simp at hu

theorem extract_loop_unhandled (reg : HandlerRegistry) (commands : List EventCommand)
    (lp : TranslationPath) (opts : ExtractionOptions) (fuel index : Nat)
    (ctx : ExtractionContext) (h : index < commands.length)
    (hreg : reg (EventCode.fromInt (commands.getD index EventCommand.empty).code) = none) :
    extract_loop reg commands lp opts (fuel + 1) index ctx =
      extract_loop reg commands lp opts fuel (index + 1) ctx := by
  rw [extract_loop, if_pos h, hreg]

/-- C10: with the default handler registry, extraction never produces a
unit for opcode 657: `with_defaults` registers no handler for
`ScriptBodyAlt` (the `ScriptTextHandler` is never dispatched), every unit
produced by page-walker extraction has a code other than `ScriptBodyAlt`
for every command list, options and context, and at a 657 command the
walker advances by exactly one index. -/
theorem C10_no_script_text_units :
    HandlerRegistry.withDefaults .ScriptBodyAlt = none ∧
    (∀ (commands : List EventCommand) (pathPre : TranslationPath)
      (ctx : ExtractionContext) (opts : ExtractionOptions) (u : TranslationUnit),
      u ∈ (extract_from_commands HandlerRegistry.withDefaults commands pathPre ctx opts).1 →
      u.code ≠ .ScriptBodyAlt) ∧
    (∀ (commands : List EventCommand) (lp : TranslationPath) (opts : ExtractionOptions)
      (fuel index : Nat) (ctx : ExtractionContext),
      index < commands.length →
      EventCode.fromInt (commands.getD index EventCommand.empty).code = .ScriptBodyAlt →
      extract_loop HandlerRegistry.withDefaults commands lp opts (fuel + 1) index ctx =
        extract_loop HandlerRegistry.withDefaults commands lp opts fuel (index + 1) ctx) := by
  refine ⟨rfl, ?_, ?_⟩
  · intro commands pathPre ctx opts u hu
    exact extract_loop_units_code commands _ opts _ 0 ctx u hu
  · intro commands lp opts fuel index ctx hlt hcode
    exact extract_loop_unhandled _ commands lp opts fuel index ctx hlt (by rw [hcode]; rfl)

/-- Witness for C10 at a concrete one-command 657 list. -/
theorem C10_no_script_text_units_witness :
    extract_loop HandlerRegistry.withDefaults [{ code := 657, indent := 0, parameters := [] }]
        TranslationPath.new ExtractionOptions.default 1 0 (ExtractionContext.new (Str.mk "a")) =
      extract_loop HandlerRegistry.withDefaults [{ code := 657, indent := 0, parameters := [] }]
        TranslationPath.new ExtractionOptions.default 0 1 (ExtractionContext.new (Str.mk "a")) :=
  C10_no_script_text_units.2.2 _ _ _ 0 0 _ (by decide) (by decide)

/-! ## Claim C9: the preceding-lines window -/

theorem ExtractionContext.add_preceding_line_max (c : ExtractionContext) (line : Str) :
    (c.add_preceding_line line).max_preceding_lines = c.max_preceding_lines := by
  unfold ExtractionContext.add_preceding_line
  split
  · split <;> rfl
  · rfl

theorem ExtractionContext.add_preceding_line_len_le (c : ExtractionContext) (line : Str)
    (hmax : 1 ≤ c.max_preceding_lines)
    (h : c.preceding_lines.length ≤ c.max_preceding_lines) :
    (c.add_preceding_line line).preceding_lines.length ≤ c.max_preceding_lines := by
  unfold ExtractionContext.add_preceding_line
  split
  · split
    · next hfull =>
        simp only [List.length_append, List.length_drop, List.length_cons,
          List.length_nil]
        omega
    · next hroom =>
        simp only [List.length_append, List.length_cons, List.length_nil]
        omega
  · exact h

theorem ExtractionContext.foldl_add_preceding_line_len_le (lines : List Str)
    (c : ExtractionContext) (hmax : 1 ≤ c.max_preceding_lines)
    (h : c.preceding_lines.length ≤ c.max_preceding_lines) :
    ((lines.foldl ExtractionContext.add_preceding_line c).preceding_lines.length ≤
      c.max_preceding_lines) := by
  induction lines generalizing c with
  | nil => exact h
  | cons l rest ih =>
      have hm := ExtractionContext.add_preceding_line_max c l
      have := ih (c.add_preceding_line l) (by rw [hm]; exact hmax)
        (by rw [hm]; exact ExtractionContext.add_preceding_line_len_le c l hmax h)
      rw [hm] at this
      exact this

/-- C9 counterexample: with the maximum configured to 0 the window still
grows to one line, exceeding the configured maximum. -/
theorem C9_preceding_window_counterexample :
    (((ExtractionContext.new (Str.mk "f")).with_max_preceding_lines 0).add_preceding_line
        (Str.mk "a")).preceding_lines.length = 1 ∧
    ¬ ((((ExtractionContext.new (Str.mk "f")).with_max_preceding_lines 0).add_preceding_line
        (Str.mk "a")).preceding_lines.length ≤
      ((ExtractionContext.new (Str.mk "f")).with_max_preceding_lines 0).max_preceding_lines) := by
  constructor
  · rfl
  · decide

/-- C9 (amended): whenever the configured maximum is at least one (the
default is 5), any sequence of add-preceding-line operations keeps the
window within the maximum; a single add ignores blank lines, appends at the
back when there is room, and evicts the front line first when the window is
full. -/
theorem C9_preceding_window_amended (c : ExtractionContext) (line : Str)
    (hmax : 1 ≤ c.max_preceding_lines) :
    ((line.trimEmpty → c.add_preceding_line line = c) ∧
     (¬ line.trimEmpty = true → c.preceding_lines.length < c.max_preceding_lines →
        (c.add_preceding_line line).preceding_lines = c.preceding_lines ++ [line]) ∧
     (¬ line.trimEmpty = true → c.max_preceding_lines ≤ c.preceding_lines.length →
        (c.add_preceding_line line).preceding_lines =
          c.preceding_lines.drop 1 ++ [line])) ∧
    (∀ lines : List Str, c.preceding_lines.length ≤ c.max_preceding_lines →
      ((lines.foldl ExtractionContext.add_preceding_line c).preceding_lines.length ≤
        c.max_preceding_lines)) := by
  refine ⟨⟨?_, ?_, ?_⟩, ?_⟩
  · intro hblank
    unfold ExtractionContext.add_preceding_line
    rw [if_neg (by simp [hblank])]
  · intro hnb hroom
    unfold ExtractionContext.add_preceding_line
    rw [if_pos (by simpa using hnb), if_neg (by omega)]
  · intro hnb hfull
    unfold ExtractionContext.add_preceding_line
    rw [if_pos (by simpa using hnb), if_pos (by omega)]
  · intro lines h
    exact ExtractionContext.foldl_add_preceding_line_len_le lines c hmax h

/-- Witness for C9: a full default window evicts its oldest line. -/
theorem C9_preceding_window_amended_witness :
    ({ ExtractionContext.new (Str.mk "f") with
        preceding_lines := [Str.mk "a", Str.mk "b", Str.mk "c", Str.mk "d", Str.mk "e"]
      }.add_preceding_line (Str.mk "x")).preceding_lines =
      [Str.mk "b", Str.mk "c", Str.mk "d", Str.mk "e", Str.mk "x"] := by
  have h := (C9_preceding_window_amended
    { ExtractionContext.new (Str.mk "f") with
        preceding_lines := [Str.mk "a", Str.mk "b", Str.mk "c", Str.mk "d", Str.mk "e"] }
    (Str.mk "x") (by decide)).1.2.2 (by decide) (by decide)
  rw [h]
  rfl

/-! ## Claim C5: speaker updates at ShowText commands -/

/-- C5 counterexample: a 101 command with an empty speaker string does not
leave the current speaker unchanged — it clears it (the speaker update is
`Some(None)`, and the walker calls `set_speaker(None)`). -/
theorem C5_speaker_counterexample :
    ((extract_from_commands HandlerRegistry.withDefaults
        [{ code := 101, indent := 0,
           parameters := [Json.str [], Json.num 0, Json.num 0, Json.num 2, Json.str []] }]
        TranslationPath.new
        ((ExtractionContext.new (Str.mk "f")).set_speaker (some (Str.mk "Alice")))
        ExtractionOptions.default).2.current_speaker = none) ∧
    ((ExtractionContext.new (Str.mk "f")).set_speaker
        (some (Str.mk "Alice"))).current_speaker = some (Str.mk "Alice") := by
  constructor
  · rfl
  · rfl

/-- C5 (amended): the walker processes a 101 command by setting
`current_speaker` to `get_speaker_name` of the command: a non-empty speaker
string at parameter 4 sets that speaker, while an empty (or missing)
speaker clears the current speaker to `none` rather than leaving it
unchanged. -/
theorem C5_speaker_amended
    (commands : List EventCommand) (lp : TranslationPath) (opts : ExtractionOptions)
    (fuel index : Nat) (ctx : ExtractionContext) (s : Str)
    (h : index < commands.length)
    (hcode : (commands.getD index EventCommand.empty).code = 101) :
    (extract_loop HandlerRegistry.withDefaults commands lp opts (fuel + 1) index ctx =
      extract_loop HandlerRegistry.withDefaults commands lp opts fuel (index + 1)
        (ctx.set_speaker ((commands.getD index EventCommand.empty).get_speaker_name))) ∧
    (∀ cmd : EventCommand, cmd.code = 101 → 5 ≤ cmd.parameters.length →
      cmd.get_string_param 4 = some s →
      cmd.get_speaker_name = if s.isEmpty then none else some s) := by
  constructor
  · rw [extract_loop, if_pos h]
    have hst : EventCode.fromInt (commands.getD index EventCommand.empty).code =
        .ShowText := by rw [hcode]; rfl
    rw [hst]
    simp only [HandlerRegistry.withDefaults, HandlerTag.runExtract,
      ShowTextHandler.extract, ExtractionResult.empty,
      ExtractionResult.with_speaker_update]
    simp
  · intro cmd h101 hlen hparam
    unfold EventCommand.get_speaker_name
    rw [if_neg (by simp [h101]), if_pos hlen, hparam]
    by_cases hs : s.isEmpty <;> simp [hs]

/-- Witness for C5: an empty speaker string yields no speaker. -/
theorem C5_speaker_amended_witness :
    ({ code := 101, indent := 0,
       parameters := [Json.str [], Json.num 0, Json.num 0, Json.num 2, Json.str []] } :
      EventCommand).get_speaker_name = none := by
  have h := (C5_speaker_amended
    [{ code := 101, indent := 0,
       parameters := [Json.str [], Json.num 0, Json.num 0, Json.num 2, Json.str []] }]
    TranslationPath.new ExtractionOptions.default 0 0
    (ExtractionContext.new (Str.mk "f")) [] (by decide) (by decide)).2
  have h2 := h ⟨101, 0, [Json.str [], Json.num 0, Json.num 0, Json.num 2, Json.str []]⟩
    (by decide) (by decide) (by decide)
  simpa using h2

/-! ## Claim C4: dialogue runs -/

/-- The collection loop walks exactly a declaratively-described run of
consecutive 401 commands with the given indent, each carrying a dialogue
text, and stops at the list's end or at the first breaking command. -/
theorem DialogueHandler.collect_spec (commands : List EventCommand)
    (opts : ExtractionOptions) (indent : Int) (run : List Str) :
    ∀ fuel index, run.length ≤ fuel → index + run.length ≤ commands.length →
    (∀ j, j < run.length →
      (commands.getD (index + j) EventCommand.empty).code = 401 ∧
      (commands.getD (index + j) EventCommand.empty).indent = indent ∧
      (commands.getD (index + j) EventCommand.empty).get_dialogue_text =
        some (run.getD j [])) →
    (index + run.length = commands.length ∨
      ¬ ((commands.getD (index + run.length) EventCommand.empty).code = 401 ∧
        (commands.getD (index + run.length) EventCommand.empty).indent = indent)) →
    DialogueHandler.collect commands opts indent fuel index =
      (run.map (fun t => if opts.trim_whitespace then t.trim else t), run.length) := by
  induction run with
  | nil =>
      intro fuel index hfuel hle hrun hstop
      cases fuel with
      | zero => rfl
      | succ f =>
          rw [DialogueHandler.collect]
          split
          · next h =>
              rcases hstop with h1 | h2
              · simp at h1; omega
              · rw [if_neg (by simpa using h2)]
                simp
          · simp
  | cons t rest ih =>
      intro fuel index hfuel hle hrun hstop
      cases fuel with
      | zero => simp at hfuel
      | succ f =>
          have hlt : index < commands.length := by
            simp only [List.length_cons] at hle; omega
          rw [DialogueHandler.collect, if_pos hlt]
          have h0 := hrun 0 (by simp)
          simp only [Nat.add_zero, List.getD_cons_zero] at h0
          rw [if_pos ⟨h0.1, h0.2.1⟩, h0.2.2]
          have hrest := ih f (index + 1)
            (by simp only [List.length_cons] at hfuel; omega)
            (by simp only [List.length_cons] at hle; omega)
            (by
              intro j hj
              have := hrun (j + 1) (by simp only [List.length_cons]; omega)
              rw [show index + (j + 1) = index + 1 + j by omega] at this
              simpa using this)
            (by
              rcases hstop with h1 | h2
              · left; simp only [List.length_cons] at h1; omega
              · right
                rw [show index + 1 + rest.length = index + (t :: rest).length by
                  simp; omega]
                exact h2)
          rw [hrest]
          simp

/-- C4 counterexample: with line-merging disabled, a run of two 401
commands still yields a single unit (the lines are joined with a newline),
not one unit per collected line. -/
theorem C4_dialogue_runs_counterexample :
    ((DialogueHandler.extract
        [EventCommand.dialogue 0 (Str.mk "A"), EventCommand.dialogue 0 (Str.mk "B")] 0
        TranslationPath.new (ExtractionContext.new (Str.mk "f"))
        { ExtractionOptions.default with merge_dialogue_lines := false }).units.map
      (fun u => u.original)) = [Str.mk "A\nB"] := by
  have hc := DialogueHandler.collect_spec
    [EventCommand.dialogue 0 (Str.mk "A"), EventCommand.dialogue 0 (Str.mk "B")]
    { ExtractionOptions.default with merge_dialogue_lines := false }
    (([EventCommand.dialogue 0 (Str.mk "A"),
        EventCommand.dialogue 0 (Str.mk "B")].getD 0 EventCommand.empty).indent)
    [Str.mk "A", Str.mk "B"]
    ([EventCommand.dialogue 0 (Str.mk "A"),
      EventCommand.dialogue 0 (Str.mk "B")].length + 1) 0
    (by decide) (by decide) (by decide) (by decide)
  simp only [DialogueHandler.extract]
  rw [hc]
  rfl

/-- C4 (amended): for a run of consecutive 401 commands sharing the first
command's indent, each carrying a dialogue text and not all blank, dialogue
extraction produces a single unit in both merge settings, consuming the
whole run: its original is the (optionally trimmed) lines joined with the
configured separator when merging is enabled, and joined with a plain
newline — still one unit, not one unit per line — when merging is
disabled. -/
theorem C4_dialogue_runs_amended (commands : List EventCommand) (index : Nat)
    (p : TranslationPath) (ctx : ExtractionContext) (opts : ExtractionOptions)
    (run : List Str) (indent : Int)
    (hle : index + run.length ≤ commands.length)
    (hrun : ∀ j, j < run.length →
      (commands.getD (index + j) EventCommand.empty).code = 401 ∧
      (commands.getD (index + j) EventCommand.empty).indent = indent ∧
      (commands.getD (index + j) EventCommand.empty).get_dialogue_text =
        some (run.getD j []))
    (hstop : index + run.length = commands.length ∨
      ¬ ((commands.getD (index + run.length) EventCommand.empty).code = 401 ∧
        (commands.getD (index + run.length) EventCommand.empty).indent = indent))
    (hne : run ≠ [])
    (hgood : ¬ ((run.map (fun t => if opts.trim_whitespace then t.trim else t)).all
        (fun l => l.trimEmpty) ∧ ¬ opts.include_empty)) :
    DialogueHandler.extract commands index p ctx opts =
      (ExtractionResult.single
        (((TranslationUnit.new (generate_unit_id p index (Str.mk "dialogue"))
            (p.append_index index) .ShowTextBody
            (joinSep (if opts.merge_dialogue_lines then opts.dialogue_line_separator
                else Str.mk "\n")
              (run.map (fun t => if opts.trim_whitespace then t.trim else t)))).with_speaker
          ctx.current_speaker).with_context ctx.to_translation_context)
        run.length).with_preceding
          (joinSep (if opts.merge_dialogue_lines then opts.dialogue_line_separator
              else Str.mk "\n")
            (run.map (fun t => if opts.trim_whitespace then t.trim else t))) := by
  have hpos : 0 < run.length := by
    cases run with
    | nil => exact absurd rfl hne
    | cons a l => simp
  have hindent : (commands.getD index EventCommand.empty).indent = indent := by
    have := (hrun 0 hpos).2.1
    simpa using this
  have hcollect := DialogueHandler.collect_spec commands opts indent run
    (commands.length + 1) index (by omega) hle hrun hstop
  simp only [DialogueHandler.extract]
  rw [hindent, hcollect]
  have hlenne : ¬ (run.map (fun t => if opts.trim_whitespace then t.trim else t)).isEmpty := by
    cases run with
    | nil => exact absurd rfl hne
    | cons a l => simp
  rw [if_neg (by
    intro hcontra
    rcases hcontra with h1 | h2
    · exact hlenne h1
    · exact hgood h2)]
  by_cases hm : opts.merge_dialogue_lines <;> simp [hm]

/-- Witness for C4: the two-line run with default options (merging
enabled). -/
theorem C4_dialogue_runs_amended_witness :
    DialogueHandler.extract
        [EventCommand.dialogue 0 (Str.mk "A"), EventCommand.dialogue 0 (Str.mk "B")] 0
        TranslationPath.new (ExtractionContext.new (Str.mk "f")) ExtractionOptions.default =
      (ExtractionResult.single
        (((TranslationUnit.new
            (generate_unit_id TranslationPath.new 0 (Str.mk "dialogue"))
            (TranslationPath.new.append_index 0) .ShowTextBody
            (joinSep (if ExtractionOptions.default.merge_dialogue_lines then
                ExtractionOptions.default.dialogue_line_separator else Str.mk "\n")
              ([Str.mk "A", Str.mk "B"].map
                (fun t => if ExtractionOptions.default.trim_whitespace then t.trim
                  else t)))).with_speaker
          (ExtractionContext.new (Str.mk "f")).current_speaker).with_context
            (ExtractionContext.new (Str.mk "f")).to_translation_context)
        ([Str.mk "A", Str.mk "B"] : List Str).length).with_preceding
          (joinSep (if ExtractionOptions.default.merge_dialogue_lines then
              ExtractionOptions.default.dialogue_line_separator else Str.mk "\n")
            ([Str.mk "A", Str.mk "B"].map
              (fun t => if ExtractionOptions.default.trim_whitespace then t.trim
                else t))) :=
  C4_dialogue_runs_amended
    [EventCommand.dialogue 0 (Str.mk "A"), EventCommand.dialogue 0 (Str.mk "B")] 0
    TranslationPath.new (ExtractionContext.new (Str.mk "f")) ExtractionOptions.default
    [Str.mk "A", Str.mk "B"] 0 (by decide) (by decide) (by decide) (by decide) (by decide)

/-! ## Claim C8: path pattern wildcards -/

theorem patMatchStar_nil (b : Bool) (cs : Str) :
    patMatchStar b [] cs = cs.all (fun c => if b then isDigitCh c else isWordCh c) := by
  induction cs with
  | nil => simp [patMatchStar, patMatch]
  | cons d ds ih =>
      rw [patMatchStar]
      simp only [patMatch, Bool.false_or, List.all_cons, ih]

theorem patMatch_lit_append (xs : Str) (ps : List PatPiece) (cs : Str) :
    patMatch (xs.map .lit ++ ps) (xs ++ cs) = patMatch ps cs := by
  induction xs with
  | nil => simp
  | cons c rest ih =>
      simp only [List.map_cons, List.cons_append]
      rw [patMatch]
      simp [ih]

theorem patMatch_lits (xs cs : Str) :
    patMatch (xs.map .lit) cs = true ↔ cs = xs := by
  induction xs generalizing cs with
  | nil => cases cs <;> simp [patMatch]
  | cons c rest ih =>
      cases cs with
      | nil => simp [patMatch]
      | cons d ds =>
          simp only [List.map_cons]
          rw [patMatch]
          simp only [Bool.and_eq_true, beq_iff_eq, ih, List.cons.injEq]
          constructor
          · rintro ⟨h1, h2⟩; exact ⟨h1.symm, h2⟩
          · rintro ⟨h1, h2⟩; exact ⟨h1.symm, h2⟩

theorem patMatch_ary_end (pre s : Str) :
    patMatch (pre.map .lit ++ [.ary]) (pre ++ s) = true ↔
      s ≠ [] ∧ s.all isDigitCh = true := by
  rw [patMatch_lit_append]
  cases s with
  | nil => simp [patMatch]
  | cons d ds =>
      rw [patMatch]
      simp [patMatchStar_nil]

theorem patMatch_obj_end (pre s : Str) :
    patMatch (pre.map .lit ++ [.obj]) (pre ++ s) = true ↔
      s ≠ [] ∧ s.all isWordCh = true := by
  rw [patMatch_lit_append]
  cases s with
  | nil => simp [patMatch]
  | cons d ds =>
      rw [patMatch]
      simp [patMatchStar_nil]

theorem compile_pattern_no_bar (pre : Str) (tail : Str) (hpre : ∀ c ∈ pre, c ≠ '|') :
    compile_pattern (pre ++ tail) = pre.map .lit ++ compile_pattern tail := by
  induction pre with
  | nil => rfl
  | cons c rest ih =>
      have hc : c ≠ '|' := hpre c (List.mem_cons_self _ _)
      rw [List.cons_append, compile_pattern.eq_def]
      split
      · next heq => exact absurd heq (by simp)
      · next r heq =>
          injection heq with h1 _
          exact absurd h1 hc
      · next r heq =>
          injection heq with h1 _
          exact absurd h1 hc
      · next c' r heq =>
          injection heq with h1 h2
          subst h1
          rw [← h2, ih (fun d hd => hpre d (List.mem_cons_of_mem _ hd))]
          rfl

/-- C8 counterexample: the segment `123` consists only of decimal digits,
yet the compiled `|OBJ|` wildcard (`\w+`) accepts it. -/
theorem C8_wildcards_counterexample :
    (PathPattern.new (Str.mk "a.|OBJ|")).matches (Str.mk "a.123") = true := by
  simp only [PathPattern.matches, PathPattern.new]
  rw [show Str.mk "a.|OBJ|" = Str.mk "a." ++ Str.mk "|OBJ|" from rfl,
    compile_pattern_no_bar (Str.mk "a.") (Str.mk "|OBJ|") (by decide),
    show compile_pattern (Str.mk "|OBJ|") = [.obj] from rfl,
    show Str.mk "a.123" = Str.mk "a." ++ Str.mk "123" from rfl]
  exact (patMatch_obj_end (Str.mk "a.") (Str.mk "123")).mpr (by decide)

/-- C8 (amended): over ASCII paths the compiled pattern is anchored and
matches literally on wildcard-free patterns; a trailing `|ARY|` matches
exactly the non-empty all-digit tails, while a trailing `|OBJ|` (`\w+`)
matches exactly the non-empty tails of word characters — which include the
digits, so a purely numeric segment does match `|OBJ|`.  (The crate's
default `\d`/`\w` are Unicode-aware, so beyond ASCII they accept further
digit and word characters; the ASCII hypothesis keeps the modelled classes
exact.) -/
theorem C8_wildcards_amended (pre s : Str) (hpre : ∀ c ∈ pre, c ≠ '|')
    (hs : ∀ c ∈ s, c.toNat < 128) :
    ((PathPattern.new pre).matches s = true ↔ s = pre) ∧
    ((PathPattern.new (pre ++ Str.mk "|ARY|")).matches (pre ++ s) = true ↔
      s ≠ [] ∧ s.all isDigitCh = true) ∧
    ((PathPattern.new (pre ++ Str.mk "|OBJ|")).matches (pre ++ s) = true ↔
      s ≠ [] ∧ s.all isWordCh = true) ∧
    (∀ t : Str, t.all isDigitCh = true → t.all isWordCh = true) := by
  refine ⟨?_, ?_, ?_, ?_⟩
  · have h := compile_pattern_no_bar pre [] hpre
    rw [List.append_nil] at h
    simp only [PathPattern.matches, PathPattern.new]
    rw [h, show compile_pattern ([] : Str) = [] from rfl, List.append_nil]
    exact patMatch_lits pre s
  · simp only [PathPattern.matches, PathPattern.new]
    rw [compile_pattern_no_bar _ _ hpre,
      show compile_pattern (Str.mk "|ARY|") = [.ary] from rfl]
    exact patMatch_ary_end pre s
  · simp only [PathPattern.matches, PathPattern.new]
    rw [compile_pattern_no_bar _ _ hpre,
      show compile_pattern (Str.mk "|OBJ|") = [.obj] from rfl]
    exact patMatch_obj_end pre s
  · intro t ht
    rw [List.all_eq_true] at ht ⊢
    intro c hc
    have := ht c hc
    simp only [isDigitCh, decide_eq_true_eq] at this
    simp only [isWordCh]
    simp only [Bool.or_eq_true, decide_eq_true_eq]
    left
    exact this

/-- Witness for C8: `events.|ARY|` accepts `events.12`. -/
theorem C8_wildcards_amended_witness :
    (PathPattern.new (Str.mk "events." ++ Str.mk "|ARY|")).matches
      (Str.mk "events." ++ Str.mk "12") = true :=
  ((C8_wildcards_amended (Str.mk "events.") (Str.mk "12")
    (by decide) (by decide)).2.1).mpr (by decide)

/-! ## Claim C3: injection with an empty translation map -/

theorem List.set_self {α : Type} (l : List α) (i : Nat) (a : α)
    (h : l[i]? = some a) : l.set i a = l := by
  induction l generalizing i with
  | nil => simp at h
  | cons x xs ih =>
      cases i with
      | zero => simp at h; simp [h]
      | succ j =>
          simp only [List.getElem?_cons_succ] at h
          simp [List.set, ih j h]

theorem ChoicesHandler.injectChoices_empty (choices : List Json) (i : Nat)
    (bp : TranslationPath) :
    ChoicesHandler.injectChoices choices i bp (fun _ => none) = (choices, 0) := by
  induction choices generalizing i with
  | nil => rfl
  | cons c rest ih => simp [ChoicesHandler.injectChoices, ih]

theorem PluginCommandHandler.injectPaths_empty (args : Json) (paths : List Str)
    (pn : Str) (bp : TranslationPath) :
    PluginCommandHandler.injectPaths args paths pn bp (fun _ => none) = (args, 0) := by
  induction paths generalizing args with
  | nil => rfl
  | cons p rest ih => simp [PluginCommandHandler.injectPaths, ih]

theorem PluginCommandHandler.injectConfigs_empty (args : Json)
    (configs : List PluginFieldConfig) (pn : Str) (bp : TranslationPath) :
    PluginCommandHandler.injectConfigs args configs pn bp (fun _ => none) = (args, 0) := by
  induction configs generalizing args with
  | nil => rfl
  | cons fc rest ih =>
      simp only [PluginCommandHandler.injectConfigs]
      split <;> simp [PluginCommandHandler.injectPaths_empty, ih]

theorem HandlerTag.runInject_empty (tag : HandlerTag) (commands : List EventCommand)
    (index : Nat) (lp : TranslationPath) (opts : InjectionOptions)
    (h : index < commands.length) :
    (tag.runInject commands index (fun _ => none) lp opts).1 = commands ∧
    (tag.runInject commands index (fun _ => none) lp opts).2.applied = 0 := by
  cases tag with
  | showText => exact ⟨rfl, rfl⟩
  | dialogue =>
      simp only [HandlerTag.runInject, DialogueHandler.inject]
      split <;> exact ⟨rfl, rfl⟩
  | choices =>
      simp only [HandlerTag.runInject, ChoicesHandler.inject]
      split
      · exact ⟨rfl, rfl⟩
      · split
        · next choices heq =>
            rw [ChoicesHandler.injectChoices_empty]
            have hset : (commands.getD index EventCommand.empty).parameters.set 0
                (Json.arr choices) = (commands.getD index EventCommand.empty).parameters :=
              List.set_self _ _ _ heq
            rw [hset]
            have hcmd : commands.set index (commands.getD index EventCommand.empty) =
                commands := by
              apply List.set_self
              rw [List.getD_eq_getElem _ _ h]
              exact (List.getElem?_eq_getElem h)
            exact ⟨hcmd, rfl⟩
        · exact ⟨rfl, rfl⟩
  | choiceBranch => exact ⟨rfl, rfl⟩
  | comment => exact ⟨rfl, rfl⟩
  | scriptText pre => exact ⟨rfl, rfl⟩
  | pluginCmd ph =>
      simp only [HandlerTag.runInject, PluginCommandHandler.inject]
      cases hpd : (commands.getD index EventCommand.empty).get_plugin_data with
      | none => exact ⟨rfl, rfl⟩
      | some pd =>
          simp only [PluginCommandHandler.inject_to_args]
          cases hc : ph.get_config pd.plugin_name with
          | none => exact ⟨rfl, rfl⟩
          | some cfg =>
              simp only
              split
              · rw [PluginCommandHandler.injectConfigs_empty]
                simp
              · exact ⟨rfl, rfl⟩

theorem inject_loop_empty (lp : TranslationPath) (opts : InjectionOptions) :
    ∀ (fuel index : Nat) (commands : List EventCommand) (acc : InjectionResult),
    (inject_loop HandlerRegistry.withDefaults (fun _ => none) lp opts fuel index commands
      acc).1 = commands ∧
    (inject_loop HandlerRegistry.withDefaults (fun _ => none) lp opts fuel index commands
      acc).2.applied = acc.applied := by
  intro fuel
  induction fuel with
  | zero => intro index commands acc; exact ⟨rfl, rfl⟩
  | succ fuel ih =>
      intro index commands acc
      rw [inject_loop]
      split
      · next h =>
          rcases hr : HandlerRegistry.withDefaults
              (EventCode.fromInt (commands.getD index EventCommand.empty).code) with _ | tag
          all_goals simp only [hr]
          · have := ih (index + 1) commands (acc.merge InjectionResult.new)
            refine ⟨this.1, ?_⟩
            rw [this.2]
            simp [InjectionResult.merge, InjectionResult.new]
          · have hstep := HandlerTag.runInject_empty tag commands index lp opts h
            rw [hstep.1]
            have := ih (index + 1) commands
              (acc.merge (tag.runInject commands index (fun _ => none) lp opts).2)
            refine ⟨this.1, ?_⟩
            rw [this.2]
            simp [InjectionResult.merge, hstep.2]
      · exact ⟨rfl, rfl⟩

/-- C3 counterexample: an empty translation map does not leave the JSON
tree unchanged: a parseable 102 command whose object omits the
serde-defaulted `indent` field is counted as modified by
`ChoicesHandler::inject`, so the list is re-serialized and the
serialization materializes `indent: 0` — a field the original bytes do not
have. -/
theorem C3_empty_map_counterexample :
    (inject_to_list HandlerRegistry.withDefaults
        (Json.arr [Json.obj [(Str.mk "code", Json.num 102),
          (Str.mk "parameters", Json.arr [Json.arr []])]])
        (fun _ => none) TranslationPath.new InjectionOptions.default).1 ≠
      Json.arr [Json.obj [(Str.mk "code", Json.num 102),
        (Str.mk "parameters", Json.arr [Json.arr []])]] := by
  decide

/-- C3 (amended): injection with an empty translation map never changes the
parsed command list and applies nothing, for every command list; but the
JSON tree is re-serialized to the canonical serialization of its (unchanged)
parsed commands whenever some handler counted a command as modified —
`ChoicesHandler::inject` does so for every parseable 102 command with an
array first parameter even though nothing was rewritten — and is left
untouched otherwise. -/
theorem C3_empty_map_amended (p : TranslationPath) (opts : InjectionOptions) :
    (∀ commands : List EventCommand,
      (inject_to_commands HandlerRegistry.withDefaults commands (fun _ => none) p
        opts).1 = commands ∧
      (inject_to_commands HandlerRegistry.withDefaults commands (fun _ => none) p
        opts).2.applied = 0) ∧
    (∀ list : Json,
      (inject_to_list HandlerRegistry.withDefaults list (fun _ => none) p opts).1 =
        if 0 < (inject_to_commands HandlerRegistry.withDefaults (parse_commands list)
            (fun _ => none) p opts).2.commands_modified then
          commands_to_json (parse_commands list)
        else list) := by
  constructor
  · intro commands
    exact inject_loop_empty _ opts (commands.length + 1) 0 commands InjectionResult.new
  · intro list
    simp only [inject_to_list]
    have h := inject_loop_empty (p.append_key (Str.mk "list")) opts
      ((parse_commands list).length + 1) 0 (parse_commands list) InjectionResult.new
    simp only [inject_to_commands] at h ⊢
    rw [h.1]

/-- Witness for C3: the empty map leaves a one-command 401 list unchanged
at the command level. -/
theorem C3_empty_map_amended_witness :
    (inject_to_commands HandlerRegistry.withDefaults
        [EventCommand.dialogue 0 (Str.mk "hi")] (fun _ => none) TranslationPath.new
        InjectionOptions.default).1 = [EventCommand.dialogue 0 (Str.mk "hi")] :=
  ((C3_empty_map_amended TranslationPath.new InjectionOptions.default).1
    [EventCommand.dialogue 0 (Str.mk "hi")]).1

/-! ## Claim C1: the extract/inject round trip -/

/-- The identity translation map of the spec's round-trip statement: every
extracted unit id is mapped to that unit's own original text. -/
def identityTranslations (units : List TranslationUnit) : Translations :=
  fun id => (units.find? (fun u => u.id == id)).map (fun u => u.original)

/-- C1 counterexample: a single 401 command whose text embeds a newline
round-trips to a different tree — the injected identity text is split on
the newline and spliced back as two 401 commands. -/
theorem C1_roundtrip_counterexample :
    (inject_to_list HandlerRegistry.withDefaults
        (Json.arr [Json.obj [(Str.mk "code", Json.num 401), (Str.mk "indent", Json.num 0),
          (Str.mk "parameters", Json.arr [Json.str (Str.mk "A\nB")])]])
        (identityTranslations (extract_from_list HandlerRegistry.withDefaults
          (Json.arr [Json.obj [(Str.mk "code", Json.num 401), (Str.mk "indent", Json.num 0),
            (Str.mk "parameters", Json.arr [Json.str (Str.mk "A\nB")])]])
          TranslationPath.new (ExtractionContext.new (Str.mk "Map001.json"))
          ExtractionOptions.default).1)
        TranslationPath.new InjectionOptions.default).1 ≠
      Json.arr [Json.obj [(Str.mk "code", Json.num 401), (Str.mk "indent", Json.num 0),
        (Str.mk "parameters", Json.arr [Json.str (Str.mk "A\nB")])]] := by
  decide

/-! ### Strings: `str::lines` inverts joining with a newline -/

theorem splitNl_ne_nil (s : Str) : splitNl s ≠ [] := by
  induction s with
  | nil => simp [splitNl]
  | cons c cs ih =>
      rw [splitNl]
      cases hs : splitNl cs with
      | nil => exact absurd hs ih
      | cons p ps => split <;> first | (split <;> simp) | simp_all

theorem splitNl_no_nl (s : Str) (h : '\n' ∉ s) : splitNl s = [s] := by
  induction s with
  | nil => rfl
  | cons c cs ih =>
      have hcne : c ≠ '\n' := fun hc => h (List.mem_cons.mpr (Or.inl hc.symm))
      rw [splitNl, ih (fun hm => h (List.mem_cons_of_mem _ hm))]
      simp [hcne]

theorem splitNl_append_nl (x r : Str) (h : '\n' ∉ x) :
    splitNl (x ++ '\n' :: r) = x :: splitNl r := by
  induction x with
  | nil =>
      rw [List.nil_append, splitNl]
      cases hs : splitNl r with
      | nil => exact absurd hs (splitNl_ne_nil r)
      | cons p ps => simp
  | cons c cs ih =>
      have hcne : c ≠ '\n' := fun hc => h (List.mem_cons.mpr (Or.inl hc.symm))
      rw [List.cons_append, splitNl, ih (fun hm => h (List.mem_cons_of_mem _ hm))]
      simp [hcne]

theorem splitNl_joinSep (ts : List Str) (hne : ts ≠ [])
    (h : ∀ t ∈ ts, '\n' ∉ t) :
    splitNl (joinSep (Str.mk "\n") ts) = ts := by
  induction ts with
  | nil => exact absurd rfl hne
  | cons x xs ih =>
      cases xs with
      | nil => exact splitNl_no_nl x (h x (List.mem_cons_self _ _))
      | cons y ys =>
          have hx : '\n' ∉ x := h x (List.mem_cons_self _ _)
          show splitNl (x ++ Str.mk "\n" ++ joinSep (Str.mk "\n") (y :: ys)) =
            x :: y :: ys
          rw [show x ++ Str.mk "\n" ++ joinSep (Str.mk "\n") (y :: ys) =
            x ++ '\n' :: joinSep (Str.mk "\n") (y :: ys) by simp [Str.mk]]
          have hih := ih (by intro hfalse; exact List.noConfusion hfalse)
            (fun t ht => h t (List.mem_cons_of_mem _ ht))
          rw [splitNl_append_nl _ _ hx, hih]

theorem mem_of_getLast?_eq {α : Type} {l : List α} {a : α}
    (h : l.getLast? = some a) : a ∈ l := by
  obtain ⟨hne, ha⟩ := List.mem_getLast?_eq_getLast (show a ∈ l.getLast? from h)
  rw [ha]
  exact List.getLast_mem hne

theorem stripCr_no_cr (s : Str) (h : '\r' ∉ s) : stripCr s = s := by
  unfold stripCr
  rw [if_neg]
  intro hc
  exact h (mem_of_getLast?_eq hc)

theorem rustLines_joinSep (ts : List Str) (hne : ts ≠ [])
    (h : ∀ t ∈ ts, '\n' ∉ t ∧ '\r' ∉ t ∧ t ≠ []) :
    rustLines (joinSep (Str.mk "\n") ts) = ts := by
  simp only [rustLines]
  rw [splitNl_joinSep ts hne (fun t ht => (h t ht).1)]
  have hlast : ts.getLast? ≠ some ([] : Str) := by
    intro hc
    have := mem_of_getLast?_eq hc
    exact (h _ this).2.2 rfl
  rw [if_neg hlast]
  rw [List.map_congr_left (fun t ht => stripCr_no_cr t (h t ht).2.1)]
  simp

/-! ### Decimal representations are injective and all-digit -/

/-- Value of a least-significant-first digit-character list. -/
def digitsVal (cs : List Char) : Nat :=
  cs.foldr (fun c acc => (c.toNat - 48) + 10 * acc) 0

theorem char_toNat_digit (d : Nat) (h : d < 10) :
    (Char.ofNat (48 + d)).toNat = 48 + d := by
  interval_cases d <;> decide

theorem isDigitCh_ofNat (d : Nat) (h : d < 10) :
    isDigitCh (Char.ofNat (48 + d)) = true := by
  interval_cases d <;> decide

theorem natDigitsRev_val : ∀ fuel n, n ≤ fuel →
    digitsVal (natDigitsRev fuel n) = n := by
  intro fuel
  induction fuel with
  | zero => intro n h; interval_cases n; rfl
  | succ f ih =>
      intro n h
      rw [natDigitsRev]
      by_cases h0 : n = 0
      · rw [if_pos h0, h0]; rfl
      · rw [if_neg h0]
        have hdiv : n / 10 ≤ f := by omega
        simp only [digitsVal, List.foldr_cons]
        have hval := ih (n / 10) hdiv
        simp only [digitsVal] at hval
        rw [hval, char_toNat_digit (n % 10) (Nat.mod_lt n (by norm_num))]
        omega

theorem natDigitsRev_digits : ∀ fuel n c, c ∈ natDigitsRev fuel n →
    isDigitCh c = true := by
  intro fuel
  induction fuel with
  | zero => intro n c hc; simp [natDigitsRev] at hc
  | succ f ih =>
      intro n c hc
      rw [natDigitsRev] at hc
      split at hc
      · simp at hc
      · rcases List.mem_cons.mp hc with h | h
        · rw [h]; exact isDigitCh_ofNat _ (Nat.mod_lt n (by omega))
        · exact ih _ c h

theorem natRepr_digits (n : Nat) : ∀ c ∈ natRepr n, isDigitCh c = true := by
  intro c hc
  unfold natRepr at hc
  split at hc
  · simp at hc; rw [hc]; rfl
  · exact natDigitsRev_digits n n c (List.mem_reverse.mp hc)

theorem natRepr_ne_nil (n : Nat) : natRepr n ≠ [] := by
  unfold natRepr
  split
  · simp
  · next h0 =>
      cases n with
      | zero => exact absurd rfl h0
      | succ m =>
          rw [natDigitsRev, if_neg (by omega)]
          simp

theorem natRepr_inj (n m : Nat) (h : natRepr n = natRepr m) : n = m := by
  unfold natRepr at h
  by_cases hn : n = 0 <;> by_cases hm : m = 0
  · omega
  · rw [if_pos hn, if_neg hm] at h
    have := natDigitsRev_val m m (le_refl m)
    rw [← List.reverse_reverse (natDigitsRev m m), ← h] at this
    simp [digitsVal] at this
    omega
  · rw [if_neg hn, if_pos hm] at h
    have := natDigitsRev_val n n (le_refl n)
    rw [← List.reverse_reverse (natDigitsRev n n), h] at this
    simp [digitsVal] at this
    omega
  · rw [if_neg hn, if_neg hm] at h
    have h2 : natDigitsRev n n = natDigitsRev m m := by
      rw [← List.reverse_reverse (natDigitsRev n n), h, List.reverse_reverse]
    have hn2 := natDigitsRev_val n n (le_refl n)
    have hm2 := natDigitsRev_val m m (le_refl m)
    rw [h2, hm2] at hn2
    exact hn2.symm

/-- Two all-digit prefixes followed by non-digit-headed (or empty) tails
agree piecewise when their concatenations agree. -/
theorem digit_prefix_split (a : Str) : ∀ (b s t : Str),
    (∀ c ∈ a, isDigitCh c = true) → (∀ c ∈ b, isDigitCh c = true) →
    (∀ c, s.head? = some c → isDigitCh c = false) →
    (∀ c, t.head? = some c → isDigitCh c = false) →
    a ++ s = b ++ t → a = b ∧ s = t := by
  induction a with
  | nil =>
      intro b s t _ hb hs _ h
      cases b with
      | nil => exact ⟨rfl, h⟩
      | cons d bs =>
          rw [List.nil_append, List.cons_append] at h
          have hhead : s.head? = some d := by rw [h]; rfl
          have := hs d hhead
          have := hb d (List.mem_cons_self _ _)
          simp_all
  | cons x as ih =>
      intro b s t ha hb hs ht h
      cases b with
      | nil =>
          rw [List.cons_append, List.nil_append] at h
          have hhead : t.head? = some x := by rw [← h]; rfl
          have := ht x hhead
          have := ha x (List.mem_cons_self _ _)
          simp_all
      | cons y bs =>
          rw [List.cons_append, List.cons_append] at h
          injection h with h1 h2
          obtain ⟨hab, hst⟩ := ih bs s t
            (fun c hc => ha c (List.mem_cons_of_mem _ hc))
            (fun c hc => hb c (List.mem_cons_of_mem _ hc)) hs ht h2
          exact ⟨by rw [h1, hab], hst⟩

/-! ### Unit ids of the page walker's sites -/

/-- The id generated at list index `i` with (non-empty) suffix `suffix`
when the path prefix is the root: `list.<i>_<suffix>`. -/
def siteId (i : Nat) (suffix : Str) : Str :=
  Str.mk "list." ++ (natRepr i ++ '_' :: suffix)

theorem generate_unit_id_eq_siteId (i : Nat) (suffix : Str)
    (hs : suffix.isEmpty = false) :
    generate_unit_id (TranslationPath.new.append_key (Str.mk "list")) i suffix =
      siteId i suffix := by
  simp [generate_unit_id, TranslationPath.to_unit_id, TranslationPath.to_path_string,
    TranslationPath.append_index, TranslationPath.append_key, TranslationPath.new,
    PathSegment.toStr, joinSep, siteId, Str.mk, hs]

theorem choice_unit_id_eq_siteId (i j : Nat) :
    ((TranslationPath.new.append_key (Str.mk "list")).append_index i).to_unit_id [] ++
        Str.mk "_choice_" ++ natRepr j =
      siteId i (Str.mk "choice_" ++ natRepr j) := by
  simp [TranslationPath.to_unit_id, TranslationPath.to_path_string,
    TranslationPath.append_index, TranslationPath.append_key, TranslationPath.new,
    PathSegment.toStr, joinSep, siteId, Str.mk]

theorem head?_digit_of_all {s : Str} (hall : ∀ c ∈ s, isDigitCh c = true) :
    ∀ c, s.head? = some c → isDigitCh c = true := by
  intro c hc
  cases s with
  | nil => simp at hc
  | cons a as =>
      simp only [List.head?_cons, Option.some.injEq] at hc
      rw [← hc]
      exact hall a (List.mem_cons_self _ _)

theorem siteId_inj (i i' : Nat) (s s' : Str) (h : siteId i s = siteId i' s') :
    i = i' ∧ s = s' := by
  unfold siteId at h
  have h2 : natRepr i ++ '_' :: s = natRepr i' ++ '_' :: s' :=
    List.append_cancel_left h
  obtain ⟨hab, hst⟩ := digit_prefix_split (natRepr i) (natRepr i') ('_' :: s) ('_' :: s')
    (natRepr_digits i) (natRepr_digits i')
    (by intro c hc; simp only [List.head?_cons, Option.some.injEq] at hc
        rw [← hc]; rfl)
    (by intro c hc; simp only [List.head?_cons, Option.some.injEq] at hc
        rw [← hc]; rfl)
    h2
  refine ⟨natRepr_inj _ _ hab, ?_⟩
  injection hst

theorem chSuffix_inj (j j' : Nat)
    (h : Str.mk "choice_" ++ natRepr j = Str.mk "choice_" ++ natRepr j') : j = j' :=
  natRepr_inj _ _ (List.append_cancel_left h)

theorem dlg_ne_chSuffix (j : Nat) :
    Str.mk "dialogue" ≠ Str.mk "choice_" ++ natRepr j := by
  intro h
  have := congrArg List.head? h
  simp [Str.mk] at this

theorem br_ne_chSuffix (j : Nat) :
    Str.mk "choice_branch" ≠ Str.mk "choice_" ++ natRepr j := by
  intro h
  have h2 : Str.mk "branch" = natRepr j :=
    List.append_cancel_left (show Str.mk "choice_" ++ Str.mk "branch" =
      Str.mk "choice_" ++ natRepr j from h)
  have hd := head?_digit_of_all (natRepr_digits j) 'b' (by rw [← h2]; rfl)
  simp [isDigitCh] at hd

theorem cm_ne_chSuffix (j : Nat) :
    Str.mk "comment" ≠ Str.mk "choice_" ++ natRepr j := by
  intro h
  have := congrArg List.head? h
  simp only [Str.mk] at this
  have h2 : Str.mk "omment" = Str.mk "hoice_" ++ natRepr j := by
    simp only [Str.mk] at h
    exact List.tail_eq_of_cons_eq h
  have := congrArg List.head? h2
  simp [Str.mk] at this

/-! ### Well-formed command lists for the round trip -/

/-- The command shapes under which the extract/inject round trip holds:
`i32`-ranged fields, no plugin commands, dialogue commands holding exactly
one newline/CR-free non-blank string, and choice arrays holding strings. -/
structure GoodCmd (cmd : EventCommand) : Prop where
  code_lb : -(2 ^ 31) ≤ cmd.code
  code_ub : cmd.code < 2 ^ 31
  indent_lb : -(2 ^ 31) ≤ cmd.indent
  indent_ub : cmd.indent < 2 ^ 31
  not_plugin : cmd.code ≠ 357
  dlg : cmd.code = 401 → ∃ t : Str, cmd.parameters = [Json.str t] ∧
    '\n' ∉ t ∧ '\r' ∉ t ∧ t.trimEmpty = false
  chs : cmd.code = 102 → ∀ elems, cmd.parameters[0]? = some (Json.arr elems) →
    ∀ e ∈ elems, ∃ s : Str, e = Json.str s

theorem EventCommand.dlg_text (cmd : EventCommand) (t : Str) (h4 : cmd.code = 401)
    (hp : cmd.parameters = [Json.str t]) : cmd.get_dialogue_text = some t := by
  simp [EventCommand.get_dialogue_text, h4, EventCommand.get_string_param, hp, Json.as_str]

theorem EventCommand.eq_dialogue (cmd : EventCommand) (t : Str) (h4 : cmd.code = 401)
    (hp : cmd.parameters = [Json.str t]) : cmd = EventCommand.dialogue cmd.indent t := by
  cases cmd
  simp_all [EventCommand.dialogue]

theorem countRun_eq_collect (cmds : List EventCommand) (opts : ExtractionOptions)
    (indent : Int) : ∀ fuel i,
    DialogueHandler.countRun cmds indent fuel i =
      (DialogueHandler.collect cmds opts indent fuel i).2 := by
  intro fuel
  induction fuel with
  | zero => intro i; rfl
  | succ f ih =>
      intro i
      rw [DialogueHandler.countRun, DialogueHandler.collect]
      by_cases h1 : i < cmds.length
      · by_cases h2 : (cmds.getD i EventCommand.empty).code = 401 ∧
            (cmds.getD i EventCommand.empty).indent = indent
        · cases hdt : (cmds.getD i EventCommand.empty).get_dialogue_text with
          | none => simp only [if_pos h1, if_pos h2, hdt, ih (i + 1)]
          | some t => simp only [if_pos h1, if_pos h2, hdt, ih (i + 1)]
        · simp only [if_pos h1, if_neg h2]
      · simp only [if_neg h1]

theorem collect_good (cmds : List EventCommand)
    (hgood : ∀ i, i < cmds.length → GoodCmd (cmds.getD i EventCommand.empty))
    (indent : Int) :
    ∀ fuel i, cmds.length ≤ fuel + i → i ≤ cmds.length →
    (∀ l ∈ (DialogueHandler.collect cmds ExtractionOptions.default indent fuel i).1,
      '\n' ∉ l ∧ '\r' ∉ l ∧ l.trimEmpty = false) ∧
    (DialogueHandler.collect cmds ExtractionOptions.default indent fuel i).1.length =
      (DialogueHandler.collect cmds ExtractionOptions.default indent fuel i).2 ∧
    (∀ k, k < (DialogueHandler.collect cmds ExtractionOptions.default indent fuel i).2 →
      cmds.getD (i + k) EventCommand.empty =
        EventCommand.dialogue indent
          ((DialogueHandler.collect cmds ExtractionOptions.default indent
            fuel i).1.getD k [])) ∧
    i + (DialogueHandler.collect cmds ExtractionOptions.default indent fuel i).2 ≤
      cmds.length ∧
    (i + (DialogueHandler.collect cmds ExtractionOptions.default indent fuel i).2 =
        cmds.length ∨
      ¬ ((cmds.getD (i + (DialogueHandler.collect cmds ExtractionOptions.default indent
            fuel i).2) EventCommand.empty).code = 401 ∧
        (cmds.getD (i + (DialogueHandler.collect cmds ExtractionOptions.default indent
            fuel i).2) EventCommand.empty).indent = indent)) ∧
    (i < cmds.length →
      (cmds.getD i EventCommand.empty).code = 401 →
      (cmds.getD i EventCommand.empty).indent = indent →
      0 < (DialogueHandler.collect cmds ExtractionOptions.default indent fuel i).2) := by
  intro fuel
  induction fuel with
  | zero =>
      intro i hfuel hile
      have hieq : i = cmds.length := by omega
      refine ⟨by simp [DialogueHandler.collect], rfl, by simp [DialogueHandler.collect],
        by simp [DialogueHandler.collect]; omega, ?_, ?_⟩
      · left; simp [DialogueHandler.collect]; omega
      · intro hlt; omega
  | succ f ih =>
      intro i hfuel hile
      by_cases hlt : i < cmds.length
      · by_cases hc : (cmds.getD i EventCommand.empty).code = 401 ∧
            (cmds.getD i EventCommand.empty).indent = indent
        · obtain ⟨t, hp, hnl, hcr, hblank⟩ := (hgood i hlt).dlg hc.1
          have hdt := EventCommand.dlg_text _ t hc.1 hp
          have hstep : DialogueHandler.collect cmds ExtractionOptions.default indent
              (f + 1) i =
              (t :: (DialogueHandler.collect cmds ExtractionOptions.default indent
                f (i + 1)).1,
               (DialogueHandler.collect cmds ExtractionOptions.default indent
                f (i + 1)).2 + 1) := by
            rw [DialogueHandler.collect, if_pos hlt]
            simp only [hc.1, hc.2, and_self, if_true, hdt]
            rfl
          obtain ⟨ih1, ih2, ih3, ih4, ih5, _⟩ := ih (i + 1) (by omega) (by omega)
          rw [hstep]
          refine ⟨?_, ?_, ?_, ?_, ?_, ?_⟩
          · intro l hl
            rcases List.mem_cons.mp hl with h | h
            · rw [h]; exact ⟨hnl, hcr, hblank⟩
            · exact ih1 l h
          · simp [ih2]
          · intro k hk
            cases k with
            | zero =>
                simp only [Nat.add_zero, List.getD_cons_zero]
                have := EventCommand.eq_dialogue _ t hc.1 hp
                rw [this, hc.2]
            | succ m =>
                simp only [List.getD_cons_succ]
                have := ih3 m (by simpa using hk)
                rw [show i + (m + 1) = i + 1 + m by omega]
                exact this
          · simp only []
            omega
          · rcases ih5 with h1 | h2
            · left; omega
            · right
              rw [show i + ((DialogueHandler.collect cmds ExtractionOptions.default indent
                f (i + 1)).2 + 1) = i + 1 + (DialogueHandler.collect cmds
                ExtractionOptions.default indent f (i + 1)).2 by omega]
              exact h2
          · intro _ _ _; omega
        · have hstep : DialogueHandler.collect cmds ExtractionOptions.default indent
              (f + 1) i = ([], 0) := by
            rw [DialogueHandler.collect, if_pos hlt, if_neg hc]
          rw [hstep]
          refine ⟨by simp, rfl, by simp, by omega, Or.inr (by simpa using hc), ?_⟩
          intro _ h1 h2
          exact absurd ⟨h1, h2⟩ hc
      · have hieq : i = cmds.length := by omega
        have hstep : DialogueHandler.collect cmds ExtractionOptions.default indent
            (f + 1) i = ([], 0) := by
          rw [DialogueHandler.collect, if_neg hlt]
        rw [hstep]
        exact ⟨by simp, rfl, by simp, by omega, Or.inl (by omega), fun h => absurd h hlt⟩

/-! ### The (id, original) pairs extraction produces, site by site -/

/-- The pairs contributed by a Show Choices command's options. -/
def choicePairs (i : Nat) : List Str → Nat → List (Str × Str)
  | [], _ => []
  | s :: rest, j =>
      (if s.trimEmpty = true then [] else
        [(siteId i (Str.mk "choice_" ++ natRepr j), s)]) ++ choicePairs i rest (j + 1)

/-- The pairs contributed by the site at index `i` (default options, root
path, commands well-formed in the sense of `GoodCmd`). -/
def sitePairsAt (cmds : List EventCommand) (i : Nat) : List (Str × Str) :=
  let cmd := cmds.getD i EventCommand.empty
  if cmd.code = 401 then
    [(siteId i (Str.mk "dialogue"),
      joinSep (Str.mk "\n")
        (DialogueHandler.collect cmds ExtractionOptions.default cmd.indent
          (cmds.length + 1) i).1)]
  else if cmd.code = 102 then
    match cmd.get_choices with
    | some choices => choicePairs i choices 0
    | none => []
  else if cmd.code = 402 then
    match cmd.get_choice_text with
    | some s => if s.trimEmpty = true then [] else [(siteId i (Str.mk "choice_branch"), s)]
    | none => []
  else if cmd.code = 408 then
    match cmd.get_comment_text with
    | some s =>
        if ExtractionOptions.default.should_skip_comment s = true then []
        else if s.trimEmpty = true then [] else [(siteId i (Str.mk "comment"), s)]
    | none => []
  else []

/-- How far the walker advances from index `i`. -/
def strideAt (cmds : List EventCommand) (i : Nat) : Nat :=
  if (cmds.getD i EventCommand.empty).code = 401 then
    (DialogueHandler.collect cmds ExtractionOptions.default
      (cmds.getD i EventCommand.empty).indent (cmds.length + 1) i).2
  else 1

/-- All pairs from index `i` on. -/
def expPairs (cmds : List EventCommand) : Nat → Nat → List (Str × Str)
  | 0, _ => []
  | fuel + 1, i =>
      if i < cmds.length then
        sitePairsAt cmds i ++ expPairs cmds fuel (i + strideAt cmds i)
      else []

theorem withDefaults_fromInt (c : Int) :
    HandlerRegistry.withDefaults (EventCode.fromInt c) =
      if c = 101 then some .showText
      else if c = 401 then some .dialogue
      else if c = 102 then some .choices
      else if c = 402 then some .choiceBranch
      else if c = 408 then some .comment
      else if c = 357 then some (.pluginCmd PluginCommandHandler.new)
      else none := by
  by_cases h101 : c = 101
  · subst h101; rfl
  by_cases h401 : c = 401
  · subst h401; rfl
  by_cases h105 : c = 105
  · subst h105; rfl
  by_cases h405 : c = 405
  · subst h405; rfl
  by_cases h108 : c = 108
  · subst h108; rfl
  by_cases h408 : c = 408
  · subst h408; rfl
  by_cases h102 : c = 102
  · subst h102; rfl
  by_cases h402 : c = 402
  · subst h402; rfl
  by_cases h403 : c = 403
  · subst h403; rfl
  by_cases h404 : c = 404
  · subst h404; rfl
  by_cases h103 : c = 103
  · subst h103; rfl
  by_cases h104 : c = 104
  · subst h104; rfl
  by_cases h357 : c = 357
  · subst h357; rfl
  by_cases h355 : c = 355
  · subst h355; rfl
  by_cases h655 : c = 655
  · subst h655; rfl
  by_cases h657 : c = 657
  · subst h657; rfl
  by_cases h324 : c = 324
  · subst h324; rfl
  by_cases h325 : c = 325
  · subst h325; rfl
  simp only [EventCode.fromInt, if_neg h101, if_neg h401, if_neg h105, if_neg h405, if_neg h108, if_neg h408, if_neg h102, if_neg h402, if_neg h403, if_neg h404, if_neg h103, if_neg h104, if_neg h357, if_neg h355, if_neg h655, if_neg h657, if_neg h324, if_neg h325, HandlerRegistry.withDefaults]

theorem choiceUnits_pairs (i : Nat) (choices : List Str) (j : Nat)
    (ctx : ExtractionContext) :
    (ChoicesHandler.choiceUnits choices j
      ((TranslationPath.new.append_key (Str.mk "list")).append_index i) ctx
      ExtractionOptions.default).map (fun u => (u.id, u.original)) =
    choicePairs i choices j := by
  induction choices generalizing j with
  | nil => rfl
  | cons s rest ih =>
      rw [ChoicesHandler.choiceUnits, choicePairs]
      by_cases hb : s.trimEmpty = true
      · rw [if_pos ⟨hb, by decide⟩, if_pos hb]
        simp only [List.nil_append]
        exact ih (j + 1)
      · rw [if_neg (fun h => hb h.1), if_neg hb]
        simp only [List.map_cons, List.singleton_append]
        rw [ih (j + 1)]
        have hid : ((TranslationPath.new.append_key (Str.mk "list")).append_index
            i).to_unit_id [] ++ Str.mk "_choice_" ++ natRepr j =
            siteId i (Str.mk "choice_" ++ natRepr j) := choice_unit_id_eq_siteId i j
        simp [TranslationUnit.with_context, TranslationUnit.with_speaker,
          TranslationUnit.new, hid,
          show ExtractionOptions.default.trim_whitespace = false from rfl]

theorem sitePairsAt_not (cmds : List EventCommand) (i : Nat)
    (h401 : ¬ (cmds.getD i EventCommand.empty).code = 401)
    (h102 : ¬ (cmds.getD i EventCommand.empty).code = 102)
    (h402 : ¬ (cmds.getD i EventCommand.empty).code = 402)
    (h408 : ¬ (cmds.getD i EventCommand.empty).code = 408) :
    sitePairsAt cmds i = [] := by
  rw [sitePairsAt]
  simp only [if_neg h401, if_neg h102, if_neg h402, if_neg h408]

theorem strideAt_not401 (cmds : List EventCommand) (i : Nat)
    (h401 : ¬ (cmds.getD i EventCommand.empty).code = 401) :
    strideAt cmds i = 1 := by
  rw [strideAt, if_neg h401]

theorem extract_units_pairs (cmds : List EventCommand)
    (hgood : ∀ i, i < cmds.length → GoodCmd (cmds.getD i EventCommand.empty)) :
    ∀ fuel i ctx,
    ((extract_loop HandlerRegistry.withDefaults cmds
      (TranslationPath.new.append_key (Str.mk "list")) ExtractionOptions.default
      fuel i ctx).1.map (fun u => (u.id, u.original))) = expPairs cmds fuel i := by
  intro fuel
  induction fuel with
  | zero => intro i ctx; rfl
  | succ f ih =>
      intro i ctx
      rw [extract_loop, expPairs]
      by_cases hlt : i < cmds.length
      · rw [if_pos hlt, if_pos hlt, withDefaults_fromInt]
        by_cases h101 : (cmds.getD i EventCommand.empty).code = 101
        · rw [if_pos h101]
          rw [sitePairsAt_not cmds i (by omega) (by omega) (by omega) (by omega),
            strideAt_not401 cmds i (by omega)]
          simp only [HandlerTag.runExtract, ShowTextHandler.extract,
            ExtractionResult.empty, ExtractionResult.with_speaker_update,
            List.nil_append]
          exact ih (i + 1) _
        · rw [if_neg h101]
          by_cases h401 : (cmds.getD i EventCommand.empty).code = 401
          · rw [if_pos h401]
            obtain ⟨cg1, cg2, _, _, _, cg6⟩ := collect_good cmds hgood
              (cmds.getD i EventCommand.empty).indent (cmds.length + 1) i
              (by omega) (by omega)
            have hpos : 0 < (DialogueHandler.collect cmds ExtractionOptions.default
                (cmds.getD i EventCommand.empty).indent (cmds.length + 1) i).2 :=
              cg6 hlt h401 rfl
            have hne : (DialogueHandler.collect cmds ExtractionOptions.default
                (cmds.getD i EventCommand.empty).indent (cmds.length + 1) i).1 ≠ [] := by
              intro hc
              rw [hc] at cg2
              simp only [List.length_nil] at cg2
              omega
            have hcond : ¬ ((DialogueHandler.collect cmds ExtractionOptions.default
                (cmds.getD i EventCommand.empty).indent (cmds.length + 1) i).1.isEmpty =
                  true ∨
                ((DialogueHandler.collect cmds ExtractionOptions.default
                  (cmds.getD i EventCommand.empty).indent
                  (cmds.length + 1) i).1.all (fun l => l.trimEmpty) = true ∧
                 ¬ ExtractionOptions.default.include_empty = true)) := by
              intro hcontra
              rcases hcontra with h1 | h2
              · exact hne (List.isEmpty_iff.mp h1)
              · cases hl : (DialogueHandler.collect cmds ExtractionOptions.default
                    (cmds.getD i EventCommand.empty).indent
                    (cmds.length + 1) i).1 with
                | nil => exact hne hl
                | cons l ls =>
                    have hblank := (cg1 l (by rw [hl]; exact List.mem_cons_self _ _)).2.2
                    have := List.all_eq_true.mp h2.1 l (by rw [hl]; exact List.mem_cons_self _ _)
                    rw [hblank] at this
                    exact Bool.false_ne_true this
            simp only [HandlerTag.runExtract, DialogueHandler.extract]
            rw [if_neg hcond]
            simp only [ExtractionResult.single, ExtractionResult.with_preceding,
              TranslationUnit.with_context, TranslationUnit.with_speaker,
              TranslationUnit.new, List.map_cons, List.map_nil, List.cons_append,
              List.nil_append]
            rw [generate_unit_id_eq_siteId i (Str.mk "dialogue") rfl]
            rw [sitePairsAt, strideAt]
            simp only [if_pos h401]
            rw [ih _ _]
            simp [show ExtractionOptions.default.merge_dialogue_lines = true from rfl,
              show ExtractionOptions.default.dialogue_line_separator = Str.mk "\n" from
                rfl]
          · rw [if_neg h401]
            by_cases h102 : (cmds.getD i EventCommand.empty).code = 102
            · rw [if_pos h102]
              simp only [HandlerTag.runExtract, ChoicesHandler.extract]
              rw [sitePairsAt, strideAt]
              simp only [if_neg h401, if_pos h102]
              cases hgc : (cmds.getD i EventCommand.empty).get_choices with
              | none =>
                  simp only [hgc, ExtractionResult.empty, List.nil_append]
                  exact ih (i + 1) _
              | some choices =>
                  simp only [hgc, ExtractionResult.multiple, List.map_append]
                  rw [choiceUnits_pairs i choices 0, ih _ _]
            · rw [if_neg h102]
              by_cases h402 : (cmds.getD i EventCommand.empty).code = 402
              · rw [if_pos h402]
                simp only [HandlerTag.runExtract, ChoiceBranchHandler.extract]
                rw [sitePairsAt, strideAt]
                simp only [if_neg h401, if_neg h102, if_pos h402]
                cases hct : (cmds.getD i EventCommand.empty).get_choice_text with
                | none =>
                    simp only [hct, ExtractionResult.empty, List.map_nil,
                      List.nil_append]
                    exact ih (i + 1) _
                | some s =>
                    simp only [hct]
                    by_cases hb : s.trimEmpty = true
                    · rw [if_pos ⟨hb, by decide⟩, if_pos hb]
                      simp only [ExtractionResult.empty, List.map_nil, List.nil_append]
                      exact ih (i + 1) _
                    · rw [if_neg (fun hh => hb hh.1), if_neg hb]
                      simp only [ExtractionResult.single,
                        TranslationUnit.with_context, TranslationUnit.with_speaker,
                        TranslationUnit.new, List.map_cons, List.map_nil,
                        List.cons_append, List.nil_append]
                      rw [generate_unit_id_eq_siteId i (Str.mk "choice_branch") rfl,
                        ih _ _]
                      simp [show ExtractionOptions.default.trim_whitespace = false from
                        rfl]
              · rw [if_neg h402]
                by_cases h408 : (cmds.getD i EventCommand.empty).code = 408
                · rw [if_pos h408]
                  simp only [HandlerTag.runExtract, CommentHandler.extract]
                  rw [sitePairsAt, strideAt]
                  simp only [if_neg h401, if_neg h102, if_neg h402, if_pos h408]
                  rw [if_neg (show ¬ (¬ ExtractionOptions.default.extract_comments =
                    true) by decide)]
                  cases hcm : (cmds.getD i EventCommand.empty).get_comment_text with
                  | none =>
                      simp only [hcm, ExtractionResult.empty, List.map_nil,
                        List.nil_append]
                      exact ih (i + 1) _
                  | some s =>
                      simp only [hcm]
                      by_cases hsk : ExtractionOptions.default.should_skip_comment s =
                          true
                      · rw [if_pos hsk, if_pos hsk]
                        simp only [ExtractionResult.empty, List.map_nil,
                          List.nil_append]
                        exact ih (i + 1) _
                      · rw [if_neg hsk, if_neg hsk]
                        by_cases hb : s.trimEmpty = true
                        · rw [if_pos ⟨hb, by decide⟩, if_pos hb]
                          simp only [ExtractionResult.empty, List.map_nil,
                            List.nil_append]
                          exact ih (i + 1) _
                        · rw [if_neg (fun hh => hb hh.1), if_neg hb]
                          simp only [ExtractionResult.single,
                            TranslationUnit.with_context, TranslationUnit.new,
                            List.map_cons, List.map_nil, List.cons_append,
                            List.nil_append]
                          rw [generate_unit_id_eq_siteId i (Str.mk "comment") rfl,
                            ih _ _]
                          simp [show ExtractionOptions.default.trim_whitespace =
                            false from rfl]
                · rw [if_neg h408]
                  by_cases h357 : (cmds.getD i EventCommand.empty).code = 357
                  · exact absurd h357 (hgood i hlt).not_plugin
                  · rw [if_neg h357]
                    rw [sitePairsAt_not cmds i h401 h102 h402 h408,
                      strideAt_not401 cmds i h401]
                    exact ih (i + 1) _
      · rw [if_neg hlt, if_neg hlt]
        rfl

/-! ### Looking up unit ids in the extracted pairs -/

/-- First-match lookup in an (id, original) pair list. -/
def pairsLookup : List (Str × Str) → Str → Option Str
  | [], _ => none
  | (k, v) :: rest, id => if k = id then some v else pairsLookup rest id

theorem identityTranslations_eq_pairsLookup (units : List TranslationUnit) (id : Str) :
    identityTranslations units id =
      pairsLookup (units.map (fun u => (u.id, u.original))) id := by
  induction units with
  | nil => rfl
  | cons u us ih =>
      simp only [identityTranslations, List.find?_cons, List.map_cons, pairsLookup]
      by_cases h : u.id = id
      · rw [if_pos h]
        simp only [identityTranslations] at ih
        simp [h]
      · rw [if_neg h]
        simp only [identityTranslations] at ih
        simp only [show (u.id == id) = false by simp [h]]
        exact ih

theorem pairsLookup_append (a b : List (Str × Str)) (id : Str) :
    pairsLookup (a ++ b) id =
      match pairsLookup a id with
      | some v => some v
      | none => pairsLookup b id := by
  induction a with
  | nil => rfl
  | cons p rest ih =>
      obtain ⟨k, v⟩ := p
      simp only [List.cons_append, pairsLookup]
      by_cases h : k = id
      · rw [if_pos h, if_pos h]
      · rw [if_neg h, if_neg h, show rest.append b = rest ++ b from rfl, ih]

theorem pairsLookup_none_of (l : List (Str × Str)) (id : Str)
    (h : ∀ p ∈ l, p.1 ≠ id) : pairsLookup l id = none := by
  induction l with
  | nil => rfl
  | cons p rest ih =>
      obtain ⟨k, v⟩ := p
      rw [pairsLookup, if_neg (h (k, v) (List.mem_cons_self _ _)), ih]
      intro q hq
      exact h q (List.mem_cons_of_mem _ hq)

theorem choicePairs_keys (k : Nat) (choices : List Str) : ∀ j0 p,
    p ∈ choicePairs k choices j0 →
    ∃ j, j0 ≤ j ∧ p.1 = siteId k (Str.mk "choice_" ++ natRepr j) := by
  induction choices with
  | nil => intro j0 p hp; simp [choicePairs] at hp
  | cons s rest ih =>
      intro j0 p hp
      rw [choicePairs] at hp
      rcases List.mem_append.mp hp with h | h
      · split at h
        · simp at h
        · rw [List.mem_singleton] at h
          exact ⟨j0, le_refl _, by rw [h]⟩
      · obtain ⟨j, hj, hpj⟩ := ih (j0 + 1) p h
        exact ⟨j, by omega, hpj⟩

theorem sitePairsAt_keys (cmds : List EventCommand) (i : Nat) :
    ∀ p ∈ sitePairsAt cmds i, ∃ s, p.1 = siteId i s ∧
      (s = Str.mk "dialogue" ∨ (∃ j, s = Str.mk "choice_" ++ natRepr j) ∨
       s = Str.mk "choice_branch" ∨ s = Str.mk "comment") := by
  intro p hp
  rw [sitePairsAt] at hp
  split at hp
  · rw [List.mem_singleton] at hp
    exact ⟨Str.mk "dialogue", by rw [hp], Or.inl rfl⟩
  · split at hp
    · split at hp
      · next choices _ =>
          obtain ⟨j, _, hpj⟩ := choicePairs_keys i choices 0 p hp
          exact ⟨Str.mk "choice_" ++ natRepr j, hpj, Or.inr (Or.inl ⟨j, rfl⟩)⟩
      · simp at hp
    · split at hp
      · split at hp
        · next s _ =>
            split at hp
            · simp at hp
            · rw [List.mem_singleton] at hp
              exact ⟨Str.mk "choice_branch", by rw [hp], Or.inr (Or.inr (Or.inl rfl))⟩
        · simp at hp
      · split at hp
        · split at hp
          · next s _ =>
              split at hp
              · simp at hp
              · split at hp
                · simp at hp
                · rw [List.mem_singleton] at hp
                  exact ⟨Str.mk "comment", by rw [hp], Or.inr (Or.inr (Or.inr rfl))⟩
          · simp at hp
        · simp at hp

theorem siteId_eq_iff_dlg (i k : Nat) :
    siteId i (Str.mk "dialogue") = siteId k (Str.mk "dialogue") ↔ i = k := by
  constructor
  · intro h; exact (siteId_inj _ _ _ _ h).1
  · intro h; rw [h]

/-- Looking up a dialogue unit id in the pairs extracted from index `i` on:
it resolves exactly at visited run heads, to the joined run text. -/
theorem expPairs_lookup_dlg (cmds : List EventCommand)
    (hgood : ∀ i, i < cmds.length → GoodCmd (cmds.getD i EventCommand.empty)) :
    ∀ fuel i k, cmds.length ≤ fuel + i →
    pairsLookup (expPairs cmds fuel i) (siteId k (Str.mk "dialogue")) =
      if i ≤ k ∧ k < cmds.length ∧ (cmds.getD k EventCommand.empty).code = 401 ∧
          (k = i ∨ ¬ ((cmds.getD (k - 1) EventCommand.empty).code = 401 ∧
            (cmds.getD (k - 1) EventCommand.empty).indent =
              (cmds.getD k EventCommand.empty).indent)) then
        some (joinSep (Str.mk "\n")
          (DialogueHandler.collect cmds ExtractionOptions.default
            (cmds.getD k EventCommand.empty).indent (cmds.length + 1) k).1)
      else none := by
  intro fuel
  induction fuel with
  | zero =>
      intro i k hfuel
      rw [expPairs, if_neg (by intro h; omega)]
      rfl
  | succ f ih =>
      intro i k hfuel
      rw [expPairs]
      by_cases hlt : i < cmds.length
      · rw [if_pos hlt, pairsLookup_append]
        by_cases h401 : (cmds.getD i EventCommand.empty).code = 401
        · obtain ⟨_, _, cg3, cg4, cg5, cg6⟩ := collect_good cmds hgood
            (cmds.getD i EventCommand.empty).indent (cmds.length + 1) i
            (by omega) (by omega)
          have hpos := cg6 hlt h401 rfl
          have hsp : sitePairsAt cmds i = [(siteId i (Str.mk "dialogue"),
              joinSep (Str.mk "\n")
                (DialogueHandler.collect cmds ExtractionOptions.default
                  (cmds.getD i EventCommand.empty).indent (cmds.length + 1) i).1)] := by
            rw [sitePairsAt]
            simp only [if_pos h401]
          have hst : strideAt cmds i = (DialogueHandler.collect cmds
              ExtractionOptions.default (cmds.getD i EventCommand.empty).indent
              (cmds.length + 1) i).2 := by
            rw [strideAt, if_pos h401]
          rw [hsp, hst]
          by_cases hik : i = k
          · subst hik
            rw [pairsLookup, if_pos rfl]
            rw [if_pos ⟨le_refl i, hlt, h401, Or.inl rfl⟩]
          · rw [pairsLookup, if_neg (fun hc => hik ((siteId_eq_iff_dlg i k).mp hc))]
            rw [pairsLookup]
            rw [ih (i + (DialogueHandler.collect cmds ExtractionOptions.default
              (cmds.getD i EventCommand.empty).indent (cmds.length + 1) i).2) k
              (by omega)]
            refine if_congr ?_ rfl rfl
            constructor
            · rintro ⟨h1, h2, h3, h4⟩
              refine ⟨by omega, h2, h3, Or.inr ?_⟩
              rcases h4 with hkeq | hbr
              · rcases cg5 with hend | hbreak
                · omega
                · have hm1 := cg3 ((DialogueHandler.collect cmds
                    ExtractionOptions.default (cmds.getD i EventCommand.empty).indent
                    (cmds.length + 1) i).2 - 1) (by omega)
                  have hind1 : (cmds.getD (k - 1) EventCommand.empty).indent =
                      (cmds.getD i EventCommand.empty).indent := by
                    rw [show k - 1 = i + ((DialogueHandler.collect cmds
                      ExtractionOptions.default (cmds.getD i EventCommand.empty).indent
                      (cmds.length + 1) i).2 - 1) by omega, hm1]
                    rfl
                  have hne2 : (cmds.getD k EventCommand.empty).indent ≠
                      (cmds.getD i EventCommand.empty).indent := by
                    intro hh
                    apply hbreak
                    rw [← hkeq]
                    exact ⟨h3, hh⟩
                  intro hc
                  rw [hind1] at hc
                  exact hne2 hc.2.symm
              · exact hbr
            · rintro ⟨h1, h2, h3, h4⟩
              have hik2 : i < k := by
                rcases Nat.eq_or_lt_of_le h1 with h | h
                · exact absurd h hik
                · exact h
              have hkr : i + (DialogueHandler.collect cmds ExtractionOptions.default
                  (cmds.getD i EventCommand.empty).indent (cmds.length + 1) i).2 ≤
                  k := by
                by_contra hkr
                have hm := cg3 (k - i) (by omega)
                have hm1 := cg3 (k - i - 1) (by omega)
                rw [show i + (k - i) = k by omega] at hm
                rw [show i + (k - i - 1) = k - 1 by omega] at hm1
                rcases h4 with h | h
                · omega
                · apply h
                  refine ⟨by rw [hm1]; rfl, ?_⟩
                  rw [hm1, hm]
                  rfl
              refine ⟨hkr, h2, h3, ?_⟩
              by_cases hkeq : k = i + (DialogueHandler.collect cmds
                  ExtractionOptions.default (cmds.getD i EventCommand.empty).indent
                  (cmds.length + 1) i).2
              · exact Or.inl hkeq
              · rcases h4 with h | h
                · omega
                · exact Or.inr h
        · have hkeys := sitePairsAt_keys cmds i
          have hnone : pairsLookup (sitePairsAt cmds i) (siteId k (Str.mk "dialogue")) =
              none := by
            apply pairsLookup_none_of
            intro p hp hc
            obtain ⟨s, hps, hkind⟩ := hkeys p hp
            rw [hps] at hc
            obtain ⟨hik, hs⟩ := siteId_inj _ _ _ _ hc
            rcases hkind with h | ⟨j, h⟩ | h | h
            · subst hik
              rw [sitePairsAt, if_neg h401] at hp
              split at hp
              · split at hp
                · next choices _ =>
                    obtain ⟨j, _, hpj⟩ := choicePairs_keys i choices 0 p hp
                    rw [hps, h] at hpj
                    have := (siteId_inj _ _ _ _ hpj).2
                    exact dlg_ne_chSuffix j this
                · simp at hp
              · split at hp
                · split at hp
                  · next s2 _ =>
                      split at hp
                      · simp at hp
                      · rw [List.mem_singleton] at hp
                        rw [hp] at hps
                        have := (siteId_inj _ _ _ _ hps.symm).2
                        rw [h] at this
                        simp [Str.mk] at this
                  · simp at hp
                · split at hp
                  · split at hp
                    · next s2 _ =>
                        split at hp
                        · simp at hp
                        · split at hp
                          · simp at hp
                          · rw [List.mem_singleton] at hp
                            rw [hp] at hps
                            have := (siteId_inj _ _ _ _ hps.symm).2
                            rw [h] at this
                            simp [Str.mk] at this
                    · simp at hp
                  · simp at hp
            · rw [h] at hs
              exact dlg_ne_chSuffix j hs.symm
            · rw [h] at hs
              simp [Str.mk] at hs
            · rw [h] at hs
              simp [Str.mk] at hs
          rw [hnone, strideAt_not401 cmds i h401, ih (i + 1) k (by omega)]
          refine if_congr ?_ rfl rfl
          constructor
          · rintro ⟨h1, h2, h3, h4⟩
            refine ⟨by omega, h2, h3, ?_⟩
            right
            rcases h4 with hkeq | hbr
            · intro hc
              rw [show k - 1 = i by omega] at hc
              exact h401 hc.1
            · exact hbr
          · rintro ⟨h1, h2, h3, h4⟩
            have h1b : i + 1 ≤ k := by
              rcases Nat.eq_or_lt_of_le h1 with h | h
              · exfalso
                rw [← h] at h3
                exact h401 h3
              · omega
            refine ⟨h1b, h2, h3, ?_⟩
            rcases h4 with h | h
            · exfalso
              rw [h] at h3
              exact h401 h3
            · exact Or.inr h
      · rw [if_neg hlt]
        rw [show pairsLookup [] (siteId k (Str.mk "dialogue")) = none from rfl]
        rw [if_neg (by intro h; omega)]

theorem sitePairsAt_lookup_ne_idx (cmds : List EventCommand) (i k : Nat) (suf : Str)
    (hk : ¬ i = k) :
    pairsLookup (sitePairsAt cmds i) (siteId k suf) = none := by
  apply pairsLookup_none_of
  intro p hp hc
  obtain ⟨s, hps, _⟩ := sitePairsAt_keys cmds i p hp
  rw [hps] at hc
  exact hk (siteId_inj _ _ _ _ hc).1

theorem sitePairsAt_keys_kinds (cmds : List EventCommand) (i : Nat) :
    ∀ p ∈ sitePairsAt cmds i, ∃ s, p.1 = siteId i s ∧
      ((s = Str.mk "dialogue" ∧ (cmds.getD i EventCommand.empty).code = 401) ∨
       ((∃ j, s = Str.mk "choice_" ++ natRepr j) ∧
         (cmds.getD i EventCommand.empty).code = 102) ∨
       (s = Str.mk "choice_branch" ∧ (cmds.getD i EventCommand.empty).code = 402) ∨
       (s = Str.mk "comment" ∧ (cmds.getD i EventCommand.empty).code = 408)) := by
  intro p hp
  rw [sitePairsAt] at hp
  split at hp
  · next h401 =>
      rw [List.mem_singleton] at hp
      exact ⟨Str.mk "dialogue", by rw [hp], Or.inl ⟨rfl, h401⟩⟩
  · split at hp
    · next h102 =>
        split at hp
        · next choices _ =>
            obtain ⟨j, _, hpj⟩ := choicePairs_keys i choices 0 p hp
            exact ⟨Str.mk "choice_" ++ natRepr j, hpj, Or.inr (Or.inl ⟨⟨j, rfl⟩, h102⟩)⟩
        · simp at hp
    · split at hp
      · next h402 =>
          split at hp
          · next s _ =>
              split at hp
              · simp at hp
              · rw [List.mem_singleton] at hp
                exact ⟨Str.mk "choice_branch", by rw [hp],
                  Or.inr (Or.inr (Or.inl ⟨rfl, h402⟩))⟩
          · simp at hp
      · split at hp
        · next h408 =>
            split at hp
            · next s _ =>
                split at hp
                · simp at hp
                · split at hp
                  · simp at hp
                  · rw [List.mem_singleton] at hp
                    exact ⟨Str.mk "comment", by rw [hp],
                      Or.inr (Or.inr (Or.inr ⟨rfl, h408⟩))⟩
            · simp at hp
        · simp at hp

theorem choicePairs_lookup (k : Nat) (choices : List Str) : ∀ j0 j,
    pairsLookup (choicePairs k choices j0) (siteId k (Str.mk "choice_" ++ natRepr j)) =
      if j0 ≤ j then
        match choices[j - j0]? with
        | some s => if s.trimEmpty = true then none else some s
        | none => none
      else none := by
  induction choices with
  | nil =>
      intro j0 j
      rw [show choicePairs k [] j0 = [] from rfl]
      rw [show pairsLookup [] (siteId k (Str.mk "choice_" ++ natRepr j)) = none from rfl]
      split
      · simp
      · rfl
  | cons s rest ih =>
      intro j0 j
      rw [choicePairs, pairsLookup_append]
      by_cases hj : j0 = j
      · subst hj
        by_cases hb : s.trimEmpty = true
        · rw [if_pos hb]
          rw [show pairsLookup [] (siteId k (Str.mk "choice_" ++ natRepr j0)) =
            none from rfl]
          rw [ih (j0 + 1) j0, if_neg (by omega), if_pos (le_refl j0)]
          simp [hb]
        · rw [if_neg hb, pairsLookup, if_pos rfl, if_pos (le_refl j0)]
          simp [hb]
      · have hidne : ¬ (siteId k (Str.mk "choice_" ++ natRepr j0) =
            siteId k (Str.mk "choice_" ++ natRepr j)) := by
          intro hc
          exact hj (chSuffix_inj _ _ (siteId_inj _ _ _ _ hc).2)
        have hhead : pairsLookup (if s.trimEmpty = true then [] else
            [(siteId k (Str.mk "choice_" ++ natRepr j0), s)])
            (siteId k (Str.mk "choice_" ++ natRepr j)) = none := by
          split
          · rfl
          · rw [pairsLookup, if_neg hidne]
            rfl
        rw [hhead, ih (j0 + 1) j]
        by_cases hle : j0 ≤ j
        · rw [if_pos (by omega), if_pos hle]
          rw [show j - j0 = (j - (j0 + 1)) + 1 by omega]
          simp only [List.getElem?_cons_succ]
        · rw [if_neg (by omega), if_neg hle]

theorem expPairs_lookup_ch (cmds : List EventCommand)
    (hgood : ∀ i, i < cmds.length → GoodCmd (cmds.getD i EventCommand.empty)) :
    ∀ fuel i k j, cmds.length ≤ fuel + i →
    pairsLookup (expPairs cmds fuel i) (siteId k (Str.mk "choice_" ++ natRepr j)) =
      if i ≤ k ∧ k < cmds.length then
        match (cmds.getD k EventCommand.empty).get_choices with
        | some choices =>
            match choices[j]? with
            | some s => if s.trimEmpty = true then none else some s
            | none => none
        | none => none
      else none := by
  intro fuel
  induction fuel with
  | zero =>
      intro i k j hfuel
      rw [expPairs, if_neg (by intro h; omega)]
      rfl
  | succ f ih =>
      intro i k j hfuel
      rw [expPairs]
      by_cases hlt : i < cmds.length
      · rw [if_pos hlt, pairsLookup_append]
        by_cases hik : i = k
        · subst hik
          by_cases h401 : (cmds.getD i EventCommand.empty).code = 401
          · obtain ⟨_, _, _, _, _, cg6⟩ := collect_good cmds hgood
              (cmds.getD i EventCommand.empty).indent (cmds.length + 1) i
              (by omega) (by omega)
            have hpos := cg6 hlt h401 rfl
            have hgc : (cmds.getD i EventCommand.empty).get_choices = none := by
              rw [EventCommand.get_choices, if_pos (by rw [h401]; decide)]
            rw [sitePairsAt, strideAt]
            simp only [if_pos h401]
            rw [pairsLookup,
              if_neg (fun hc => dlg_ne_chSuffix j (siteId_inj _ _ _ _ hc).2),
              pairsLookup, ih _ i j (by omega), if_neg (by intro h; omega),
              if_pos ⟨le_refl i, hlt⟩, hgc]
          · by_cases h102 : (cmds.getD i EventCommand.empty).code = 102
            · rw [sitePairsAt, strideAt]
              simp only [if_neg h401, if_pos h102]
              cases hgc : (cmds.getD i EventCommand.empty).get_choices with
              | none =>
                  simp only [hgc]
                  rw [show pairsLookup []
                    (siteId i (Str.mk "choice_" ++ natRepr j)) = none from rfl]
                  rw [ih (i + 1) i j (by omega), if_neg (by intro h; omega),
                    if_pos ⟨le_refl i, hlt⟩]
              | some choices =>
                  simp only [hgc]
                  rw [choicePairs_lookup i choices 0 j, if_pos (Nat.zero_le j),
                    Nat.sub_zero]
                  rw [ih (i + 1) i j (by omega), if_neg (by intro h; omega),
                    if_pos ⟨le_refl i, hlt⟩]
                  cases hcj : choices[j]? with
                  | none => simp [hcj]
                  | some s =>
                      by_cases hb : s.trimEmpty = true
                      · simp [hcj, hb]
                      · simp [hcj, hb]
            · have hgc : (cmds.getD i EventCommand.empty).get_choices = none := by
                rw [EventCommand.get_choices, if_pos h102]
              have hnone : pairsLookup (sitePairsAt cmds i)
                  (siteId i (Str.mk "choice_" ++ natRepr j)) = none := by
                apply pairsLookup_none_of
                intro p hp hc
                obtain ⟨s, hps, hkind⟩ := sitePairsAt_keys_kinds cmds i p hp
                rw [hps] at hc
                have hs := (siteId_inj _ _ _ _ hc).2
                rcases hkind with ⟨hsd, hcode⟩ | ⟨⟨j2, hsd⟩, hcode⟩ | ⟨hsd, _⟩ |
                    ⟨hsd, _⟩
                · exact h401 hcode
                · exact h102 hcode
                · rw [hsd] at hs; exact br_ne_chSuffix j hs
                · rw [hsd] at hs; exact cm_ne_chSuffix j hs
              rw [hnone, strideAt_not401 cmds i h401,
                ih (i + 1) i j (by omega), if_neg (by intro h; omega),
                if_pos ⟨le_refl i, hlt⟩, hgc]
        · rw [sitePairsAt_lookup_ne_idx cmds i k _ hik]
          by_cases h401 : (cmds.getD i EventCommand.empty).code = 401
          · obtain ⟨_, _, cg3, _, _, cg6⟩ := collect_good cmds hgood
              (cmds.getD i EventCommand.empty).indent (cmds.length + 1) i
              (by omega) (by omega)
            have hpos := cg6 hlt h401 rfl
            have hst : strideAt cmds i = (DialogueHandler.collect cmds
                ExtractionOptions.default (cmds.getD i EventCommand.empty).indent
                (cmds.length + 1) i).2 := by
              rw [strideAt, if_pos h401]
            rw [hst, ih _ k j (by omega)]
            by_cases hc1 : i + (DialogueHandler.collect cmds ExtractionOptions.default
                (cmds.getD i EventCommand.empty).indent (cmds.length + 1) i).2 ≤ k ∧
                k < cmds.length
            · rw [if_pos hc1, if_pos ⟨by omega, hc1.2⟩]
            · rw [if_neg hc1]
              by_cases hc2 : i ≤ k ∧ k < cmds.length
              · rw [if_pos hc2]
                have hm := cg3 (k - i) (by omega)
                rw [show i + (k - i) = k by omega] at hm
                have hgck : (cmds.getD k EventCommand.empty).get_choices = none := by
                  rw [hm]; rfl
                rw [hgck]
              · rw [if_neg hc2]
          · rw [strideAt_not401 cmds i h401, ih (i + 1) k j (by omega)]
            by_cases hc2 : i ≤ k ∧ k < cmds.length
            · rw [if_pos ⟨by omega, hc2.2⟩, if_pos hc2]
            · rw [if_neg (by intro hh; exact hc2 ⟨by omega, hh.2⟩), if_neg hc2]
      · rw [if_neg hlt]
        rw [show pairsLookup [] (siteId k (Str.mk "choice_" ++ natRepr j)) =
          none from rfl]
        rw [if_neg (by intro h; omega)]

theorem strideAt_pos (cmds : List EventCommand)
    (hgood : ∀ i, i < cmds.length → GoodCmd (cmds.getD i EventCommand.empty))
    (i : Nat) (hlt : i < cmds.length) : 1 ≤ strideAt cmds i := by
  rw [strideAt]
  split
  · next h401 =>
      obtain ⟨_, _, _, _, _, cg6⟩ := collect_good cmds hgood
        (cmds.getD i EventCommand.empty).indent (cmds.length + 1) i
        (by omega) (by omega)
      exact cg6 hlt h401 rfl
  · exact le_refl 1

theorem sitePairsAt_lookup_br_ne (cmds : List EventCommand) (i : Nat)
    (h402 : ¬ (cmds.getD i EventCommand.empty).code = 402) :
    pairsLookup (sitePairsAt cmds i) (siteId i (Str.mk "choice_branch")) = none := by
  apply pairsLookup_none_of
  intro p hp hc
  obtain ⟨s, hps, hkind⟩ := sitePairsAt_keys_kinds cmds i p hp
  rw [hps] at hc
  have hs := (siteId_inj _ _ _ _ hc).2
  rcases hkind with ⟨hsd, _⟩ | ⟨⟨j2, hsd⟩, _⟩ | ⟨_, hcode⟩ | ⟨hsd, _⟩
  · rw [hsd] at hs; simp [Str.mk] at hs
  · rw [hsd] at hs; exact br_ne_chSuffix j2 hs.symm
  · exact h402 hcode
  · rw [hsd] at hs; simp [Str.mk] at hs

theorem sitePairsAt_lookup_cm_ne (cmds : List EventCommand) (i : Nat)
    (h408 : ¬ (cmds.getD i EventCommand.empty).code = 408) :
    pairsLookup (sitePairsAt cmds i) (siteId i (Str.mk "comment")) = none := by
  apply pairsLookup_none_of
  intro p hp hc
  obtain ⟨s, hps, hkind⟩ := sitePairsAt_keys_kinds cmds i p hp
  rw [hps] at hc
  have hs := (siteId_inj _ _ _ _ hc).2
  rcases hkind with ⟨hsd, _⟩ | ⟨⟨j2, hsd⟩, _⟩ | ⟨hsd, _⟩ | ⟨_, hcode⟩
  · rw [hsd] at hs; simp [Str.mk] at hs
  · rw [hsd] at hs; exact cm_ne_chSuffix j2 hs.symm
  · rw [hsd] at hs; simp [Str.mk] at hs
  · exact h408 hcode

theorem expPairs_lookup_br (cmds : List EventCommand)
    (hgood : ∀ i, i < cmds.length → GoodCmd (cmds.getD i EventCommand.empty)) :
    ∀ fuel i k, cmds.length ≤ fuel + i →
    pairsLookup (expPairs cmds fuel i) (siteId k (Str.mk "choice_branch")) =
      if i ≤ k ∧ k < cmds.length then
        match (cmds.getD k EventCommand.empty).get_choice_text with
        | some s => if s.trimEmpty = true then none else some s
        | none => none
      else none := by
  intro fuel
  induction fuel with
  | zero =>
      intro i k hfuel
      rw [expPairs, if_neg (by intro h; omega)]
      rfl
  | succ f ih =>
      intro i k hfuel
      rw [expPairs]
      by_cases hlt : i < cmds.length
      · rw [if_pos hlt, pairsLookup_append]
        by_cases hik : i = k
        · subst hik
          have hstp := strideAt_pos cmds hgood i hlt
          by_cases h402 : (cmds.getD i EventCommand.empty).code = 402
          · have hst : strideAt cmds i = 1 := by
              rw [strideAt, if_neg (by rw [h402]; decide)]
            rw [hst, sitePairsAt]
            simp only [if_neg (show ¬ (cmds.getD i EventCommand.empty).code = 401 by
                rw [h402]; decide),
              if_neg (show ¬ (cmds.getD i EventCommand.empty).code = 102 by
                rw [h402]; decide), if_pos h402]
            rw [ih (i + 1) i (by omega), if_neg (by intro h; omega),
              if_pos ⟨le_refl i, hlt⟩]
            cases hct : (cmds.getD i EventCommand.empty).get_choice_text with
            | none => rfl
            | some s =>
                by_cases hb : s.trimEmpty = true
                · simp [hb, pairsLookup]
                · simp [hb, pairsLookup]
          · rw [sitePairsAt_lookup_br_ne cmds i h402,
              ih (i + strideAt cmds i) i (by omega), if_neg (by intro h; omega),
              if_pos ⟨le_refl i, hlt⟩]
            rw [EventCommand.get_choice_text, if_pos h402]
        · rw [sitePairsAt_lookup_ne_idx cmds i k _ hik]
          by_cases h401 : (cmds.getD i EventCommand.empty).code = 401
          · obtain ⟨_, _, cg3, _, _, cg6⟩ := collect_good cmds hgood
              (cmds.getD i EventCommand.empty).indent (cmds.length + 1) i
              (by omega) (by omega)
            have hpos := cg6 hlt h401 rfl
            have hst : strideAt cmds i = (DialogueHandler.collect cmds
                ExtractionOptions.default (cmds.getD i EventCommand.empty).indent
                (cmds.length + 1) i).2 := by
              rw [strideAt, if_pos h401]
            rw [hst, ih _ k (by omega)]
            by_cases hc1 : i + (DialogueHandler.collect cmds ExtractionOptions.default
                (cmds.getD i EventCommand.empty).indent (cmds.length + 1) i).2 ≤ k ∧
                k < cmds.length
            · rw [if_pos hc1, if_pos ⟨by omega, hc1.2⟩]
            · rw [if_neg hc1]
              by_cases hc2 : i ≤ k ∧ k < cmds.length
              · rw [if_pos hc2]
                have hm := cg3 (k - i) (by omega)
                rw [show i + (k - i) = k by omega] at hm
                have hck : (cmds.getD k EventCommand.empty).get_choice_text = none := by
                  rw [hm]; rfl
                rw [hck]
              · rw [if_neg hc2]
          · rw [strideAt_not401 cmds i h401, ih (i + 1) k (by omega)]
            by_cases hc2 : i ≤ k ∧ k < cmds.length
            · rw [if_pos ⟨by omega, hc2.2⟩, if_pos hc2]
            · rw [if_neg (by intro hh; exact hc2 ⟨by omega, hh.2⟩), if_neg hc2]
      · rw [if_neg hlt]
        rw [show pairsLookup [] (siteId k (Str.mk "choice_branch")) = none from rfl]
        rw [if_neg (by intro h; omega)]

theorem expPairs_lookup_cm (cmds : List EventCommand)
    (hgood : ∀ i, i < cmds.length → GoodCmd (cmds.getD i EventCommand.empty)) :
    ∀ fuel i k, cmds.length ≤ fuel + i →
    pairsLookup (expPairs cmds fuel i) (siteId k (Str.mk "comment")) =
      if i ≤ k ∧ k < cmds.length then
        match (cmds.getD k EventCommand.empty).get_comment_text with
        | some s =>
            if ExtractionOptions.default.should_skip_comment s = true then none
            else if s.trimEmpty = true then none else some s
        | none => none
      else none := by
  intro fuel
  induction fuel with
  | zero =>
      intro i k hfuel
      rw [expPairs, if_neg (by intro h; omega)]
      rfl
  | succ f ih =>
      intro i k hfuel
      rw [expPairs]
      by_cases hlt : i < cmds.length
      · rw [if_pos hlt, pairsLookup_append]
        by_cases hik : i = k
        · subst hik
          have hstp := strideAt_pos cmds hgood i hlt
          by_cases h408 : (cmds.getD i EventCommand.empty).code = 408
          · have hst : strideAt cmds i = 1 := by
              rw [strideAt, if_neg (by rw [h408]; decide)]
            rw [hst, sitePairsAt]
            simp only [if_neg (show ¬ (cmds.getD i EventCommand.empty).code = 401 by
                rw [h408]; decide),
              if_neg (show ¬ (cmds.getD i EventCommand.empty).code = 102 by
                rw [h408]; decide),
              if_neg (show ¬ (cmds.getD i EventCommand.empty).code = 402 by
                rw [h408]; decide), if_pos h408]
            rw [ih (i + 1) i (by omega), if_neg (by intro h; omega),
              if_pos ⟨le_refl i, hlt⟩]
            cases hcm : (cmds.getD i EventCommand.empty).get_comment_text with
            | none => rfl
            | some s =>
                by_cases hsk : ExtractionOptions.default.should_skip_comment s = true
                · simp [hsk, pairsLookup]
                · by_cases hb : s.trimEmpty = true
                  · simp [hsk, hb, pairsLookup]
                  · simp [hsk, hb, pairsLookup]
          · rw [sitePairsAt_lookup_cm_ne cmds i h408,
              ih (i + strideAt cmds i) i (by omega), if_neg (by intro h; omega),
              if_pos ⟨le_refl i, hlt⟩]
            rw [EventCommand.get_comment_text, if_pos h408]
        · rw [sitePairsAt_lookup_ne_idx cmds i k _ hik]
          by_cases h401 : (cmds.getD i EventCommand.empty).code = 401
          · obtain ⟨_, _, cg3, _, _, cg6⟩ := collect_good cmds hgood
              (cmds.getD i EventCommand.empty).indent (cmds.length + 1) i
              (by omega) (by omega)
            have hpos := cg6 hlt h401 rfl
            have hst : strideAt cmds i = (DialogueHandler.collect cmds
                ExtractionOptions.default (cmds.getD i EventCommand.empty).indent
                (cmds.length + 1) i).2 := by
              rw [strideAt, if_pos h401]
            rw [hst, ih _ k (by omega)]
            by_cases hc1 : i + (DialogueHandler.collect cmds ExtractionOptions.default
                (cmds.getD i EventCommand.empty).indent (cmds.length + 1) i).2 ≤ k ∧
                k < cmds.length
            · rw [if_pos hc1, if_pos ⟨by omega, hc1.2⟩]
            · rw [if_neg hc1]
              by_cases hc2 : i ≤ k ∧ k < cmds.length
              · rw [if_pos hc2]
                have hm := cg3 (k - i) (by omega)
                rw [show i + (k - i) = k by omega] at hm
                have hck : (cmds.getD k EventCommand.empty).get_comment_text =
                    none := by
                  rw [hm]; rfl
                rw [hck]
              · rw [if_neg hc2]
          · rw [strideAt_not401 cmds i h401, ih (i + 1) k (by omega)]
            by_cases hc2 : i ≤ k ∧ k < cmds.length
            · rw [if_pos ⟨by omega, hc2.2⟩, if_pos hc2]
            · rw [if_neg (by intro hh; exact hc2 ⟨by omega, hh.2⟩), if_neg hc2]
      · rw [if_neg hlt]
        rw [show pairsLookup [] (siteId k (Str.mk "comment")) = none from rfl]
        rw [if_neg (by intro h; omega)]

/-! ### Injection with the identity map is the identity on commands -/

theorem splice_eq_self {α : Type} (l : List α) (i : Nat) (xs : List α) (d : α)
    (hlen : i + xs.length ≤ l.length)
    (hseg : ∀ k, k < xs.length → l.getD (i + k) d = xs.getD k d) :
    l.take i ++ xs ++ l.drop (i + xs.length) = l := by
  have hxs : xs = (l.drop i).take xs.length := by
    apply List.ext_getElem
    · rw [List.length_take, List.length_drop]
      omega
    · intro k hk1 hk2
      rw [List.getElem_take, List.getElem_drop]
      have hk := hseg k hk1
      rw [List.getD_eq_getElem l d (by omega), List.getD_eq_getElem xs d hk1] at hk
      exact hk.symm
  have h1 : l = l.take i ++ ((l.drop i).take xs.length ++ (l.drop i).drop xs.length) := by
    rw [List.take_append_drop, List.take_append_drop]
  rw [List.drop_drop] at h1
  conv_rhs => rw [h1]
  rw [← hxs, List.append_assoc]

theorem Json.as_str_eq (v : Json) (s : Str) (h : v.as_str = some s) :
    v = Json.str s := by
  cases v <;> simp [Json.as_str] at h
  rw [h]

theorem filterMap_as_str_pos (elems : List Json)
    (hall : ∀ e ∈ elems, ∃ s, e = Json.str s) :
    ∀ m, m < elems.length → ∃ s, elems[m]? = some (Json.str s) ∧
      (elems.filterMap Json.as_str)[m]? = some s := by
  induction elems with
  | nil => intro m hm; simp at hm
  | cons e rest ih =>
      intro m hm
      obtain ⟨s, hs⟩ := hall e (List.mem_cons_self _ _)
      subst hs
      cases m with
      | zero => exact ⟨s, by simp, by simp [Json.as_str]⟩
      | succ m2 =>
          obtain ⟨s2, h1, h2⟩ := ih (fun x hx => hall x (List.mem_cons_of_mem _ hx))
            m2 (by simpa using hm)
          refine ⟨s2, by simpa using h1, ?_⟩
          rw [show (Json.str s :: rest).filterMap Json.as_str =
            s :: rest.filterMap Json.as_str by simp [Json.as_str]]
          simpa using h2

theorem injectChoices_id (T : Translations) (base : TranslationPath) (full : List Str)
    (hT : ∀ j, T (base.to_unit_id [] ++ Str.mk "_choice_" ++ natRepr j) =
      match full[j]? with
      | some s => if s.trimEmpty = true then none else some s
      | none => none) :
    ∀ (elems : List Json) (j0 : Nat),
    (∀ m, m < elems.length → ∃ s, elems[m]? = some (Json.str s) ∧
      full[j0 + m]? = some s) →
    (ChoicesHandler.injectChoices elems j0 base T).1 = elems := by
  intro elems
  induction elems with
  | nil => intro j0 _; rfl
  | cons e rest ih =>
      intro j0 hpos
      obtain ⟨s, hs1, hs2⟩ := hpos 0 (by simp)
      simp only [List.getElem?_cons_zero, Option.some.injEq] at hs1
      rw [show j0 + 0 = j0 by omega] at hs2
      rw [ChoicesHandler.injectChoices]
      have hrest := ih (j0 + 1) (by
        intro m hm
        obtain ⟨s2, h1, h2⟩ := hpos (m + 1) (by simpa using hm)
        refine ⟨s2, by simpa using h1, ?_⟩
        rw [show j0 + 1 + m = j0 + (m + 1) by omega]
        exact h2)
      rw [hT j0, hs2]
      by_cases hb : s.trimEmpty = true
      · simp only [if_pos hb, hrest]
      · simp only [if_neg hb, hrest]
        rw [hs1]

theorem Str.trimEmpty_nil : Str.trimEmpty [] = true := rfl

theorem ne_nil_of_not_blank (l : Str) (h : l.trimEmpty = false) : l ≠ [] := by
  intro hc
  rw [hc, Str.trimEmpty_nil] at h
  exact absurd h (by decide)

/-- One injection step with an identity-shaped translation map leaves the
commands unchanged. -/
theorem inject_step_id (cmds : List EventCommand)
    (hgood : ∀ i, i < cmds.length → GoodCmd (cmds.getD i EventCommand.empty))
    (T : Translations)
    (hTdlg : ∀ k, T (siteId k (Str.mk "dialogue")) =
      if 0 ≤ k ∧ k < cmds.length ∧ (cmds.getD k EventCommand.empty).code = 401 ∧
          (k = 0 ∨ ¬ ((cmds.getD (k - 1) EventCommand.empty).code = 401 ∧
            (cmds.getD (k - 1) EventCommand.empty).indent =
              (cmds.getD k EventCommand.empty).indent)) then
        some (joinSep (Str.mk "\n")
          (DialogueHandler.collect cmds ExtractionOptions.default
            (cmds.getD k EventCommand.empty).indent (cmds.length + 1) k).1)
      else none)
    (hTch : ∀ k j, T (siteId k (Str.mk "choice_" ++ natRepr j)) =
      if 0 ≤ k ∧ k < cmds.length then
        match (cmds.getD k EventCommand.empty).get_choices with
        | some choices =>
            match choices[j]? with
            | some s => if s.trimEmpty = true then none else some s
            | none => none
        | none => none
      else none)
    (hTbr : ∀ k, T (siteId k (Str.mk "choice_branch")) =
      if 0 ≤ k ∧ k < cmds.length then
        match (cmds.getD k EventCommand.empty).get_choice_text with
        | some s => if s.trimEmpty = true then none else some s
        | none => none
      else none)
    (hTcm : ∀ k, T (siteId k (Str.mk "comment")) =
      if 0 ≤ k ∧ k < cmds.length then
        match (cmds.getD k EventCommand.empty).get_comment_text with
        | some s =>
            if ExtractionOptions.default.should_skip_comment s = true then none
            else if s.trimEmpty = true then none else some s
        | none => none
      else none)
    (idx : Nat) (hlt : idx < cmds.length) :
    (match HandlerRegistry.withDefaults
        (EventCode.fromInt (cmds.getD idx EventCommand.empty).code) with
     | some tag => tag.runInject cmds idx T
        (TranslationPath.new.append_key (Str.mk "list")) InjectionOptions.default
     | none => (cmds, InjectionResult.new)).1 = cmds := by
  rw [withDefaults_fromInt]
  by_cases h101 : (cmds.getD idx EventCommand.empty).code = 101
  · rw [if_pos h101]
    rfl
  by_cases h401 : (cmds.getD idx EventCommand.empty).code = 401
  · rw [if_neg h101, if_pos h401]
    simp only [HandlerTag.runInject, DialogueHandler.inject]
    rw [generate_unit_id_eq_siteId idx (Str.mk "dialogue") rfl, hTdlg idx]
    by_cases hcnd : 0 ≤ idx ∧ idx < cmds.length ∧
        (cmds.getD idx EventCommand.empty).code = 401 ∧
        (idx = 0 ∨ ¬ ((cmds.getD (idx - 1) EventCommand.empty).code = 401 ∧
          (cmds.getD (idx - 1) EventCommand.empty).indent =
            (cmds.getD idx EventCommand.empty).indent))
    · obtain ⟨cg1, cg2, cg3, cg4, _, cg6⟩ := collect_good cmds hgood
        (cmds.getD idx EventCommand.empty).indent (cmds.length + 1) idx
        (by omega) (by omega)
      have hpos := cg6 hlt h401 rfl
      have hlinesne : (DialogueHandler.collect cmds ExtractionOptions.default
          (cmds.getD idx EventCommand.empty).indent (cmds.length + 1) idx).1 ≠ [] := by
        intro hc
        rw [hc] at cg2
        simp only [List.length_nil] at cg2
        omega
      have hsplit : InjectionOptions.default.split_text
          (joinSep (Str.mk "\n")
            (DialogueHandler.collect cmds ExtractionOptions.default
              (cmds.getD idx EventCommand.empty).indent (cmds.length + 1) idx).1) =
          (DialogueHandler.collect cmds ExtractionOptions.default
            (cmds.getD idx EventCommand.empty).indent (cmds.length + 1) idx).1 := by
        rw [InjectionOptions.split_text]
        rw [show InjectionOptions.default.max_line_length = none from rfl]
        exact rustLines_joinSep _ hlinesne (fun l hl =>
          ⟨(cg1 l hl).1, (cg1 l hl).2.1, ne_nil_of_not_blank l (cg1 l hl).2.2⟩)
      simp only [if_pos hcnd, hsplit,
        countRun_eq_collect cmds ExtractionOptions.default
          (cmds.getD idx EventCommand.empty).indent (cmds.length + 1) idx]
      have hxlen : ((DialogueHandler.collect cmds ExtractionOptions.default
          (cmds.getD idx EventCommand.empty).indent (cmds.length + 1) idx).1.map
            (fun line => EventCommand.dialogue
              (cmds.getD idx EventCommand.empty).indent line)).length =
          (DialogueHandler.collect cmds ExtractionOptions.default
            (cmds.getD idx EventCommand.empty).indent (cmds.length + 1) idx).2 := by
        rw [List.length_map]
        exact cg2
      rw [← hxlen]
      apply splice_eq_self
      · rw [hxlen]
        exact cg4
      · intro k hk
        rw [hxlen] at hk
        have h3 := cg3 k hk
        rw [h3]
        have hkl : k < (DialogueHandler.collect cmds ExtractionOptions.default
            (cmds.getD idx EventCommand.empty).indent (cmds.length + 1)
            idx).1.length := by rw [cg2]; exact hk
        rw [List.getD_eq_getElem ((DialogueHandler.collect cmds
            ExtractionOptions.default (cmds.getD idx EventCommand.empty).indent
            (cmds.length + 1) idx).1.map (fun line => EventCommand.dialogue
              (cmds.getD idx EventCommand.empty).indent line)) EventCommand.empty
          (by rw [List.length_map]; exact hkl)]
        rw [List.getElem_map]
        rw [List.getD_eq_getElem (DialogueHandler.collect cmds
            ExtractionOptions.default (cmds.getD idx EventCommand.empty).indent
            (cmds.length + 1) idx).1 ([] : Str) hkl]
    · rw [if_neg hcnd]
      rfl
  by_cases h102 : (cmds.getD idx EventCommand.empty).code = 102
  · rw [if_neg h101, if_neg h401, if_pos h102]
    simp only [HandlerTag.runInject, ChoicesHandler.inject]
    by_cases hpe : (cmds.getD idx EventCommand.empty).parameters.isEmpty = true
    · rw [if_pos hpe]
    · rw [if_neg hpe]
      cases hp0 : (cmds.getD idx EventCommand.empty).parameters[0]? with
      | none => rfl
      | some v =>
          cases v with
          | arr choices =>
              have hall := (hgood idx hlt).chs h102 choices hp0
              have hgc : (cmds.getD idx EventCommand.empty).get_choices =
                  some (choices.filterMap Json.as_str) := by
                rw [EventCommand.get_choices, if_neg (by rw [h102]; decide)]
                rw [EventCommand.get_array_param, hp0]
                rfl
              have hid : (ChoicesHandler.injectChoices choices 0
                  ((TranslationPath.new.append_key (Str.mk "list")).append_index idx)
                  T).1 = choices := by
                apply injectChoices_id T _ (choices.filterMap Json.as_str)
                · intro j
                  rw [choice_unit_id_eq_siteId idx j, hTch idx j,
                    if_pos ⟨Nat.zero_le idx, hlt⟩, hgc]
                · intro m hm
                  obtain ⟨s, h1, h2⟩ := filterMap_as_str_pos choices hall m hm
                  exact ⟨s, h1, by rw [Nat.zero_add]; exact h2⟩
              simp only [hid]
              have hset : (cmds.getD idx EventCommand.empty).parameters.set 0
                  (Json.arr choices) = (cmds.getD idx EventCommand.empty).parameters :=
                List.set_self _ _ _ hp0
              rw [hset]
              apply List.set_self
              rw [List.getD_eq_getElem _ _ hlt]
              exact List.getElem?_eq_getElem hlt
          | null => rfl
          | bool b => rfl
          | num n => rfl
          | str s => rfl
          | obj kvs => rfl
  by_cases h402 : (cmds.getD idx EventCommand.empty).code = 402
  · rw [if_neg h101, if_neg h401, if_neg h102, if_pos h402]
    simp only [HandlerTag.runInject, ChoiceBranchHandler.inject]
    rw [generate_unit_id_eq_siteId idx (Str.mk "choice_branch") rfl, hTbr idx,
      if_pos ⟨Nat.zero_le idx, hlt⟩]
    cases hct : (cmds.getD idx EventCommand.empty).get_choice_text with
    | none => rfl
    | some s =>
        by_cases hb : s.trimEmpty = true
        · simp only [if_pos hb]
        · simp only [if_neg hb]
          have hsp : (cmds.getD idx EventCommand.empty).get_string_param 1 =
              some s := by
            rw [EventCommand.get_choice_text, if_neg (by rw [h402]; decide)] at hct
            exact hct
          rw [EventCommand.get_string_param] at hsp
          cases hp1 : (cmds.getD idx EventCommand.empty).parameters[1]? with
          | none => rw [hp1] at hsp; simp at hsp
          | some v =>
              rw [hp1] at hsp
              rw [Option.some_bind] at hsp
              have hv := Json.as_str_eq v s hsp
              subst hv
              have hlen2 : 2 ≤ (cmds.getD idx EventCommand.empty).parameters.length := by
                obtain ⟨h, -⟩ := List.getElem?_eq_some_iff.mp hp1
                omega
              rw [if_pos hlen2]
              have hset : (cmds.getD idx EventCommand.empty).parameters.set 1
                  (Json.str s) = (cmds.getD idx EventCommand.empty).parameters :=
                List.set_self _ _ _ hp1
              rw [hset]
              apply List.set_self
              rw [List.getD_eq_getElem _ _ hlt]
              exact List.getElem?_eq_getElem hlt
  by_cases h408 : (cmds.getD idx EventCommand.empty).code = 408
  · rw [if_neg h101, if_neg h401, if_neg h102, if_neg h402, if_pos h408]
    simp only [HandlerTag.runInject, CommentHandler.inject]
    rw [generate_unit_id_eq_siteId idx (Str.mk "comment") rfl, hTcm idx,
      if_pos ⟨Nat.zero_le idx, hlt⟩]
    cases hcm : (cmds.getD idx EventCommand.empty).get_comment_text with
    | none => rfl
    | some s =>
        by_cases hsk : ExtractionOptions.default.should_skip_comment s = true
        · simp only [if_pos hsk]
        · simp only [if_neg hsk]
          by_cases hb : s.trimEmpty = true
          · simp only [if_pos hb]
          · simp only [if_neg hb]
            have hsp : (cmds.getD idx EventCommand.empty).get_string_param 0 =
                some s := by
              rw [EventCommand.get_comment_text, if_neg (by rw [h408]; decide)] at hcm
              exact hcm
            rw [EventCommand.get_string_param] at hsp
            cases hp0 : (cmds.getD idx EventCommand.empty).parameters[0]? with
            | none => rw [hp0] at hsp; simp at hsp
            | some v =>
                rw [hp0] at hsp
                rw [Option.some_bind] at hsp
                have hv := Json.as_str_eq v s hsp
                subst hv
                have hne : ¬ (cmds.getD idx EventCommand.empty).parameters.isEmpty =
                    true := by
                  have := List.getElem?_eq_some_iff.mp hp0
                  intro hc
                  rw [List.isEmpty_iff] at hc
                  rw [hc] at this
                  simp at this
                rw [if_pos hne]
                have hset : (cmds.getD idx EventCommand.empty).parameters.set 0
                    (Json.str s) = (cmds.getD idx EventCommand.empty).parameters :=
                  List.set_self _ _ _ hp0
                rw [hset]
                apply List.set_self
                rw [List.getD_eq_getElem _ _ hlt]
                exact List.getElem?_eq_getElem hlt
  by_cases h357 : (cmds.getD idx EventCommand.empty).code = 357
  · exact absurd h357 (hgood idx hlt).not_plugin
  · rw [if_neg h101, if_neg h401, if_neg h102, if_neg h402, if_neg h408, if_neg h357]

/-! ## Injection with the extracted identity translations (C1, amended) -/

theorem inject_loop_id (cmds : List EventCommand)
    (hgood : ∀ i, i < cmds.length → GoodCmd (cmds.getD i EventCommand.empty))
    (T : Translations)
    (hTdlg : ∀ k, T (siteId k (Str.mk "dialogue")) =
      if 0 ≤ k ∧ k < cmds.length ∧ (cmds.getD k EventCommand.empty).code = 401 ∧
          (k = 0 ∨ ¬ ((cmds.getD (k - 1) EventCommand.empty).code = 401 ∧
            (cmds.getD (k - 1) EventCommand.empty).indent =
              (cmds.getD k EventCommand.empty).indent)) then
        some (joinSep (Str.mk "\n")
          (DialogueHandler.collect cmds ExtractionOptions.default
            (cmds.getD k EventCommand.empty).indent (cmds.length + 1) k).1)
      else none)
    (hTch : ∀ k j, T (siteId k (Str.mk "choice_" ++ natRepr j)) =
      if 0 ≤ k ∧ k < cmds.length then
        match (cmds.getD k EventCommand.empty).get_choices with
        | some choices =>
            match choices[j]? with
            | some s => if s.trimEmpty = true then none else some s
            | none => none
        | none => none
      else none)
    (hTbr : ∀ k, T (siteId k (Str.mk "choice_branch")) =
      if 0 ≤ k ∧ k < cmds.length then
        match (cmds.getD k EventCommand.empty).get_choice_text with
        | some s => if s.trimEmpty = true then none else some s
        | none => none
      else none)
    (hTcm : ∀ k, T (siteId k (Str.mk "comment")) =
      if 0 ≤ k ∧ k < cmds.length then
        match (cmds.getD k EventCommand.empty).get_comment_text with
        | some s =>
            if ExtractionOptions.default.should_skip_comment s = true then none
            else if s.trimEmpty = true then none else some s
        | none => none
      else none) :
    ∀ fuel index acc,
    (inject_loop HandlerRegistry.withDefaults T
      (TranslationPath.new.append_key (Str.mk "list")) InjectionOptions.default
      fuel index cmds acc).1 = cmds := by
  intro fuel
  induction fuel with
  | zero => intro index acc; rfl
  | succ f ih =>
      intro index acc
      rw [inject_loop]
      by_cases h : index < cmds.length
      · have hstep := inject_step_id cmds hgood T hTdlg hTch hTbr hTcm index h
        cases hreg : HandlerRegistry.withDefaults
            (EventCode.fromInt (cmds.getD index EventCommand.empty).code) with
        | none =>
            simp only [hreg] at hstep
            simp only [if_pos h, hreg]
            exact ih (index + 1) _
        | some tag =>
            simp only [hreg] at hstep
            simp only [if_pos h, hreg]
            rw [hstep]
            exact ih (index + 1) _
      · rw [if_neg h]

/-! ## Serde round trip for well-ranged commands -/

theorem parse_command_to_json (c : EventCommand)
    (h1 : -(2 ^ 31) ≤ c.code) (h2 : c.code < 2 ^ 31)
    (h3 : -(2 ^ 31) ≤ c.indent) (h4 : c.indent < 2 ^ 31) :
    parse_command (command_to_json c) = some c := by
  obtain ⟨code, indent, params⟩ := c
  have g1 : Json.getKey (Str.mk "code")
      [(Str.mk "code", Json.num code), (Str.mk "indent", Json.num indent),
        (Str.mk "parameters", Json.arr params)] = some (Json.num code) := rfl
  have g2 : Json.getKey (Str.mk "indent")
      [(Str.mk "code", Json.num code), (Str.mk "indent", Json.num indent),
        (Str.mk "parameters", Json.arr params)] = some (Json.num indent) := rfl
  have g3 : Json.getKey (Str.mk "parameters")
      [(Str.mk "code", Json.num code), (Str.mk "indent", Json.num indent),
        (Str.mk "parameters", Json.arr params)] = some (Json.arr params) := rfl
  simp only [command_to_json, parse_command, g1, g2, g3]
  rw [if_pos ⟨h1, h2⟩, if_pos ⟨h3, h4⟩]

theorem parse_commands_to_json (cmds : List EventCommand)
    (h : ∀ c ∈ cmds, -(2 ^ 31) ≤ c.code ∧ c.code < 2 ^ 31 ∧
      -(2 ^ 31) ≤ c.indent ∧ c.indent < 2 ^ 31) :
    parse_commands (commands_to_json cmds) = cmds := by
  have key : ∀ l : List EventCommand,
      (∀ c ∈ l, -(2 ^ 31) ≤ c.code ∧ c.code < 2 ^ 31 ∧
        -(2 ^ 31) ≤ c.indent ∧ c.indent < 2 ^ 31) →
      (l.map command_to_json).filterMap parse_command = l := by
    intro l
    induction l with
    | nil => intro _; rfl
    | cons c cs ih =>
        intro hl
        obtain ⟨hc1, hc2, hc3, hc4⟩ := hl c (List.mem_cons_self c cs)
        simp only [List.map_cons, List.filterMap_cons,
          parse_command_to_json c hc1 hc2 hc3 hc4]
        rw [ih (fun d hd => hl d (List.mem_cons_of_mem c hd))]
  rw [commands_to_json, parse_commands]
  exact key cmds h

/-- C1 (amended): for a command list in which every command has i32-ranged
code and indent, is not a plugin command (357), every 401 carries exactly one
string parameter that is free of newlines and carriage returns and not blank,
and every 102 choice array holds only strings, extracting from the canonical
JSON form with the default registry and options, turning the units into the
identity translation map, and injecting that map back returns the JSON
unchanged. -/
theorem C1_roundtrip_amended (cmds : List EventCommand)
    (hgood : ∀ i, i < cmds.length → GoodCmd (cmds.getD i EventCommand.empty))
    (ctx : ExtractionContext) :
    (inject_to_list HandlerRegistry.withDefaults (commands_to_json cmds)
        (identityTranslations
          (extract_from_list HandlerRegistry.withDefaults (commands_to_json cmds)
            TranslationPath.new ctx ExtractionOptions.default).1)
        TranslationPath.new InjectionOptions.default).1 = commands_to_json cmds := by
  have hmem : ∀ c ∈ cmds, -(2 ^ 31) ≤ c.code ∧ c.code < 2 ^ 31 ∧
      -(2 ^ 31) ≤ c.indent ∧ c.indent < 2 ^ 31 := by
    intro c hc
    obtain ⟨i, hi, hic⟩ := List.getElem_of_mem hc
    have hg := hgood i hi
    rw [List.getD_eq_getElem _ _ hi, hic] at hg
    exact ⟨hg.code_lb, hg.code_ub, hg.indent_lb, hg.indent_ub⟩
  have hparse : parse_commands (commands_to_json cmds) = cmds :=
    parse_commands_to_json cmds hmem
  have hunits : (extract_from_list HandlerRegistry.withDefaults (commands_to_json cmds)
      TranslationPath.new ctx ExtractionOptions.default).1.map
        (fun u => (u.id, u.original)) = expPairs cmds (cmds.length + 1) 0 := by
    rw [extract_from_list, hparse, extract_from_commands]
    exact extract_units_pairs cmds hgood (cmds.length + 1) 0 ctx
  have hTdlg : ∀ k, identityTranslations
      (extract_from_list HandlerRegistry.withDefaults (commands_to_json cmds)
        TranslationPath.new ctx ExtractionOptions.default).1
      (siteId k (Str.mk "dialogue")) =
      if 0 ≤ k ∧ k < cmds.length ∧ (cmds.getD k EventCommand.empty).code = 401 ∧
          (k = 0 ∨ ¬ ((cmds.getD (k - 1) EventCommand.empty).code = 401 ∧
            (cmds.getD (k - 1) EventCommand.empty).indent =
              (cmds.getD k EventCommand.empty).indent)) then
        some (joinSep (Str.mk "\n")
          (DialogueHandler.collect cmds ExtractionOptions.default
            (cmds.getD k EventCommand.empty).indent (cmds.length + 1) k).1)
      else none := by
    intro k
    rw [identityTranslations_eq_pairsLookup, hunits]
    exact expPairs_lookup_dlg cmds hgood (cmds.length + 1) 0 k (by omega)
  have hTch : ∀ k j, identityTranslations
      (extract_from_list HandlerRegistry.withDefaults (commands_to_json cmds)
        TranslationPath.new ctx ExtractionOptions.default).1
      (siteId k (Str.mk "choice_" ++ natRepr j)) =
      if 0 ≤ k ∧ k < cmds.length then
        match (cmds.getD k EventCommand.empty).get_choices with
        | some choices =>
            match choices[j]? with
            | some s => if s.trimEmpty = true then none else some s
            | none => none
        | none => none
      else none := by
    intro k j
    rw [identityTranslations_eq_pairsLookup, hunits]
    exact expPairs_lookup_ch cmds hgood (cmds.length + 1) 0 k j (by omega)
  have hTbr : ∀ k, identityTranslations
      (extract_from_list HandlerRegistry.withDefaults (commands_to_json cmds)
        TranslationPath.new ctx ExtractionOptions.default).1
      (siteId k (Str.mk "choice_branch")) =
      if 0 ≤ k ∧ k < cmds.length then
        match (cmds.getD k EventCommand.empty).get_choice_text with
        | some s => if s.trimEmpty = true then none else some s
        | none => none
      else none := by
    intro k
    rw [identityTranslations_eq_pairsLookup, hunits]
    exact expPairs_lookup_br cmds hgood (cmds.length + 1) 0 k (by omega)
  have hTcm : ∀ k, identityTranslations
      (extract_from_list HandlerRegistry.withDefaults (commands_to_json cmds)
        TranslationPath.new ctx ExtractionOptions.default).1
      (siteId k (Str.mk "comment")) =
      if 0 ≤ k ∧ k < cmds.length then
        match (cmds.getD k EventCommand.empty).get_comment_text with
        | some s =>
            if ExtractionOptions.default.should_skip_comment s = true then none
            else if s.trimEmpty = true then none else some s
        | none => none
      else none := by
    intro k
    rw [identityTranslations_eq_pairsLookup, hunits]
    exact expPairs_lookup_cm cmds hgood (cmds.length + 1) 0 k (by omega)
  have hloop := inject_loop_id cmds hgood _ hTdlg hTch hTbr hTcm
    (cmds.length + 1) 0 InjectionResult.new
  simp only [inject_to_list, hparse, inject_to_commands]
  rw [hloop, ite_self]

/-- Concrete instance of the amended C1 round trip: a page with a speaker
line, one dialogue line, a choice list, a choice branch and a comment. -/
theorem C1_roundtrip_amended_witness :
    (inject_to_list HandlerRegistry.withDefaults
        (commands_to_json [⟨401, 0, [Json.str (Str.mk "Hi")]⟩,
          ⟨102, 0, [Json.arr [Json.str (Str.mk "Yes"), Json.str (Str.mk "No")]]⟩,
          ⟨402, 1, [Json.num 0, Json.str (Str.mk "Yes")]⟩,
          ⟨408, 1, [Json.str (Str.mk "memo")]⟩])
        (identityTranslations
          (extract_from_list HandlerRegistry.withDefaults
            (commands_to_json [⟨401, 0, [Json.str (Str.mk "Hi")]⟩,
              ⟨102, 0, [Json.arr [Json.str (Str.mk "Yes"), Json.str (Str.mk "No")]]⟩,
              ⟨402, 1, [Json.num 0, Json.str (Str.mk "Yes")]⟩,
              ⟨408, 1, [Json.str (Str.mk "memo")]⟩])
            TranslationPath.new (ExtractionContext.new (Str.mk "Map001.json"))
            ExtractionOptions.default).1)
        TranslationPath.new InjectionOptions.default).1 =
      commands_to_json [⟨401, 0, [Json.str (Str.mk "Hi")]⟩,
        ⟨102, 0, [Json.arr [Json.str (Str.mk "Yes"), Json.str (Str.mk "No")]]⟩,
        ⟨402, 1, [Json.num 0, Json.str (Str.mk "Yes")]⟩,
        ⟨408, 1, [Json.str (Str.mk "memo")]⟩] :=
  C1_roundtrip_amended
    [⟨401, 0, [Json.str (Str.mk "Hi")]⟩,
      ⟨102, 0, [Json.arr [Json.str (Str.mk "Yes"), Json.str (Str.mk "No")]]⟩,
      ⟨402, 1, [Json.num 0, Json.str (Str.mk "Yes")]⟩,
      ⟨408, 1, [Json.str (Str.mk "memo")]⟩]
    (by
      intro i hi
      have h4 : i < 4 := by simpa using hi
      interval_cases i
      · exact ⟨by decide, by decide, by decide, by decide, by decide,
          fun _ => ⟨Str.mk "Hi", rfl, by decide, by decide, by decide⟩,
          fun h => absurd h (by decide)⟩
      · refine ⟨by decide, by decide, by decide, by decide, by decide,
          fun h => absurd h (by decide), ?_⟩
        intro _ elems helems e he
        have harr : some (Json.arr [Json.str (Str.mk "Yes"),
            Json.str (Str.mk "No")]) = some (Json.arr elems) := helems
        injection harr with harr2
        injection harr2 with harr3
        rw [← harr3] at he
        rcases List.mem_cons.mp he with rfl | he2
        · exact ⟨Str.mk "Yes", rfl⟩
        rcases List.mem_cons.mp he2 with rfl | he3
        · exact ⟨Str.mk "No", rfl⟩
        exact absurd he3 (List.not_mem_nil e)
      · exact ⟨by decide, by decide, by decide, by decide, by decide,
          fun h => absurd h (by decide), fun h => absurd h (by decide)⟩
      · exact ⟨by decide, by decide, by decide, by decide, by decide,
          fun h => absurd h (by decide), fun h => absurd h (by decide)⟩)
    (ExtractionContext.new (Str.mk "Map001.json"))
